import Mathlib

/-!
# Things Left Behind: the vehicle generation engine

A shallow embedding of the generation engine of `thingsleftbehind/src/logic`
and of the statements made about it.

Conventions of the embedding.

* JavaScript numbers that hold weights, probabilities and random draws are
  rationals (exact arithmetic); years, sizes and counts are integers.
* `Math.random()` is an explicit stream of draws `Rng`, threaded through
  every function that draws; a function returns the rest of the stream.
* A JavaScript object used as a map is an association list in iteration
  order (`for ... in`, `Object.entries`); `objSet` is property assignment.
  Keys are names, not array indices, so iteration order is insertion order.
* A thrown `Error` is `Except.error`; `null` and `undefined` are `none`.
-/

namespace ThingsLeftBehind

/-! ## Random source -/

/-- The stream of values returned by successive calls of `Math.random()`. -/
abbrev Rng := Nat → ℚ

/-- The value of the next call of `Math.random()`. -/
def Rng.head (r : Rng) : ℚ := r 0

/-- The stream left after one call of `Math.random()`. -/
def Rng.tail (r : Rng) : Rng := fun n => r (n + 1)

/-- Every draw lies in `[0, 1)`, as `Math.random()` promises. -/
def Rng.Valid (r : Rng) : Prop := ∀ n, 0 ≤ r n ∧ r n < 1

/-- The stream that yields the listed draws and then `0` for ever. -/
def Rng.ofList (l : List ℚ) : Rng := fun n => l.getD n 0

/-- `Math.floor(u * n)` for a draw `u` and an integer `n`. -/
def floorMul (u : ℚ) (n : Int) : Int := ⌊u * n⌋

/-- `xs[i]` for an integer index: `undefined` outside the array. -/
def jsIndex {α : Type} (xs : List α) (i : Int) : Option α :=
  if i < 0 then none else xs.get? i.toNat

/-! ## Objects as maps -/

/-- `obj[key] = value`: overwrite in place when the key exists, else append. -/
def objSet {α : Type} : List (String × α) → String → α → List (String × α)
  | [], k, v => [(k, v)]
  | (k', v') :: rest, k, v =>
    if k' = k then (k', v) :: rest else (k', v') :: objSet rest k v

/-- `obj[key]`, `undefined` when the key is absent. -/
def objGet {α : Type} : List (String × α) → String → Option α
  | [], _ => none
  | (k', v') :: rest, k => if k' = k then some v' else objGet rest k

/-- `key.startsWith(pre)`. -/
def startsWith (key pre : String) : Bool := pre.data.isPrefixOf key.data

/-! ## weightedRandom.js -/

/-- The errors the engine throws: the two of `choose`, that of
`chooseRandomScene`, and the `TypeError` of reading a property of `undefined`. -/
inductive GenError where
  | noPositiveWeights
  | chooseFailedUnexpectedly
  | noScenes
  | typeError
  deriving DecidableEq, Repr

/-- A weight map in `for ... in` order. -/
abbrev WeightMap := List (String × ℚ)

/-- First loop of `choose`: the sum of the strictly positive weights. -/
def totalWeight : WeightMap → ℚ → ℚ
  | [], total => total
  | (_, w) :: rest, total => totalWeight rest (if w > 0 then total + w else total)

/-- Second loop of `choose`: the first key whose running sum reaches `roll`. -/
def chooseScan (roll : ℚ) : WeightMap → ℚ → Option String
  | [], _ => none
  | (k, w) :: rest, cumulative =>
    if w ≤ 0 then chooseScan roll rest cumulative
    else if roll ≤ cumulative + w then some k
    else chooseScan roll rest (cumulative + w)

/-- Third loop of `choose`: the first key of positive weight. -/
def firstPositive : WeightMap → Option String
  | [] => none
  | (k, w) :: rest => if w > 0 then some k else firstPositive rest

/-- `choose(weights)`. -/
def choose (weights : WeightMap) (r : Rng) : Except GenError (String × Rng) :=
  let total := totalWeight weights 0
  if total ≤ 0 then .error .noPositiveWeights
  else
    let roll := r.head * total
    match chooseScan roll weights 0 with
    | some k => .ok (k, r.tail)
    | none =>
      match firstPositive weights with
      | some k => .ok (k, r.tail)
      | none => .error .chooseFailedUnexpectedly

/-- `roll(probability)` on the draw `u`. -/
def roll (probability : ℚ) (u : ℚ) : Bool :=
  let clamped := max 0 (min 1 probability)
  decide (u ≤ clamped)

/-! ## yearBias.js -/

/-- `getMultiplier(apocalypseYear, startYear, endYear)` over a number type `R`
with exponential `exp`. -/
def getMultiplier {R : Type} [DivisionRing R] (exp : R → R)
    (apocalypseYear startYear endYear : Int) : R :=
  if apocalypseYear < startYear then 0
  else if apocalypseYear ≤ endYear then 1
  else
    let yearsPastEnd : Int := apocalypseYear - endYear
    let decayRate : R := 15 / 100
    exp (-decayRate * (yearsPastEnd : R))

/-! ## storageMath.js -/

/-- The signed 32-bit integer a JavaScript bitwise operator returns. -/
def toInt32 (n : Int) : Int :=
  let m := n % 2 ^ 32
  if m ≥ 2 ^ 31 then m - 2 ^ 32 else m

/-- `capacityPointsFromSize(size)`, that is `1 << (size - 1)`: the shift
count is taken modulo 32 and the result is a signed 32-bit integer. -/
def capacityPointsFromSize (size : Int) : Int :=
  toInt32 (1 * 2 ^ ((size - 1) % 32).toNat)

/-- `canFit(remainingCapacityPoints, itemSize)`. -/
def canFit (remainingCapacityPoints : Int) (itemSize : Int) : Bool :=
  decide (remainingCapacityPoints ≥ capacityPointsFromSize itemSize)

/-! ## affinityBias.js -/

def MATCH_MULTIPLIER : ℚ := 185 / 100
def MISMATCH_MULTIPLIER : ℚ := 3 / 10
def NEUTRAL_MULTIPLIER : ℚ := 1

/-- `applyVehicleAffinity(baseWeight, itemAffVehicles, vehicleType)`. -/
def applyVehicleAffinity (baseWeight : ℚ) (itemAffVehicles : Option (List String))
    (vehicleType : String) : ℚ :=
  match itemAffVehicles with
  | none => baseWeight * NEUTRAL_MULTIPLIER
  | some l =>
    if l.length = 0 then baseWeight * NEUTRAL_MULTIPLIER
    else if l.contains vehicleType then baseWeight * MATCH_MULTIPLIER
    else baseWeight * MISMATCH_MULTIPLIER

/-- `applyStorageAffinity(baseWeight, itemAffStorage, storageKey)`. -/
def applyStorageAffinity (baseWeight : ℚ) (itemAffStorage : Option (List String))
    (storageKey : String) : ℚ :=
  match itemAffStorage with
  | none => baseWeight * NEUTRAL_MULTIPLIER
  | some l =>
    if l.length = 0 then baseWeight * NEUTRAL_MULTIPLIER
    else if l.contains storageKey then baseWeight * MATCH_MULTIPLIER
    else baseWeight * MISMATCH_MULTIPLIER

/-! ## worldTime.js -/

/-- The values of `TimeUnit`; `other` is any string that is none of the four. -/
inductive TimeUnit where
  | days | weeks | months | years | other
  deriving DecidableEq, Repr

structure WorldTime where
  apocalypseYear : Int
  elapsedAmount : ℚ
  elapsedUnit : TimeUnit

/-- `getCurrentYear()`. -/
def WorldTime.getCurrentYear (w : WorldTime) : ℚ :=
  match w.elapsedUnit with
  | .years => w.apocalypseYear + w.elapsedAmount
  | _ => w.apocalypseYear

/-- `getElapsedDays()`. -/
def WorldTime.getElapsedDays (w : WorldTime) : ℚ :=
  match w.elapsedUnit with
  | .days => w.elapsedAmount
  | .weeks => w.elapsedAmount * 7
  | .months => w.elapsedAmount * 30
  | .years => w.elapsedAmount * 365
  | .other => 0

/-! ## Catalog data -/

/-- A spawn-group descriptor of a variant. -/
structure SpawnGroup where
  min : Option Int
  max : Option Int
  mode : Option String
  deriving DecidableEq, Repr

/-- A variant of an item; `end_` is the property `end`. -/
structure Variant where
  type : String
  comVari : ℚ
  start : Option Int
  end_ : Option Int
  spawnGroup : Option SpawnGroup
  deriving DecidableEq, Repr

/-- The metadata of one state of an item. -/
structure StateData where
  comState : ℚ
  decay : Option ℚ
  ord : Option Int
  deriving DecidableEq, Repr

/-- An item definition of the catalog. -/
structure Item where
  name : String
  category : String
  size : Int
  comBase : ℚ
  affVehicle : Option (List String)
  affStorage : Option (List String)
  comRepeat : Int
  repeatChance : Option ℚ
  variants : List Variant
  itmState : List (String × StateData)
  deriving DecidableEq, Repr

/-- The object stored under a location key of a vehicle; the generator reads
only its `capacity`. -/
structure LocationData where
  capacity : Option Int
  deriving DecidableEq, Repr

/-- A vehicle definition. `entries` lists the own properties of the vehicle
object in `Object.entries` order, each value reduced to what the generator
reads of it (its `capacity`); the property `storageAreas` itself, when
present, is one of them, and the field `storageAreas` holds its keys (`none`
when it is absent). The typed fields are the properties read by name; their
keys start with none of the location prefixes. -/
structure Vehicle where
  type : String
  yearStart : Int
  yearEnd : Int
  color : WeightMap
  trim : Option WeightMap
  trans : List String
  storageAreas : Option (List String)
  entries : List (String × LocationData)
  deriving DecidableEq, Repr

/-- A scene (`SceneData`), with the fields the generator reads. -/
structure SceneData where
  id : String
  affVehicles : List String
  stateBias : Option WeightMap
  deriving DecidableEq, Repr

/-- A generated item record. -/
structure GeneratedItem where
  itemId : String
  displayName : String
  variantType : String
  state : String
  ageDays : ℚ
  size : Int
  isBundle : Bool
  bundleMode : Option String
  deriving DecidableEq, Repr

/-- The `contents` map of a generated vehicle. -/
abbrev Contents := List (String × List GeneratedItem)

/-- The generated vehicle record. -/
structure GeneratedVehicle where
  vehicleData : Vehicle
  year : Int
  color : String
  trim : Option String
  transmission : Option String
  state : String
  contents : Contents
  deriving DecidableEq, Repr

/-- The fields of a `VehicleGenerator`. `mathExp` is the `Math.exp` of the
host, whose results are doubles and therefore rationals. -/
structure VehicleGenerator where
  itemDb : List (String × Item)
  vehicleDb : List (String × Vehicle)
  sceneDb : List (String × SceneData)
  worldTime : WorldTime
  scene : Option SceneData
  mathExp : ℚ → ℚ

/-! ## sceneDatabase.js -/

/-- `chooseRandomScene()`. -/
def chooseRandomScene (scenes : List (String × SceneData)) (r : Rng) :
    Except GenError (Option SceneData × Rng) :=
  let keys := scenes.map Prod.fst
  if keys.length = 0 then .error .noScenes
  else
    let index := floorMul r.head keys.length
    match jsIndex keys index with
    | none => .ok (none, r.tail)
    | some key => .ok (objGet scenes key, r.tail)

/-! ## vehicleGenerator.js: variant and state selection -/

/-- `chooseSafe(weightMap)`. -/
def chooseSafe (weightMap : Option WeightMap) (r : Rng) :
    Except GenError (Option String × Rng) :=
  match weightMap with
  | none => .ok (none, r)
  | some wm =>
    if wm.length = 0 then .ok (none, r)
    else
      let filtered := wm.filter (fun kw => decide (kw.2 > 0))
      if filtered.length = 0 then .ok (none, r)
      else
        match choose filtered r with
        | .error e => .error e
        | .ok (k, r1) => .ok (some k, r1)

/-- The call `getYearMultiplier(apocalypseYear, variant.start, variant.end)`
of `chooseVariant`, on optional years. `none` is `NaN`: an absent `end` fails
both comparisons and gives `Math.exp(NaN)`; an absent `start` only fails the
first comparison, as a start equal to the apocalypse year does. -/
def getYearMultiplier (exp : ℚ → ℚ) (apocalypseYear : Int)
    (start end_ : Option Int) : Option ℚ :=
  match end_ with
  | some e => some (getMultiplier exp apocalypseYear (start.getD apocalypseYear) e)
  | none =>
    match start with
    | some s => if apocalypseYear < s then some 0 else none
    | none => none

/-- The loop of `chooseVariant` that fills `weightedVariants`. -/
def variantWeights (g : VehicleGenerator) (vehicle : Vehicle) :
    List Variant → WeightMap → WeightMap
  | [], weightedVariants => weightedVariants
  | variant :: rest, weightedVariants =>
    if (match variant.end_ with
        | some e => decide (e ≠ 0) && decide (vehicle.yearStart > e)
        | none => false) then
      variantWeights g vehicle rest weightedVariants
    else
      match getYearMultiplier g.mathExp g.worldTime.apocalypseYear
          variant.start variant.end_ with
      | none => variantWeights g vehicle rest weightedVariants
      | some yearMultiplier =>
        let finalWeight := variant.comVari * yearMultiplier
        if finalWeight > 0 then
          variantWeights g vehicle rest (objSet weightedVariants variant.type finalWeight)
        else variantWeights g vehicle rest weightedVariants

/-- `chooseVariant(item, vehicle)`. -/
def chooseVariant (g : VehicleGenerator) (item : Item) (vehicle : Vehicle) (r : Rng) :
    Except GenError (Option Variant × Rng) :=
  let weightedVariants := variantWeights g vehicle item.variants []
  if weightedVariants.length = 0 then .ok (none, r)
  else
    match choose weightedVariants r with
    | .error e => .error e
    | .ok (chosenType, r1) =>
      .ok (item.variants.find? (fun v => decide (v.type = chosenType)), r1)

/-- The states that declare both a decay threshold and an ordering index,
as triples `(stateKey, decay, ord)`, in the order of `item.itmState`. -/
def decayCandidates : List (String × StateData) → List (String × ℚ × Int)
  | [] => []
  | (k, d) :: rest =>
    match d.decay, d.ord with
    | some dec, some o => (k, dec, o) :: decayCandidates rest
    | _, _ => decayCandidates rest

/-- The sorted `decayStates` of `chooseStateWithDecay` (a stable sort). -/
def decayStates (itmState : List (String × StateData)) : List (String × ℚ × Int) :=
  (decayCandidates itmState).insertionSort (fun a b => a.2.2 ≤ b.2.2)

/-- The last loop of `chooseStateWithDecay`. -/
def decayWalk (age : ℚ) : List (String × ℚ × Int) → String → String
  | [], finalState => finalState
  | (stateKey, decay, _) :: rest, finalState =>
    decayWalk age rest (if age ≥ decay then stateKey else finalState)

/-- `chooseStateWithDecay(item, elapsedDays)`, returning `(state, ageDays)`. -/
def chooseStateWithDecay (item : Item) (elapsedDays : ℚ) (r : Rng) :
    Except GenError ((String × ℚ) × Rng) :=
  let weightedStates : WeightMap := item.itmState.map (fun kd => (kd.1, kd.2.comState))
  match choose weightedStates r with
  | .error e => .error e
  | .ok (initialState, r1) =>
    let base : Int :=
      if item.category = "consumable_food" then floorMul r1.head 8
      else floorMul r1.head 440
    let age : ℚ := base + elapsedDays
    let r2 := r1.tail
    match objGet item.itmState initialState with
    | none => .error .typeError
    | some stateData =>
      match stateData.decay with
      | none => .ok ((initialState, age), r2)
      | some _ => .ok ((decayWalk age (decayStates item.itmState) initialState, age), r2)

/-! ## vehicleGenerator.js: scene and vehicle selection -/

/-- The partition loop of `chooseVehicle`: `(preferred, fallback)`. -/
def partitionVehicles (apocalypseYear : Int) (scene : SceneData) :
    List (String × Vehicle) → List Vehicle × List Vehicle
  | [] => ([], [])
  | (_, vehicle) :: rest =>
    let (preferred, fallback) := partitionVehicles apocalypseYear scene rest
    if vehicle.yearStart > apocalypseYear then (preferred, fallback)
    else if scene.affVehicles.contains vehicle.type then (vehicle :: preferred, fallback)
    else (preferred, vehicle :: fallback)

/-- `chooseVehicle(scene)`. -/
def chooseVehicle (g : VehicleGenerator) (scene : SceneData) (r : Rng) :
    Option Vehicle × Rng :=
  let (preferred, fallback) := partitionVehicles g.worldTime.apocalypseYear scene g.vehicleDb
  if preferred.length > 0 ∧ r.head < 85 / 100 then
    (jsIndex preferred (floorMul r.tail.head preferred.length), r.tail.tail)
  else
    let r1 := if preferred.length > 0 then r.tail else r
    if fallback.length > 0 then
      (jsIndex fallback (floorMul r1.head fallback.length), r1.tail)
    else (none, r1)

/-- `getAllLocations(vehicle)`. -/
def getAllLocations (vehicle : Vehicle) : List (String × LocationData) :=
  vehicle.entries.filter (fun kv =>
    startsWith kv.1 "stor" || startsWith kv.1 "seat" ||
    startsWith kv.1 "seatUnder" || startsWith kv.1 "hang")

/-! ## vehicleGenerator.js: populating locations -/

/-- The bundle count of `populateHanger` and `populateStorageLocation`
("Determine bundle count"). -/
def spawnCount (variant : Variant) (r : Rng) : Int × Rng :=
  match variant.spawnGroup with
  | none => (1, r)
  | some sg =>
    let min := sg.min.getD 2
    let max := sg.max.getD min
    (min + floorMul r.head (max - min + 1), r.tail)

/-- The record pushed by `results.push`. -/
def makeRecord (item : Item) (variant : Variant) (state : String) (ageDays : ℚ) :
    GeneratedItem :=
  { itemId := item.name
    displayName := variant.type ++ " " ++ item.name
    variantType := variant.type
    state := state
    ageDays := ageDays
    size := item.size
    isBundle := variant.spawnGroup.isSome
    bundleMode := match variant.spawnGroup with
      | some sg => sg.mode
      | none => none }

/-- The statements shared by `populateHanger` (lines 234-260) and
`populateStorageLocation` (lines 304-330): choose a variant (`none` is the
`continue` taken when there is none), a state and an age, the bundle count,
and the records pushed. -/
def spawnRecords (g : VehicleGenerator) (item : Item) (vehicle : Vehicle) (r : Rng) :
    Except GenError (Option (List GeneratedItem) × Rng) :=
  match chooseVariant g item vehicle r with
  | .error e => .error e
  | .ok (none, r1) => .ok (none, r1)
  | .ok (some variant, r1) =>
    let elapsedDays := g.worldTime.getElapsedDays
    match chooseStateWithDecay item elapsedDays r1 with
    | .error e => .error e
    | .ok ((state, ageDays), r2) =>
      let (count, r3) := spawnCount variant r2
      .ok (some (List.replicate count.toNat (makeRecord item variant state ageDays)), r3)

/-- The `for` loop of `populateHanger`. -/
def hangerLoop (g : VehicleGenerator) (itemPresence : String → Bool) (hangerKey : String)
    (vehicle : Vehicle) (itemSpawnCounts : String → Nat) (maxItems : Int) :
    List (String × Item) → List GeneratedItem → Rng →
    Except GenError (List GeneratedItem × Rng)
  | [], results, r => .ok (results, r)
  | (itemKey, item) :: rest, results, r =>
    let prior := itemSpawnCounts itemKey
    if prior > 0 ∧ item.comRepeat = 0 then
      hangerLoop g itemPresence hangerKey vehicle itemSpawnCounts maxItems rest results r
    else if !itemPresence itemKey then
      hangerLoop g itemPresence hangerKey vehicle itemSpawnCounts maxItems rest results r
    else if (results.length : Int) ≥ maxItems then .ok (results, r)
    else if (match item.affStorage with
        | none => true
        | some l => !l.contains hangerKey) then
      hangerLoop g itemPresence hangerKey vehicle itemSpawnCounts maxItems rest results r
    else
      match spawnRecords g item vehicle r with
      | .error e => .error e
      | .ok (none, r1) =>
        hangerLoop g itemPresence hangerKey vehicle itemSpawnCounts maxItems rest results r1
      | .ok (some records, r1) =>
        if r1.head > 6 / 10 then .ok (results ++ records, r1.tail)
        else
          hangerLoop g itemPresence hangerKey vehicle itemSpawnCounts maxItems rest
            (results ++ records) r1.tail

/-- `populateHanger(hangerKey, vehicle, itemSpawnCounts)`. -/
def populateHanger (g : VehicleGenerator) (itemPresence : String → Bool)
    (hangerKey : String) (vehicle : Vehicle) (itemSpawnCounts : String → Nat) (r : Rng) :
    Except GenError (List GeneratedItem × Rng) :=
  if r.head > 2 / 10 then .ok ([], r.tail)
  else
    let maxItems := 1 + floorMul r.tail.head 3
    hangerLoop g itemPresence hangerKey vehicle itemSpawnCounts maxItems g.itemDb []
      r.tail.tail

/-- The local state of `populateStorageLocation`: `results`,
`remainingCapacity`, the shared `itemSpawnCounts`, and the random source. -/
structure StorageState where
  results : List GeneratedItem
  remainingCapacity : Int
  itemSpawnCounts : String → Nat
  rng : Rng

/-- The end of an iteration of `populateStorageLocation` that accepts an
item: the records are pushed, the item's points are deducted from
`remainingCapacity` and `itemSpawnCounts[itemKey]` is incremented. -/
def StorageState.accept (st : StorageState) (itemKey : String) (itemPoints : Int)
    (records : List GeneratedItem) (r : Rng) : StorageState :=
  { results := st.results ++ records
    remainingCapacity := st.remainingCapacity - itemPoints
    itemSpawnCounts := fun k =>
      if k = itemKey then st.itemSpawnCounts itemKey + 1 else st.itemSpawnCounts k
    rng := r }

/-- The `for` loop of `populateStorageLocation`. -/
def storageLoop (g : VehicleGenerator) (itemPresence : String → Bool) (storageKey : String)
    (vehicle : Vehicle) (fullness : ℚ) :
    List (String × Item) → StorageState → Except GenError StorageState
  | [], st => .ok st
  | (itemKey, item) :: rest, st =>
    let prior := st.itemSpawnCounts itemKey
    if prior > 0 ∧ item.comRepeat = 0 then
      storageLoop g itemPresence storageKey vehicle fullness rest st
    else if !itemPresence itemKey then
      storageLoop g itemPresence storageKey vehicle fullness rest st
    else
      let itemPoints := capacityPointsFromSize item.size
      if itemPoints > st.remainingCapacity then
        storageLoop g itemPresence storageKey vehicle fullness rest st
      else
        let weight := applyStorageAffinity
          (applyVehicleAffinity item.comBase item.affVehicle vehicle.type)
          item.affStorage storageKey
        if prior > 0 ∧ st.rng.head > item.repeatChance.getD (25 / 100) then
          storageLoop g itemPresence storageKey vehicle fullness rest
            { st with rng := st.rng.tail }
        else
          let r1 := if prior > 0 then st.rng.tail else st.rng
          if !roll weight r1.head then
            storageLoop g itemPresence storageKey vehicle fullness rest
              { st with rng := r1.tail }
          else
            match spawnRecords g item vehicle r1.tail with
            | .error e => .error e
            | .ok (none, r2) =>
              storageLoop g itemPresence storageKey vehicle fullness rest
                { st with rng := r2 }
            | .ok (some records, r2) =>
              let st1 := st.accept itemKey itemPoints records r2.tail
              if r2.head > fullness then .ok st1
              else storageLoop g itemPresence storageKey vehicle fullness rest st1

/-- `populateStorageLocation(storageKey, capacity, vehicle, itemSpawnCounts)`,
returning the final local state (the function itself returns `results`). -/
def populateStorageLocation (g : VehicleGenerator) (itemPresence : String → Bool)
    (storageKey : String) (capacity : Int) (vehicle : Vehicle)
    (itemSpawnCounts : String → Nat) (r : Rng) : Except GenError StorageState :=
  let remainingCapacity := capacityPointsFromSize capacity
  let st0 : StorageState :=
    { results := [], remainingCapacity := remainingCapacity,
      itemSpawnCounts := itemSpawnCounts, rng := r }
  if startsWith storageKey "seatUnder" ∧ r.head > 95 / 100 then
    .ok { st0 with rng := r.tail }
  else
    let r1 := if startsWith storageKey "seatUnder" then r.tail else r
    if startsWith storageKey "seat" ∧ r1.head > 35 / 100 then
      .ok { st0 with rng := r1.tail }
    else
      let r2 := if startsWith storageKey "seat" then r1.tail else r1
      let fullness := r2.head
      storageLoop g itemPresence storageKey vehicle fullness g.itemDb
        { st0 with rng := r2.tail }

/-! ## vehicleGenerator.js: the main entry point -/

/-- The loop of `generateSingleVehicle` that fills `this.itemPresence`. -/
def rollPresence : List (String × Item) → (String → Bool) → Rng → (String → Bool) × Rng
  | [], itemPresence, r => (itemPresence, r)
  | (itemKey, item) :: rest, itemPresence, r =>
    rollPresence rest
      (fun k => if k = itemKey then decide (r.head < item.comBase) else itemPresence k)
      r.tail

/-- The model year: `vehicle.yearStart + Math.floor(u * (maxYear -
vehicle.yearStart + 1))` on the draw `u`. -/
def resolveYear (vehicle : Vehicle) (apocalypseYear : Int) (u : ℚ) : Int :=
  let maxYear := min vehicle.yearEnd apocalypseYear
  vehicle.yearStart + floorMul u (maxYear - vehicle.yearStart + 1)

/-- The two loops that initialise `generated.contents`. -/
def initContents (vehicle : Vehicle) : Contents :=
  let c0 : Contents := (vehicle.storageAreas.getD []).foldl (fun c k => objSet c k []) []
  ((getAllLocations vehicle).map Prod.fst).foldl (fun c k => objSet c k []) c0

/-- The loop "Populate locations" of `generateSingleVehicle`. -/
def populateLocations (g : VehicleGenerator) (itemPresence : String → Bool)
    (vehicle : Vehicle) :
    List (String × LocationData) → Contents → (String → Nat) → Rng →
    Except GenError (Contents × (String → Nat) × Rng)
  | [], contents, itemSpawnCounts, r => .ok (contents, itemSpawnCounts, r)
  | (key, loc) :: rest, contents, itemSpawnCounts, r =>
    if startsWith key "hang" then
      match populateHanger g itemPresence key vehicle itemSpawnCounts r with
      | .error e => .error e
      | .ok (items, r1) =>
        populateLocations g itemPresence vehicle rest (objSet contents key items)
          itemSpawnCounts r1
    else
      let capacity := loc.capacity.getD 0
      match populateStorageLocation g itemPresence key capacity vehicle itemSpawnCounts r with
      | .error e => .error e
      | .ok st =>
        populateLocations g itemPresence vehicle rest (objSet contents key st.results)
          st.itemSpawnCounts st.rng

/-- The cosmetic attributes of the `generated` literal, in evaluation order:
`(color, trim, transmission)`. -/
def resolveCosmetics (vehicle : Vehicle) (r : Rng) :
    Except GenError ((String × Option String × Option String) × Rng) :=
  match choose vehicle.color r with
  | .error e => .error e
  | .ok (color, r1) =>
    match (match vehicle.trim with
        | none => Except.ok (none, r1)
        | some t =>
          if t.length > 0 then
            match choose t r1 with
            | .error e => .error e
            | .ok (k, r2) => .ok (some k, r2)
          else .ok (none, r1)) with
    | .error e => .error e
    | .ok (trim, r2) =>
      let transmission := jsIndex vehicle.trans (floorMul r2.head vehicle.trans.length)
      .ok ((color, trim, transmission), r2.tail)

/-- The scene stage of `generateSingleVehicle`: `this.scene ?? this.chooseScene()`. -/
def resolveScene (g : VehicleGenerator) (r : Rng) : Except GenError (Option SceneData × Rng) :=
  match g.scene with
  | some sc => .ok (some sc, r)
  | none => chooseRandomScene g.sceneDb r

/-- The state of `generateSingleVehicle` when it returns a vehicle: the
returned record, and the final `itemSpawnCounts` and `itemPresence`. -/
structure GenState where
  generated : GeneratedVehicle
  itemSpawnCounts : String → Nat
  itemPresence : String → Bool
  rng : Rng

/-- `generateSingleVehicle()`, together with its final local state; `none`
is the `null` returned when no vehicle is chosen. -/
def generateSingleVehicleRun (g : VehicleGenerator) (r : Rng) :
    Except GenError (Option GenState) :=
  let (itemPresence, r1) := rollPresence g.itemDb (fun _ => false) r
  match resolveScene g r1 with
  | .error e => .error e
  | .ok (none, _) => .error .typeError
  | .ok (some scene, r2) =>
    match chooseVehicle g scene r2 with
    | (none, _) => .ok none
    | (some vehicle, r3) =>
      let year := resolveYear vehicle g.worldTime.apocalypseYear r3.head
      match chooseSafe scene.stateBias r3.tail with
      | .error e => .error e
      | .ok (state, r4) =>
        match resolveCosmetics vehicle r4 with
        | .error e => .error e
        | .ok ((color, trim, transmission), r5) =>
          match populateLocations g itemPresence vehicle (getAllLocations vehicle)
              (initContents vehicle) (fun _ => 0) r5 with
          | .error e => .error e
          | .ok (contents, itemSpawnCounts, r6) =>
            .ok (some
              { generated :=
                  { vehicleData := vehicle, year := year, color := color, trim := trim,
                    transmission := transmission, state := state.getD "unknown",
                    contents := contents }
                itemSpawnCounts := itemSpawnCounts
                itemPresence := itemPresence
                rng := r6 })

/-- `generateSingleVehicle()`: the generated vehicle, or `none` for `null`. -/
def generateSingleVehicle (g : VehicleGenerator) (r : Rng) :
    Except GenError (Option GeneratedVehicle) :=
  match generateSingleVehicleRun g r with
  | .error e => .error e
  | .ok none => .ok none
  | .ok (some st) => .ok (some st.generated)

/-! ## renderVehicle.js -/

/-- A group of identical items of a location, as built by `groupItems`. -/
structure ItemGroup where
  displayName : String
  state : String
  count : Nat
  isBundle : Bool
  bundleMode : Option String
  deriving DecidableEq, Repr

/-- The key under which `groupItems` files an item; the template literal
prints a `null` bundle mode as `null`. -/
def groupKey (item : GeneratedItem) : String :=
  if item.isBundle then
    "BUNDLE|" ++ item.displayName ++ "|" ++ item.state ++ "|" ++ item.bundleMode.getD "null"
  else item.displayName ++ "|" ++ item.state

/-- One iteration of the loop of `groupItems` on its `Map`, kept as the list
of its entries in insertion order: `map.set` of a fresh group when the key is
new, then `map.get(key).count++`. -/
def groupStep (map : List (String × ItemGroup)) (item : GeneratedItem) :
    List (String × ItemGroup) :=
  let key := groupKey item
  let map1 :=
    if (objGet map key).isSome then map
    else map ++ [(key, { displayName := item.displayName, state := item.state, count := 0,
                          isBundle := item.isBundle, bundleMode := item.bundleMode })]
  map1.map (fun kv => if kv.1 = key then (kv.1, { kv.2 with count := kv.2.count + 1 }) else kv)

/-- `groupItems(items)`. -/
def groupItems (items : List GeneratedItem) : List ItemGroup :=
  (items.foldl groupStep []).map Prod.snd

/-- `name.endsWith(suffix)`. -/
def endsWith (name suffix : String) : Bool := suffix.data.isSuffixOf name.data

/-- `pluralize(name, count)`; `name.slice(0, -1)` drops the last character. -/
def pluralize (name : String) (count : Nat) : String :=
  if count = 1 then name
  else if endsWith name "y" then String.mk name.data.dropLast ++ "ies"
  else if endsWith name "s" then name ++ "es"
  else name ++ "s"

def AN_EXCEPTIONS : List String := ["honest"]

def A_EXCEPTIONS : List String := ["usable", "used"]

/-- The characters that `trim` removes and the pattern `\s` matches. -/
def isJsSpace (c : Char) : Bool :=
  let n := c.toNat
  n = 9 || n = 10 || n = 11 || n = 12 || n = 13 || n = 32 || n = 160 || n = 5760 ||
  (8192 ≤ n && n ≤ 8202) || n = 8232 || n = 8233 || n = 8239 || n = 8287 ||
  n = 12288 || n = 65279

/-- `phrase.trim()`. -/
def jsTrim (phrase : String) : String :=
  String.mk ((phrase.data.dropWhile isJsSpace).reverse.dropWhile isJsSpace).reverse

/-- `phrase.toLowerCase()`, on the letters of ASCII; other characters are
left as they are. -/
def toLowerCase (phrase : String) : String := String.mk (phrase.data.map Char.toLower)

/-- The `firstWord` of `getIndefiniteArticle`:
`phrase.trim().toLowerCase().split(/\s+/)[0]`, the characters of the trimmed
phrase before its first white space. -/
def firstWordOf (phrase : String) : String :=
  String.mk ((toLowerCase (jsTrim phrase)).data.takeWhile (fun c => !isJsSpace c))

/-- `getIndefiniteArticle(phrase)`; a `null` or empty phrase is falsy. -/
def getIndefiniteArticle (phrase : Option String) : String :=
  match phrase with
  | none => "a"
  | some ph =>
    if ph = "" then "a"
    else
      let firstWord := firstWordOf ph
      if AN_EXCEPTIONS.contains firstWord then "an"
      else if A_EXCEPTIONS.contains firstWord then "a"
      else
        match firstWord.data with
        | c :: _ => if ['a', 'e', 'i', 'o', 'u'].contains c.toLower then "an" else "a"
        | [] => "a"

/-- `describeGroup(group)`; `!bundleMode` holds of `null` and of the empty
string. -/
def describeGroup (group : ItemGroup) : String :=
  let isPairLike := group.bundleMode = some "pair" ∨ group.bundleMode = some "set"
  if group.count = 1 then
    let article := getIndefiniteArticle (some (group.state ++ " " ++ group.displayName))
    article ++ " " ++ group.state ++ " " ++ group.displayName
  else if group.isBundle = false ∨ group.bundleMode = none ∨ group.bundleMode = some "" then
    toString group.count ++ " " ++ group.state ++ " " ++
      pluralize group.displayName group.count
  else
    let bundleMode := group.bundleMode.getD ""
    if isPairLike then
      let article := getIndefiniteArticle group.bundleMode
      article ++ " " ++ bundleMode ++ " of " ++ group.state ++ " " ++
        pluralize group.displayName group.count
    else if group.count ≤ 2 then
      toString group.count ++ " " ++ group.state ++ " " ++
        pluralize group.displayName group.count
    else
      let article := getIndefiniteArticle group.bundleMode
      article ++ " " ++ bundleMode ++ " of " ++ group.state ++ " " ++
        pluralize group.displayName group.count ++ " (" ++ toString group.count ++ " in total)"

/-! ## Definitions used to state the properties -/

deriving instance DecidableEq for Except

/-- The sum of the strictly positive weights of a map: the total weight of
the specification, and, on a front part of the map, its cumulative weight. -/
def posSum : WeightMap → ℚ
  | [] => 0
  | (_, w) :: rest => (if w > 0 then w else 0) + posSum rest

/-- The stream `r'` is what is left of `r` after some number of draws. -/
def Rng.IsSuffix (r' r : Rng) : Prop := ∃ k, ∀ n, r' n = r (n + k)

/-- The capacity points charged between two values of `itemSpawnCounts`: one
charge of `capacityPointsFromSize(item.size)` for every acceptance of a
catalog item, an acceptance being an increment of the item's counter. -/
def consumedPoints (itemDb : List (String × Item)) (before after : String → Nat) : Int :=
  (itemDb.map (fun kv =>
    ((after kv.1 : Int) - (before kv.1 : Int)) * capacityPointsFromSize kv.2.size)).sum

/-- The capacity points of the records of a list that are not part of a
bundle, each counted at `capacityPointsFromSize(record.size)`. -/
def nonBundlePoints (items : List GeneratedItem) : Int :=
  ((items.filter (fun rec => !rec.isBundle)).map
    (fun rec => capacityPointsFromSize rec.size)).sum

/-- The capacity points of all the records of a list, each counted at
`capacityPointsFromSize(record.size)`. -/
def recordPoints (items : List GeneratedItem) : Int :=
  (items.map (fun rec => capacityPointsFromSize rec.size)).sum

/-- The number of records of a list that carry the item identifier `name`. -/
def countId (name : String) (items : List GeneratedItem) : Nat :=
  items.countP (fun rec => decide (rec.itemId = name))

/-- The number of records with identifier `name` in all locations. -/
def recordCount (name : String) (contents : Contents) : Nat :=
  (contents.map (fun kv => countId name kv.2)).sum

/-- The number of records with identifier `name` in the locations that are
not hanging points (the storage and seat locations). -/
def nonHangerRecordCount (name : String) (contents : Contents) : Nat :=
  recordCount name (contents.filter (fun kv => !startsWith kv.1 "hang"))

/-- The multiplier of one affinity axis in the words of the specification:
neutral (1) when the item declares no affinity list or an empty one, the
match bonus 1.85 when the tag is in the list, the mismatch penalty 0.3
otherwise. -/
def affinityMultiplier (affinity : Option (List String)) (tag : String) : ℚ :=
  match affinity with
  | none => 1
  | some [] => 1
  | some (a :: l) => if tag ∈ a :: l then 185 / 100 else 3 / 10

/-- The draws of `[0,1)`, as real numbers, that exceed the threshold `t`:
the draws `u` on which a test `Math.random() > t` succeeds. -/
def drawsAbove (t : ℚ) : Set ℝ := {x | 0 ≤ x ∧ x < 1 ∧ (t : ℝ) < x}

/-- The state in which `populateStorageLocation` returns when it skips the
location: nothing placed, the budget and the counters untouched. -/
def skippedState (capacity : Int) (itemSpawnCounts : String → Nat) (r : Rng) : StorageState :=
  { results := [], remainingCapacity := capacityPointsFromSize capacity,
    itemSpawnCounts := itemSpawnCounts, rng := r }

/-- The grouping key of the specification: the bundle flag, the display name
and the state, and for a bundle also its mode. -/
def specKey (item : GeneratedItem) : Bool × String × String × Option String :=
  (item.isBundle, item.displayName, item.state,
    if item.isBundle then item.bundleMode else none)

/-- The items of a list that are the first of their key, in order; `seen`
holds the keys met so far. -/
def firstOccurrences {κ : Type} [DecidableEq κ] (key : GeneratedItem → κ) :
    List κ → List GeneratedItem → List GeneratedItem
  | _, [] => []
  | seen, item :: rest =>
    if key item ∈ seen then firstOccurrences key seen rest
    else item :: firstOccurrences key (key item :: seen) rest

/-- The grouping of the specification: one group for each key of the
specification, in order of first occurrence, described by the first item of
the group and counting the items of the list that have its key. -/
def groupItemsSpec (items : List GeneratedItem) : List ItemGroup :=
  (firstOccurrences specKey [] items).map (fun item =>
    { displayName := item.displayName, state := item.state,
      count := items.countP (fun other => decide (specKey other = specKey item)),
      isBundle := item.isBundle, bundleMode := item.bundleMode })

/-- The display name, the state and the mode of the item do not contain the
separator `|` of the keys of `groupItems`, and the mode is not the text
`null`, which stands for an absent mode in those keys. -/
def SeparatorFree (item : GeneratedItem) : Prop :=
  '|' ∉ item.displayName.data ∧ '|' ∉ item.state.data ∧
  ∀ mode, item.bundleMode = some mode → '|' ∉ mode.data ∧ mode ≠ "null"

/-- The entry that `groupItems` holds for the group of `item` once the items
of `items` have been counted, under a key function `key`. -/
def groupEntry {κ : Type} [DecidableEq κ] (key : GeneratedItem → κ)
    (items : List GeneratedItem) (item : GeneratedItem) : ItemGroup :=
  { displayName := item.displayName, state := item.state,
    count := items.countP (fun other => decide (key other = key item)),
    isBundle := item.isBundle, bundleMode := item.bundleMode }

/-! ## Concrete inputs -/

/-- An item that is unique per vehicle (`comRepeat = 0`), always present and
always rolling, of size 1, whose only variant spawns as a pair. -/
def exSocks : Item :=
  { name := "socks", category := "clothing", size := 1, comBase := 1,
    affVehicle := none, affStorage := none, comRepeat := 0, repeatChance := none,
    variants := [{ type := "wool", comVari := 1, start := some 1900, end_ := some 2100,
                   spawnGroup := some { min := some 2, max := none, mode := some "pair" } }],
    itmState := [("clean", { comState := 1, decay := none, ord := none })] }

/-- A vehicle with one storage location, of capacity 1 (one capacity point). -/
def exCar : Vehicle :=
  { type := "sedan", yearStart := 1990, yearEnd := 2010, color := [("red", 1)],
    trim := none, trans := ["auto"], storageAreas := none,
    entries := [("storTrunk", { capacity := some 1 })] }

/-- A scene that prefers sedans. -/
def exSceneSedan : SceneData := { id := "lot", affVehicles := ["sedan"], stateBias := none }

/-- A scene with no vehicle affinity. -/
def exSceneRoad : SceneData := { id := "road", affVehicles := [], stateBias := none }

/-- A generator over the one-item, one-vehicle catalogs, in the year 2000. -/
def exGen (scene : SceneData) : VehicleGenerator :=
  { itemDb := [("socks", exSocks)], vehicleDb := [("car", exCar)], sceneDb := [],
    worldTime := { apocalypseYear := 2000, elapsedAmount := 0, elapsedUnit := .days },
    scene := some scene,
    mathExp := fun _ => 1 }

/-- The record of the pair of socks that `exGen` places. -/
def exSockRecord : GeneratedItem :=
  { itemId := "socks", displayName := "wool socks", variantType := "wool",
    state := "clean", ageDays := 0, size := 1, isBundle := true, bundleMode := some "pair" }

/-- The vehicle that `exGen exSceneRoad` generates when every draw is 0. -/
def exGenerated : GeneratedVehicle :=
  { vehicleData := exCar, year := 1990, color := "red", trim := none,
    transmission := some "auto", state := "unknown",
    contents := [("storTrunk", [exSockRecord, exSockRecord])] }

/-- An item that is unique per vehicle (`comRepeat = 0`), always present, of
size 1, with one variant that is not a bundle, and an affinity for the mirror
hanging point. -/
def exBottle : Item :=
  { name := "bottle", category := "container", size := 1, comBase := 1,
    affVehicle := none, affStorage := some ["hangMirror"], comRepeat := 0,
    repeatChance := none,
    variants := [{ type := "glass", comVari := 1, start := some 1900, end_ := some 2100,
                   spawnGroup := none }],
    itmState := [("rusted", { comState := 1, decay := none, ord := none })] }

/-- A vehicle with a hanging point and two storage locations. -/
def exVan : Vehicle :=
  { type := "van", yearStart := 1990, yearEnd := 2010, color := [("white", 1)],
    trim := none, trans := ["manual"], storageAreas := none,
    entries := [("hangMirror", { capacity := none }), ("storTrunk", { capacity := some 2 }),
                ("storGlove", { capacity := some 1 })] }

/-- A generator over the catalog of the bottle and the van, in the year 2000. -/
def exGenVan : VehicleGenerator :=
  { itemDb := [("bottle", exBottle)], vehicleDb := [("van", exVan)], sceneDb := [],
    worldTime := { apocalypseYear := 2000, elapsedAmount := 0, elapsedUnit := .days },
    scene := some exSceneRoad,
    mathExp := fun _ => 1 }

/-- The record of the bottle that `exGenVan` places. -/
def exBottleRecord : GeneratedItem :=
  { itemId := "bottle", displayName := "glass bottle", variantType := "glass",
    state := "rusted", ageDays := 0, size := 1, isBundle := false, bundleMode := none }

/-- The vehicle that `exGenVan` generates when every draw is 0. -/
def exGeneratedVan : GeneratedVehicle :=
  { vehicleData := exVan, year := 1990, color := "white", trim := none,
    transmission := some "manual", state := "unknown",
    contents := [("hangMirror", [exBottleRecord]), ("storTrunk", [exBottleRecord]),
                 ("storGlove", [])] }

/-- A glass variant that ended in 1990. -/
def exGlassOld : Variant :=
  { type := "glass", comVari := 1, start := some 1900, end_ := some 1990, spawnGroup := none }

/-- A glass variant, of the same type label, still made in 2100. -/
def exGlassNew : Variant :=
  { type := "glass", comVari := 1, start := some 1995, end_ := some 2100, spawnGroup := none }

/-- An item with two variants that share the type label `glass`. -/
def exJar : Item :=
  { name := "jar", category := "container", size := 1, comBase := 1,
    affVehicle := none, affStorage := none, comRepeat := 1, repeatChance := none,
    variants := [exGlassOld, exGlassNew],
    itmState := [("clean", { comState := 1, decay := none, ord := none })] }

/-- A plastic variant still made in 2100. -/
def exPlasticNew : Variant :=
  { type := "plastic", comVari := 1, start := some 1995, end_ := some 2100,
    spawnGroup := none }

/-- An item with two variants of distinct type labels, the first of which
ended in 1990. -/
def exFlask : Item :=
  { name := "flask", category := "container", size := 1, comBase := 1,
    affVehicle := none, affStorage := none, comRepeat := 1, repeatChance := none,
    variants := [exGlassOld, exPlasticNew],
    itmState := [("clean", { comState := 1, decay := none, ord := none })] }

/-- A vehicle built from the year 2000 on. -/
def exModern : Vehicle :=
  { type := "sedan", yearStart := 2000, yearEnd := 2010, color := [("red", 1)],
    trim := none, trans := ["auto"], storageAreas := none,
    entries := [("storTrunk", { capacity := some 1 })] }

/-- A food item whose three states all declare a decay threshold and an
ordering index: fresh (from day 0), stale (from day 5), rotten (from day 20). -/
def exApple : Item :=
  { name := "apple", category := "consumable_food", size := 1, comBase := 1,
    affVehicle := none, affStorage := none, comRepeat := 1, repeatChance := none,
    variants := [{ type := "red", comVari := 1, start := some 1900, end_ := some 2100,
                   spawnGroup := none }],
    itmState := [("fresh", { comState := 1, decay := some 0, ord := some 0 }),
                 ("rotten", { comState := 1, decay := some 20, ord := some 2 }),
                 ("stale", { comState := 1, decay := some 5, ord := some 1 })] }

/-- An item whose only variant declares a spawn group of minimum -1. -/
def exGhost : Item :=
  { name := "ghost", category := "misc", size := 1, comBase := 1,
    affVehicle := none, affStorage := none, comRepeat := 1, repeatChance := none,
    variants := [{ type := "pale", comVari := 1, start := some 1900, end_ := some 2100,
                   spawnGroup := some { min := some (-1), max := none, mode := some "set" } }],
    itmState := [("clean", { comState := 1, decay := none, ord := none })] }

/-- The bottle with a base spawn probability of 0. -/
def exBottleNever : Item := { exBottle with comBase := 0 }

/-- The generator `exGenVan` with the bottle that never spawns. -/
def exGenNever : VehicleGenerator := { exGenVan with itemDb := [("bottle", exBottleNever)] }

/-- The vehicle that `exGenNever` generates when every draw is 0. -/
def exGeneratedNever : GeneratedVehicle :=
  { exGeneratedVan with
    contents := [("hangMirror", []), ("storTrunk", []), ("storGlove", [])] }

/-- A loose item whose display name contains the separator `|`. -/
def exPipeName : GeneratedItem :=
  { itemId := "x", displayName := "a|b", variantType := "a", state := "c", ageDays := 0,
    size := 1, isBundle := false, bundleMode := none }

/-- A loose item whose state contains the separator `|`. -/
def exPipeState : GeneratedItem :=
  { itemId := "y", displayName := "a", variantType := "a", state := "b|c", ageDays := 0,
    size := 1, isBundle := false, bundleMode := none }

/-- A vehicle whose only location, a shelf, declares no capacity. -/
def exShelfCar : Vehicle :=
  { type := "sedan", yearStart := 1990, yearEnd := 2010, color := [("red", 1)],
    trim := none, trans := ["auto"], storageAreas := none,
    entries := [("storShelf", { capacity := none })] }

/-- The generator `exGen exSceneRoad` over the catalog of the one vehicle `exShelfCar`. -/
def exGenShelf : VehicleGenerator :=
  { exGen exSceneRoad with vehicleDb := [("car", exShelfCar)] }

/-- The vehicle that `exGenShelf` generates when every draw is 0. -/
def exGeneratedShelf : GeneratedVehicle :=
  { vehicleData := exShelfCar, year := 1990, color := "red", trim := none,
    transmission := some "auto", state := "unknown", contents := [("storShelf", [])] }

/-- A food item whose three states all declare a decay threshold and an
ordering index, listed with the last stage first: rotten (from day 20),
fresh (from day 5), stale (from day 10). -/
def exCheese : Item :=
  { name := "cheese", category := "consumable_food", size := 1, comBase := 1,
    affVehicle := none, affStorage := none, comRepeat := 1, repeatChance := none,
    variants := [{ type := "hard", comVari := 1, start := some 1900, end_ := some 2100,
                   spawnGroup := none }],
    itmState := [("rotten", { comState := 1, decay := some 20, ord := some 2 }),
                 ("fresh", { comState := 1, decay := some 5, ord := some 0 }),
                 ("stale", { comState := 1, decay := some 10, ord := some 1 })] }

/-! # Properties -/

/-! ## Weighted choice -/

theorem posSum_nonneg (ws : WeightMap) : 0 ≤ posSum ws := by
  induction ws with
  | nil => simp [posSum]
  | cons kw rest ih =>
    obtain ⟨k, w⟩ := kw
    simp only [posSum]
    split <;> linarith

theorem totalWeight_eq (ws : WeightMap) (t : ℚ) : totalWeight ws t = t + posSum ws := by
  induction ws generalizing t with
  | nil => simp [totalWeight, posSum]
  | cons kw rest ih =>
    obtain ⟨k, w⟩ := kw
    simp only [totalWeight, posSum, ih]
    split <;> ring

theorem posSum_pos_iff (ws : WeightMap) : 0 < posSum ws ↔ ∃ kw ∈ ws, 0 < kw.2 := by
  induction ws with
  | nil => simp [posSum]
  | cons kw rest ih =>
    obtain ⟨k, w⟩ := kw
    have hn := posSum_nonneg rest
    simp only [posSum, List.mem_cons, exists_eq_or_imp]
    by_cases hw : w > 0
    · rw [if_pos hw]
      constructor
      · intro _; exact Or.inl hw
      · intro _; linarith
    · rw [if_neg hw, zero_add, ih]
      constructor
      · intro h; exact Or.inr h
      · rintro (h | h)
        · exact absurd h hw
        · exact h

theorem firstPositive_eq_none_iff (ws : WeightMap) :
    firstPositive ws = none ↔ ∀ kw ∈ ws, kw.2 ≤ 0 := by
  induction ws with
  | nil => simp [firstPositive]
  | cons kw rest ih =>
    obtain ⟨k, w⟩ := kw
    simp only [firstPositive, List.mem_cons, forall_eq_or_imp]
    by_cases hw : w > 0
    · simp [hw]
    · simp only [hw, if_false, ih]
      constructor
      · intro h; exact ⟨not_lt.mp hw, h⟩
      · intro h; exact h.2

/-- The scan of `choose` stops at the first positive entry whose running sum
reaches the roll, provided the roll does not exceed the whole sum. -/
theorem chooseScan_first (roll : ℚ) (ws : WeightMap) (cum : ℚ)
    (hpos : ∃ kw ∈ ws, 0 < kw.2) (hroll : roll ≤ cum + posSum ws) :
    ∃ i k w, ws[i]? = some (k, w) ∧ 0 < w ∧ chooseScan roll ws cum = some k ∧
      roll ≤ cum + posSum (ws.take (i + 1)) ∧
      ∀ j, j < i → ∀ k' w', ws[j]? = some (k', w') → 0 < w' →
        cum + posSum (ws.take (j + 1)) < roll := by
  induction ws generalizing cum with
  | nil => simp at hpos
  | cons kw rest ih =>
    obtain ⟨k0, w0⟩ := kw
    by_cases hw : w0 ≤ 0
    · have hpos' : ∃ kw ∈ rest, 0 < kw.2 := by
        obtain ⟨kw, hmem, hlt⟩ := hpos
        rcases List.mem_cons.mp hmem with h | h
        · subst h; exact absurd hlt (not_lt.mpr hw)
        · exact ⟨kw, h, hlt⟩
      have hw' : ¬ (w0 > 0) := not_lt.mpr hw
      have hroll' : roll ≤ cum + posSum rest := by
        simpa [posSum, hw'] using hroll
      obtain ⟨i, k, w, hget, hwpos, hscan, hreach, hfirst⟩ := ih cum hpos' hroll'
      refine ⟨i + 1, k, w, by simpa using hget, hwpos, by simp [chooseScan, hw, hscan], ?_, ?_⟩
      · simpa [posSum, hw'] using hreach
      · intro j hj k' w' hget' hw'pos
        cases j with
        | zero =>
          simp at hget'
          exact absurd hw'pos (by rw [← hget'.2]; exact hw')
        | succ j =>
          have := hfirst j (by omega) k' w' (by simpa using hget') hw'pos
          simpa [posSum, hw'] using this
    · have hw' : w0 > 0 := not_le.mp hw
      by_cases hr : roll ≤ cum + w0
      · refine ⟨0, k0, w0, by simp, hw', by simp [chooseScan, hw, hr], ?_, ?_⟩
        · simpa [posSum, hw'] using hr
        · intro j hj; omega
      · have hroll' : roll ≤ (cum + w0) + posSum rest := by
          have : roll ≤ cum + (w0 + posSum rest) := by simpa [posSum, hw'] using hroll
          linarith
        have hpos' : ∃ kw ∈ rest, 0 < kw.2 := by
          rw [← posSum_pos_iff]
          linarith [not_le.mp hr]
        obtain ⟨i, k, w, hget, hwpos, hscan, hreach, hfirst⟩ := ih (cum + w0) hpos' hroll'
        refine ⟨i + 1, k, w, by simpa using hget, hwpos,
          by simp [chooseScan, hw, hr, hscan], ?_, ?_⟩
        · have : roll ≤ cum + w0 + posSum (List.take (i + 1) rest) := hreach
          simp only [List.take_succ_cons, posSum, hw', if_true]
          linarith
        · intro j hj k' w' hget' hw'pos
          cases j with
          | zero =>
            simp only [List.take_succ_cons, List.take_zero, posSum, hw', if_true]
            linarith [not_le.mp hr]
          | succ j =>
            have := hfirst j (by omega) k' w' (by simpa using hget') hw'pos
            simp only [List.take_succ_cons, posSum, hw', if_true]
            linarith

theorem objGet_of_getElem_nodup {α : Type} (m : List (String × α)) (i : Nat) (k : String)
    (v : α) (hnd : (m.map Prod.fst).Nodup) (hget : m[i]? = some (k, v)) :
    objGet m k = some v := by
  induction m generalizing i with
  | nil => simp at hget
  | cons kv rest ih =>
    obtain ⟨k0, v0⟩ := kv
    simp only [List.map_cons, List.nodup_cons] at hnd
    cases i with
    | zero =>
      simp at hget
      simp [objGet, hget.1, hget.2]
    | succ i =>
      have hget' : rest[i]? = some (k, v) := by simpa using hget
      have hmem : k ∈ rest.map Prod.fst :=
        List.mem_map.mpr ⟨(k, v), List.getElem?_mem hget', rfl⟩
      have hne : k0 ≠ k := fun h => hnd.1 (h ▸ hmem)
      simp [objGet, hne, ih i hnd.2 hget']

/-- C7. For a weight map with at least one strictly positive weight and a
draw `u` in `[0,1)`, `choose` returns the first key, in iteration order, of
positive weight whose cumulative sum of positive weights reaches `u * total`:
it sits at some position `i` with weight `w > 0`, the sum up to and including
`i` is at least `u * total`, and at every earlier position of positive weight
the sum is still below it. The key is thus in the map with a positive weight
(its own weight, as the keys of a map are distinct). -/
theorem choose_returns_first_reaching (weights : WeightMap) (r : Rng)
    (hpos : ∃ kw ∈ weights, 0 < kw.2) (hu : 0 ≤ r.head ∧ r.head < 1) :
    ∃ i k w, weights[i]? = some (k, w) ∧ 0 < w ∧
      choose weights r = .ok (k, r.tail) ∧
      r.head * posSum weights ≤ posSum (weights.take (i + 1)) ∧
      (∀ j, j < i → ∀ k' w', weights[j]? = some (k', w') → 0 < w' →
        posSum (weights.take (j + 1)) < r.head * posSum weights) ∧
      (k, w) ∈ weights ∧
      ((weights.map Prod.fst).Nodup → objGet weights k = some w) := by
  have htot : 0 < posSum weights := (posSum_pos_iff weights).mpr hpos
  have hroll : r.head * posSum weights ≤ 0 + posSum weights := by
    nlinarith [hu.1, hu.2]
  obtain ⟨i, k, w, hget, hw, hscan, hreach, hfirst⟩ :=
    chooseScan_first (r.head * posSum weights) weights 0 hpos hroll
  refine ⟨i, k, w, hget, hw, ?_, by simpa using hreach, ?_, List.getElem?_mem hget, ?_⟩
  · have hnot : ¬ (totalWeight weights 0 ≤ 0) := by
      rw [totalWeight_eq]; simpa using htot
    have hnot2 : ¬ (posSum weights ≤ 0) := not_le.mpr htot
    simp only [choose, hnot2, if_false, totalWeight_eq, zero_add, hscan]
  · intro j hj k' w' hget' hw'
    simpa using hfirst j hj k' w' hget' hw'
  · intro hnd
    exact objGet_of_getElem_nodup weights i k w hnd hget

/-- Witness of C7 on the map `{a: 1, b: 2}` with the draw `1/2`. -/
theorem choose_returns_first_reaching_witness :
    ∃ i k w, ([("a", 1), ("b", 2)] : WeightMap)[i]? = some (k, w) ∧ 0 < w ∧
      choose [("a", 1), ("b", 2)] (Rng.ofList [1 / 2]) = .ok (k, (Rng.ofList [1 / 2]).tail) ∧
      (Rng.ofList [1 / 2]).head * posSum [("a", 1), ("b", 2)]
        ≤ posSum (([("a", 1), ("b", 2)] : WeightMap).take (i + 1)) ∧
      (∀ j, j < i → ∀ k' w', ([("a", 1), ("b", 2)] : WeightMap)[j]? = some (k', w') → 0 < w' →
        posSum (([("a", 1), ("b", 2)] : WeightMap).take (j + 1))
          < (Rng.ofList [1 / 2]).head * posSum [("a", 1), ("b", 2)]) ∧
      (k, w) ∈ ([("a", 1), ("b", 2)] : WeightMap) ∧
      ((([("a", 1), ("b", 2)] : WeightMap).map Prod.fst).Nodup →
        objGet ([("a", 1), ("b", 2)] : WeightMap) k = some w) :=
  choose_returns_first_reaching [("a", 1), ("b", 2)] (Rng.ofList [1 / 2])
    ⟨("b", 2), by simp, by norm_num⟩ (by norm_num [Rng.head, Rng.ofList])

/-- C8. `choose` fails exactly when the weight map has no strictly positive
weight, and then with the error "no positive weights"; so it fails on `{}`
and on `{a: -1, b: 0}` and never on a map that has a positive weight. -/
theorem choose_fails_iff_no_positive (weights : WeightMap) (r : Rng) :
    ((∃ e, choose weights r = .error e) ↔ ∀ kw ∈ weights, kw.2 ≤ 0) ∧
    (choose weights r = .error .noPositiveWeights ↔ ∀ kw ∈ weights, kw.2 ≤ 0) ∧
    choose [] r = .error .noPositiveWeights ∧
    choose [("a", -1), ("b", 0)] r = .error .noPositiveWeights := by
  have key : (∀ kw ∈ weights, kw.2 ≤ 0) ↔ totalWeight weights 0 ≤ 0 := by
    rw [totalWeight_eq, zero_add]
    constructor
    · intro h
      by_contra hc
      obtain ⟨kw, hmem, hlt⟩ := (posSum_pos_iff weights).mp (not_le.mp hc)
      exact absurd (h kw hmem) (not_le.mpr hlt)
    · intro h kw hmem
      by_contra hc
      exact absurd ((posSum_pos_iff weights).mpr ⟨kw, hmem, not_le.mp hc⟩) (not_lt.mpr h)
  have ok_of_pos : ¬ (totalWeight weights 0 ≤ 0) → ∃ k, choose weights r = .ok (k, r.tail) := by
    intro hnot
    have hne : firstPositive weights ≠ none := by
      rw [Ne, firstPositive_eq_none_iff]
      exact fun h => hnot (key.mp h)
    simp only [choose, hnot, if_false]
    cases hs : chooseScan (r.head * totalWeight weights 0) weights 0 with
    | some k => exact ⟨k, rfl⟩
    | none =>
      cases hf : firstPositive weights with
      | none => exact absurd hf hne
      | some k => exact ⟨k, rfl⟩
  refine ⟨?_, ?_, ?_, ?_⟩
  · rw [key]
    constructor
    · rintro ⟨e, he⟩
      by_contra hnot
      obtain ⟨k, hk⟩ := ok_of_pos hnot
      rw [hk] at he
      cases he
    · intro h
      exact ⟨.noPositiveWeights, by simp [choose, h]⟩
  · rw [key]
    constructor
    · intro he
      by_contra hnot
      obtain ⟨k, hk⟩ := ok_of_pos hnot
      rw [hk] at he
      cases he
    · intro h
      simp [choose, h]
  · simp [choose, totalWeight]
  · norm_num [choose, totalWeight]

/-! ## Bernoulli trial -/

/-- C9. For every number `p` and every draw `u` in `[0,1)`, `roll(p)` is true
exactly when `u ≤ min(1, max(0, p))`; so it is true for every draw when
`p ≥ 1`, and when `p ≤ 0` it is true only for the draw `u = 0`. -/
theorem roll_true_iff_le_clamp (p u : ℚ) (hu : 0 ≤ u ∧ u < 1) :
    (roll p u = true ↔ u ≤ min 1 (max 0 p)) ∧
    (1 ≤ p → roll p u = true) ∧
    (p ≤ 0 → (roll p u = true ↔ u = 0)) := by
  have hclamp : max 0 (min 1 p) = min 1 (max 0 p) := by
    rcases le_total p 0 with h0 | h0
    · rw [min_eq_right (by linarith), max_eq_left h0]
      rw [min_eq_right (by norm_num)]
    · rcases le_total p 1 with h1 | h1
      · rw [min_eq_right h1, max_eq_right h0, min_eq_right h1]
      · rw [min_eq_left h1, max_eq_right h0, min_eq_left h1, max_eq_right (by norm_num)]
  refine ⟨?_, ?_, ?_⟩
  · simp only [roll, decide_eq_true_eq, hclamp]
  · intro hp
    simp only [roll, decide_eq_true_eq, min_eq_left hp]
    rw [max_eq_right (by norm_num)]
    exact le_of_lt hu.2
  · intro hp
    simp only [roll, decide_eq_true_eq]
    rw [min_eq_right (by linarith), max_eq_left hp]
    constructor
    · intro h; exact le_antisymm h hu.1
    · intro h; exact le_of_eq h

/-- Witness of C9 for the probability `1/2` and the draw `1/4`. -/
theorem roll_true_iff_le_clamp_witness :
    ((0 : ℚ) ≤ 1 / 4 ∧ (1 / 4 : ℚ) < 1) ∧
    ((roll (1 / 2) (1 / 4) = true ↔ (1 / 4 : ℚ) ≤ min 1 (max 0 (1 / 2))) ∧
     ((1 : ℚ) ≤ 1 / 2 → roll (1 / 2) (1 / 4) = true) ∧
     ((1 / 2 : ℚ) ≤ 0 → (roll (1 / 2) (1 / 4) = true ↔ (1 / 4 : ℚ) = 0))) :=
  ⟨by norm_num, roll_true_iff_le_clamp (1 / 2) (1 / 4) (by norm_num)⟩

/-! ## Year bias -/

/-- C10. Over the reals, for integer years with `start ≤ end`,
`getMultiplier(currentYear, start, end)` is 0 when `currentYear < start`, is 1
when `start ≤ currentYear ≤ end`, and past the end it equals
`exp(-0.15 * (currentYear - end))`, strictly between 0 and 1; in particular
`multiplier(1999, 2000, 2010) = 0`, `multiplier(2005, 2000, 2010) = 1` and
`multiplier(2020, 2000, 2010) = exp(-1.5)`. -/
theorem getMultiplier_piecewise (currentYear start end_ : Int) (h : start ≤ end_) :
    (currentYear < start → getMultiplier Real.exp currentYear start end_ = 0) ∧
    (start ≤ currentYear → currentYear ≤ end_ →
      getMultiplier Real.exp currentYear start end_ = 1) ∧
    (end_ < currentYear →
      getMultiplier Real.exp currentYear start end_
        = Real.exp (-0.15 * ((currentYear : ℝ) - (end_ : ℝ))) ∧
      0 < getMultiplier Real.exp currentYear start end_ ∧
      getMultiplier Real.exp currentYear start end_ < 1) ∧
    getMultiplier Real.exp 1999 2000 2010 = 0 ∧
    getMultiplier Real.exp 2005 2000 2010 = 1 ∧
    getMultiplier Real.exp 2020 2000 2010 = Real.exp (-1.5) := by
  have past : ∀ c s e : Int, s ≤ e → e < c →
      getMultiplier Real.exp c s e = Real.exp (-0.15 * ((c : ℝ) - (e : ℝ))) := by
    intro c s e hse hec
    have h1 : ¬ (c < s) := by omega
    have h2 : ¬ (c ≤ e) := by omega
    simp only [getMultiplier, h1, h2, if_false]
    congr 1
    push_cast
    norm_num
  refine ⟨?_, ?_, ?_, ?_, ?_, ?_⟩
  · intro hlt
    simp [getMultiplier, hlt]
  · intro h1 h2
    have h1' : ¬ (currentYear < start) := by omega
    simp [getMultiplier, h1', h2]
  · intro hlt
    rw [past currentYear start end_ h hlt]
    refine ⟨rfl, Real.exp_pos _, ?_⟩
    rw [Real.exp_lt_one_iff]
    have : (0 : ℝ) < (currentYear : ℝ) - (end_ : ℝ) := by
      have : (end_ : ℝ) < (currentYear : ℝ) := by exact_mod_cast hlt
      linarith
    nlinarith
  · simp [getMultiplier]
  · simp [getMultiplier]
  · rw [past 2020 2000 2010 (by norm_num) (by norm_num)]
    congr 1
    norm_num

/-- Witness of C10 for the years 2020, 2000 and 2010. -/
theorem getMultiplier_piecewise_witness :
    (2000 : Int) ≤ 2010 ∧
    getMultiplier Real.exp 2020 2000 2010 = Real.exp (-1.5) :=
  ⟨by norm_num, (getMultiplier_piecewise 2020 2000 2010 (by norm_num)).2.2.2.2.2⟩

/-! ## Vehicle selection -/

/-- C4, at the catalog of the single sedan `exCar` with a scene that prefers
sedans: the preferred list is `[exCar]` and the fallback list is empty, yet on
the draw `9/10` (a miss of the 85% trial) `chooseVehicle` returns no vehicle,
and `generateSingleVehicle` returns `null`, although the catalog vehicle has
`yearStart ≤ apocalypseYear`. -/
theorem chooseVehicle_null_despite_preferred :
    partitionVehicles 2000 exSceneSedan (exGen exSceneSedan).vehicleDb = ([exCar], []) ∧
    exCar.yearStart ≤ (exGen exSceneSedan).worldTime.apocalypseYear ∧
    (chooseVehicle (exGen exSceneSedan) exSceneSedan (Rng.ofList [9 / 10])).1 = none ∧
    generateSingleVehicle (exGen exSceneSedan) (Rng.ofList [0, 9 / 10]) = .ok none := by
  decide!

/-! ## The random source along a generation -/

theorem Rng.IsSuffix.refl (r : Rng) : Rng.IsSuffix r r := ⟨0, fun _ => rfl⟩

theorem Rng.IsSuffix.tail_self (r : Rng) : Rng.IsSuffix r.tail r := ⟨1, fun _ => rfl⟩

theorem Rng.IsSuffix.trans {a b c : Rng} (h1 : Rng.IsSuffix a b) (h2 : Rng.IsSuffix b c) :
    Rng.IsSuffix a c := by
  obtain ⟨k1, hk1⟩ := h1
  obtain ⟨k2, hk2⟩ := h2
  exact ⟨k1 + k2, fun n => by rw [hk1, hk2, Nat.add_assoc]⟩

theorem Rng.IsSuffix.tail {a b : Rng} (h : Rng.IsSuffix a b) : Rng.IsSuffix a.tail b :=
  (Rng.IsSuffix.tail_self a).trans h

theorem Rng.Valid.of_suffix {a b : Rng} (hb : b.Valid) (h : Rng.IsSuffix a b) : a.Valid := by
  obtain ⟨k, hk⟩ := h
  intro n
  rw [hk]
  exact hb (n + k)

theorem rollPresence_suffix (l : List (String × Item)) (p : String → Bool) (r : Rng) :
    Rng.IsSuffix (rollPresence l p r).2 r := by
  induction l generalizing p r with
  | nil => exact Rng.IsSuffix.refl r
  | cons kv rest ih =>
    obtain ⟨k, item⟩ := kv
    simp only [rollPresence]
    exact (ih _ _).trans (Rng.IsSuffix.tail_self r)

theorem resolveScene_suffix (g : VehicleGenerator) (r r' : Rng) (x : Option SceneData)
    (h : resolveScene g r = .ok (x, r')) : Rng.IsSuffix r' r := by
  unfold resolveScene at h
  split at h
  · cases h; exact Rng.IsSuffix.refl r
  · unfold chooseRandomScene at h
    simp only at h
    split at h
    · cases h
    · split at h <;> cases h <;> exact Rng.IsSuffix.tail_self r

theorem jsIndex_mem {α : Type} (xs : List α) (i : Int) (a : α) (h : jsIndex xs i = some a) :
    a ∈ xs := by
  unfold jsIndex at h
  split at h
  · cases h
  · exact List.get?_mem h

theorem partitionVehicles_mem (apocalypseYear : Int) (scene : SceneData)
    (db : List (String × Vehicle)) (v : Vehicle)
    (h : v ∈ (partitionVehicles apocalypseYear scene db).1 ∨
         v ∈ (partitionVehicles apocalypseYear scene db).2) :
    v.yearStart ≤ apocalypseYear ∧ v ∈ db.map Prod.snd := by
  induction db with
  | nil => simp [partitionVehicles] at h
  | cons kv rest ih =>
    obtain ⟨k, v0⟩ := kv
    simp only [partitionVehicles] at h ⊢
    by_cases hy : v0.yearStart > apocalypseYear
    · simp only [hy, if_true] at h
      have := ih h
      exact ⟨this.1, List.mem_cons_of_mem _ this.2⟩
    · simp only [hy, if_false] at h
      by_cases ha : scene.affVehicles.contains v0.type = true
      · simp only [ha, if_true, List.mem_cons] at h
        rcases h with (h | h) | h
        · subst h; exact ⟨not_lt.mp hy, by simp⟩
        · have := ih (Or.inl h); exact ⟨this.1, List.mem_cons_of_mem _ this.2⟩
        · have := ih (Or.inr h); exact ⟨this.1, List.mem_cons_of_mem _ this.2⟩
      · simp only [ha, Bool.false_eq_true, if_false, List.mem_cons] at h
        rcases h with h | (h | h)
        · have := ih (Or.inl h); exact ⟨this.1, List.mem_cons_of_mem _ this.2⟩
        · subst h; exact ⟨not_lt.mp hy, by simp⟩
        · have := ih (Or.inr h); exact ⟨this.1, List.mem_cons_of_mem _ this.2⟩

theorem chooseVehicle_some (g : VehicleGenerator) (scene : SceneData) (r r' : Rng)
    (v : Vehicle) (h : chooseVehicle g scene r = (some v, r')) :
    v.yearStart ≤ g.worldTime.apocalypseYear ∧ v ∈ g.vehicleDb.map Prod.snd ∧
    Rng.IsSuffix r' r := by
  unfold chooseVehicle at h
  have hmem := partitionVehicles_mem g.worldTime.apocalypseYear scene g.vehicleDb v
  revert h hmem
  generalize partitionVehicles g.worldTime.apocalypseYear scene g.vehicleDb = pf
  obtain ⟨preferred, fallback⟩ := pf
  intro h hmem
  simp only at h
  split at h
  · simp only [Prod.mk.injEq] at h
    have := hmem (Or.inl (jsIndex_mem _ _ _ h.1))
    exact ⟨this.1, this.2, h.2 ▸ (Rng.IsSuffix.tail_self r).tail⟩
  · split at h
    · simp only [Prod.mk.injEq] at h
      have := hmem (Or.inr (jsIndex_mem _ _ _ h.1))
      refine ⟨this.1, this.2, h.2 ▸ ?_⟩
      split
      · exact (Rng.IsSuffix.tail_self r).tail
      · exact Rng.IsSuffix.tail_self r
    · simp at h

/-- What a successful run of `generateSingleVehicle` went through. -/
theorem generateSingleVehicleRun_some (g : VehicleGenerator) (r : Rng) (st : GenState)
    (h : generateSingleVehicleRun g r = .ok (some st)) :
    ∃ scene r2 vehicle r3 state r4 color trim transmission r5 contents counts r6,
      resolveScene g (rollPresence g.itemDb (fun _ => false) r).2 = .ok (some scene, r2) ∧
      chooseVehicle g scene r2 = (some vehicle, r3) ∧
      chooseSafe scene.stateBias r3.tail = .ok (state, r4) ∧
      resolveCosmetics vehicle r4 = .ok ((color, trim, transmission), r5) ∧
      populateLocations g (rollPresence g.itemDb (fun _ => false) r).1 vehicle
        (getAllLocations vehicle) (initContents vehicle) (fun _ => 0) r5
        = .ok (contents, counts, r6) ∧
      st = { generated :=
               { vehicleData := vehicle
                 year := resolveYear vehicle g.worldTime.apocalypseYear r3.head
                 color := color, trim := trim, transmission := transmission
                 state := state.getD "unknown", contents := contents }
             itemSpawnCounts := counts
             itemPresence := (rollPresence g.itemDb (fun _ => false) r).1
             rng := r6 } := by
  unfold generateSingleVehicleRun at h
  simp only at h
  split at h
  · cases h
  · cases h
  · rename_i scene r2 hscene
    split at h
    · cases h
    · rename_i vehicle r3 hveh
      split at h
      · cases h
      · rename_i state r4 hstate
        split at h
        · cases h
        · rename_i color trim transmission r5 hcos
          split at h
          · cases h
          · rename_i contents counts r6 hpop
            simp only [Except.ok.injEq, Option.some.injEq] at h
            exact ⟨scene, r2, vehicle, r3, state, r4, color, trim, transmission, r5,
              contents, counts, r6, hscene, hveh, hstate, hcos, hpop, h.symm⟩

theorem generateSingleVehicle_some (g : VehicleGenerator) (r : Rng) (gv : GeneratedVehicle)
    (h : generateSingleVehicle g r = .ok (some gv)) :
    ∃ st, generateSingleVehicleRun g r = .ok (some st) ∧ st.generated = gv := by
  unfold generateSingleVehicle at h
  split at h
  · cases h
  · cases h
  · rename_i st hst
    simp only [Except.ok.injEq, Option.some.injEq] at h
    exact ⟨st, hst, h⟩

/-! ## The contents map -/

theorem objGet_objSet_self {α : Type} (m : List (String × α)) (k : String) (v : α) :
    objGet (objSet m k v) k = some v := by
  induction m with
  | nil => simp [objSet, objGet]
  | cons kv rest ih =>
    obtain ⟨k0, v0⟩ := kv
    by_cases h : k0 = k
    · simp [objSet, objGet, h]
    · simp [objSet, objGet, h, ih]

theorem objGet_objSet_ne {α : Type} (m : List (String × α)) (k k' : String) (v : α)
    (hne : k' ≠ k) : objGet (objSet m k v) k' = objGet m k' := by
  have hne' : ¬ (k = k') := fun h => hne h.symm
  induction m with
  | nil => simp [objSet, objGet, hne']
  | cons kv rest ih =>
    obtain ⟨k0, v0⟩ := kv
    by_cases h : k0 = k
    · subst h
      simp [objSet, objGet, hne']
    · by_cases h2 : k0 = k'
      · subst h2
        simp [objSet, objGet, h]
      · simp [objSet, objGet, h, h2, ih]

theorem objGet_objSet_isSome {α : Type} (m : List (String × α)) (k k' : String) (v : α)
    (h : (objGet m k').isSome) : (objGet (objSet m k v) k').isSome := by
  by_cases hk : k' = k
  · subst hk; simp [objGet_objSet_self]
  · rw [objGet_objSet_ne m k k' v hk]; exact h

theorem foldl_objSet_nil_isSome (keys : List String) (c : Contents) (k : String)
    (h : (objGet c k).isSome ∨ k ∈ keys) :
    (objGet (keys.foldl (fun c k => objSet c k []) c) k).isSome := by
  induction keys generalizing c with
  | nil =>
    rcases h with h | h
    · exact h
    · simp at h
  | cons k0 rest ih =>
    simp only [List.foldl_cons]
    apply ih
    rcases h with h | h
    · exact Or.inl (objGet_objSet_isSome c k0 k [] h)
    · rcases List.mem_cons.mp h with h | h
      · subst h; exact Or.inl (by simp [objGet_objSet_self])
      · exact Or.inr h

theorem populateLocations_keeps_keys (g : VehicleGenerator) (p : String → Bool) (v : Vehicle)
    (locs : List (String × LocationData)) (c : Contents) (counts : String → Nat) (r : Rng)
    (c' : Contents) (counts' : String → Nat) (r' : Rng)
    (h : populateLocations g p v locs c counts r = .ok (c', counts', r'))
    (k : String) (hk : (objGet c k).isSome) : (objGet c' k).isSome := by
  induction locs generalizing c counts r with
  | nil =>
    simp only [populateLocations, Except.ok.injEq, Prod.mk.injEq] at h
    rw [← h.1]; exact hk
  | cons kl rest ih =>
    obtain ⟨key, loc⟩ := kl
    simp only [populateLocations] at h
    split at h
    · split at h
      · cases h
      · exact ih _ _ _ h (objGet_objSet_isSome c key k _ hk)
    · split at h
      · cases h
      · exact ih _ _ _ h (objGet_objSet_isSome c key k _ hk)

/-- C5. For every vehicle returned by `generateSingleVehicle`, every key of
`vehicle.storageAreas` and every vehicle key beginning with `stor`, `seat`,
`seatUnder` or `hang` is a key of the output contents map, mapped to a list. -/
theorem contents_cover_every_location (g : VehicleGenerator) (r : Rng)
    (gv : GeneratedVehicle) (hgen : generateSingleVehicle g r = .ok (some gv)) :
    (∀ k ∈ gv.vehicleData.storageAreas.getD [],
      ∃ items, objGet gv.contents k = some items) ∧
    (∀ kv ∈ gv.vehicleData.entries,
      (startsWith kv.1 "stor" = true ∨ startsWith kv.1 "seat" = true ∨
        startsWith kv.1 "seatUnder" = true ∨ startsWith kv.1 "hang" = true) →
      ∃ items, objGet gv.contents kv.1 = some items) := by
  obtain ⟨st, hrun, hst⟩ := generateSingleVehicle_some g r gv hgen
  obtain ⟨scene, r2, vehicle, r3, state, r4, color, trim, transmission, r5, contents,
    counts, r6, -, -, -, -, hpop, hst'⟩ := generateSingleVehicleRun_some g r st hrun
  subst hst'
  subst hst
  simp only
  have hinit : ∀ k, (k ∈ vehicle.storageAreas.getD [] ∨
      k ∈ (getAllLocations vehicle).map Prod.fst) → (objGet (initContents vehicle) k).isSome := by
    intro k hk
    unfold initContents
    simp only
    apply foldl_objSet_nil_isSome
    rcases hk with hk | hk
    · exact Or.inl (foldl_objSet_nil_isSome _ _ _ (Or.inr hk))
    · exact Or.inr hk
  constructor
  · intro k hk
    have := populateLocations_keeps_keys g _ vehicle _ _ _ _ _ _ _ hpop k (hinit k (Or.inl hk))
    exact Option.isSome_iff_exists.mp this
  · intro kv hkv hpre
    have hloc : kv.1 ∈ (getAllLocations vehicle).map Prod.fst := by
      apply List.mem_map.mpr
      refine ⟨kv, ?_, rfl⟩
      unfold getAllLocations
      apply List.mem_filter.mpr
      refine ⟨hkv, ?_⟩
      rcases hpre with h | h | h | h <;> simp [h]
    have := populateLocations_keeps_keys g _ vehicle _ _ _ _ _ _ _ hpop kv.1
      (hinit kv.1 (Or.inr hloc))
    exact Option.isSome_iff_exists.mp this

/-- The run of `exGen exSceneRoad` on the all-zero stream of draws. -/
theorem exGen_generates :
    generateSingleVehicle (exGen exSceneRoad) (Rng.ofList []) = .ok (some exGenerated) := by
  decide!

/-- Witness of C5 on the vehicle generated by `exGen exSceneRoad`. -/
theorem contents_cover_every_location_witness :
    generateSingleVehicle (exGen exSceneRoad) (Rng.ofList []) = .ok (some exGenerated) ∧
    ((∀ k ∈ exGenerated.vehicleData.storageAreas.getD [],
      ∃ items, objGet exGenerated.contents k = some items) ∧
    (∀ kv ∈ exGenerated.vehicleData.entries,
      (startsWith kv.1 "stor" = true ∨ startsWith kv.1 "seat" = true ∨
        startsWith kv.1 "seatUnder" = true ∨ startsWith kv.1 "hang" = true) →
      ∃ items, objGet exGenerated.contents kv.1 = some items)) :=
  ⟨exGen_generates,
    contents_cover_every_location (exGen exSceneRoad) (Rng.ofList []) exGenerated
      exGen_generates⟩

/-! ## The model year -/

theorem floorMul_bounds (u : ℚ) (n : Int) (hu : 0 ≤ u ∧ u < 1) (hn : 1 ≤ n) :
    0 ≤ floorMul u n ∧ floorMul u n ≤ n - 1 := by
  have hnq : (0 : ℚ) < (n : ℚ) := by exact_mod_cast (by omega : (0 : Int) < n)
  constructor
  · exact Int.floor_nonneg.mpr (mul_nonneg hu.1 (le_of_lt hnq))
  · have : floorMul u n < n := by
      unfold floorMul
      rw [Int.floor_lt]
      nlinarith [hu.2]
    omega

theorem Rng.ofList_nil_valid : (Rng.ofList []).Valid := by
  intro n
  simp [Rng.ofList]

/-- C6. For every vehicle returned by `generateSingleVehicle` on draws in
`[0,1)`, whose definition has `yearStart ≤ yearEnd`, the generated model year
`y` satisfies `yearStart ≤ y ≤ min(yearEnd, apocalypseYear)`; it is the year
formula applied to one draw of the stream, and every integer of that range is
the value of the formula on some draw in `[0,1)`. -/
theorem generated_year_in_range (g : VehicleGenerator) (r : Rng) (gv : GeneratedVehicle)
    (hr : r.Valid) (hgen : generateSingleVehicle g r = .ok (some gv))
    (hy : gv.vehicleData.yearStart ≤ gv.vehicleData.yearEnd) :
    gv.vehicleData.yearStart ≤ gv.year ∧
    gv.year ≤ min gv.vehicleData.yearEnd g.worldTime.apocalypseYear ∧
    (∃ n, gv.year = resolveYear gv.vehicleData g.worldTime.apocalypseYear (r n)) ∧
    (∀ y : Int, gv.vehicleData.yearStart ≤ y →
      y ≤ min gv.vehicleData.yearEnd g.worldTime.apocalypseYear →
      ∃ u : ℚ, 0 ≤ u ∧ u < 1 ∧
        resolveYear gv.vehicleData g.worldTime.apocalypseYear u = y) := by
  obtain ⟨st, hrun, hst⟩ := generateSingleVehicle_some g r gv hgen
  obtain ⟨scene, r2, vehicle, r3, state, r4, color, trim, transmission, r5, contents,
    counts, r6, hscene, hveh, -, -, -, hst'⟩ := generateSingleVehicleRun_some g r st hrun
  subst hst'
  subst hst
  simp only at hy ⊢
  obtain ⟨hstart, -, hsuf3⟩ := chooseVehicle_some g scene r2 r3 vehicle hveh
  have hsuf : Rng.IsSuffix r3 r :=
    hsuf3.trans ((resolveScene_suffix g _ r2 _ hscene).trans (rollPresence_suffix _ _ _))
  have hv3 : r3.Valid := hr.of_suffix hsuf
  have hn : 1 ≤ min vehicle.yearEnd g.worldTime.apocalypseYear - vehicle.yearStart + 1 := by
    have : vehicle.yearStart ≤ min vehicle.yearEnd g.worldTime.apocalypseYear :=
      le_min hy hstart
    omega
  have hb := floorMul_bounds r3.head _ (hv3 0) hn
  refine ⟨?_, ?_, ?_, ?_⟩
  · unfold resolveYear; simp only; omega
  · unfold resolveYear; simp only; omega
  · obtain ⟨k, hk⟩ := hsuf
    exact ⟨0 + k, by rw [← hk 0]; rfl⟩
  · intro y hy1 hy2
    have hnq : ((min vehicle.yearEnd g.worldTime.apocalypseYear - vehicle.yearStart + 1 : Int) : ℚ)
        ≠ 0 := by
      exact_mod_cast (by omega :
        min vehicle.yearEnd g.worldTime.apocalypseYear - vehicle.yearStart + 1 ≠ 0)
    have hnpos : (0 : ℚ) <
        ((min vehicle.yearEnd g.worldTime.apocalypseYear - vehicle.yearStart + 1 : Int) : ℚ) := by
      exact_mod_cast (by omega :
        0 < min vehicle.yearEnd g.worldTime.apocalypseYear - vehicle.yearStart + 1)
    refine ⟨((y - vehicle.yearStart : Int) : ℚ) /
      ((min vehicle.yearEnd g.worldTime.apocalypseYear - vehicle.yearStart + 1 : Int) : ℚ),
      ?_, ?_, ?_⟩
    · apply div_nonneg
      · exact_mod_cast (by omega : 0 ≤ y - vehicle.yearStart)
      · exact le_of_lt hnpos
    · rw [div_lt_one hnpos]
      exact_mod_cast (by omega : y - vehicle.yearStart
        < min vehicle.yearEnd g.worldTime.apocalypseYear - vehicle.yearStart + 1)
    · unfold resolveYear floorMul
      simp only
      rw [div_mul_cancel₀ _ hnq, Int.floor_intCast]
      omega

/-- Witness of C6 on the vehicle generated by `exGen exSceneRoad`. -/
theorem generated_year_in_range_witness :
    (Rng.ofList []).Valid ∧
    generateSingleVehicle (exGen exSceneRoad) (Rng.ofList []) = .ok (some exGenerated) ∧
    exGenerated.vehicleData.yearStart ≤ exGenerated.vehicleData.yearEnd ∧
    exGenerated.vehicleData.yearStart ≤ exGenerated.year ∧
    exGenerated.year ≤ min exGenerated.vehicleData.yearEnd
      (exGen exSceneRoad).worldTime.apocalypseYear :=
  ⟨Rng.ofList_nil_valid, exGen_generates, by decide,
    (generated_year_in_range (exGen exSceneRoad) (Rng.ofList []) exGenerated
      Rng.ofList_nil_valid exGen_generates (by decide)).1,
    (generated_year_in_range (exGen exSceneRoad) (Rng.ofList []) exGenerated
      Rng.ofList_nil_valid exGen_generates (by decide)).2.1⟩

/-! ## The storage loop -/

theorem spawnRecords_some (g : VehicleGenerator) (item : Item) (vehicle : Vehicle)
    (r r' : Rng) (records : List GeneratedItem)
    (h : spawnRecords g item vehicle r = .ok (some records, r')) :
    ∃ variant state ageDays count, variant ∈ item.variants ∧
      records = List.replicate (Int.toNat count) (makeRecord item variant state ageDays) ∧
      (variant.spawnGroup = none → count = 1) := by
  unfold spawnRecords at h
  split at h
  · cases h
  · cases h
  · rename_i variant r1 hvar
    simp only at h
    split at h
    · cases h
    · rename_i state ageDays r2 hstate
      simp only [Except.ok.injEq, Prod.mk.injEq, Option.some.injEq] at h
      refine ⟨variant, state, ageDays, (spawnCount variant r2).1, ?_, h.1.symm, ?_⟩
      · unfold chooseVariant at hvar
        simp only at hvar
        split at hvar
        · cases hvar
        · split at hvar
          · cases hvar
          · simp only [Except.ok.injEq, Prod.mk.injEq] at hvar
            exact List.mem_of_find?_eq_some hvar.1
      · intro hnone
        simp [spawnCount, hnone]

/-- One iteration of the storage loop either leaves the results, the
remaining capacity and the counters untouched, or accepts the item. -/
theorem storageLoop_cons_ok (g : VehicleGenerator) (p : String → Bool) (key : String)
    (v : Vehicle) (f : ℚ) (k : String) (item : Item) (rest : List (String × Item))
    (st st' : StorageState)
    (h : storageLoop g p key v f ((k, item) :: rest) st = .ok st') :
    (∃ r', storageLoop g p key v f rest { st with rng := r' } = .ok st') ∨
    (∃ records r1 r2,
      ¬ (st.itemSpawnCounts k > 0 ∧ item.comRepeat = 0) ∧ p k = true ∧
      capacityPointsFromSize item.size ≤ st.remainingCapacity ∧
      spawnRecords g item v r1 = .ok (some records, r2) ∧
      (st' = st.accept k (capacityPointsFromSize item.size) records r2.tail ∨
       storageLoop g p key v f rest
         (st.accept k (capacityPointsFromSize item.size) records r2.tail) = .ok st')) := by
  rw [storageLoop] at h
  simp only at h
  by_cases h1 : st.itemSpawnCounts k > 0 ∧ item.comRepeat = 0
  · rw [if_pos h1] at h; exact Or.inl ⟨st.rng, h⟩
  rw [if_neg h1] at h
  by_cases h2 : (!p k) = true
  · rw [if_pos h2] at h; exact Or.inl ⟨st.rng, h⟩
  rw [if_neg h2] at h
  by_cases h3 : capacityPointsFromSize item.size > st.remainingCapacity
  · rw [if_pos h3] at h; exact Or.inl ⟨st.rng, h⟩
  rw [if_neg h3] at h
  by_cases h4 : st.itemSpawnCounts k > 0 ∧ st.rng.head > item.repeatChance.getD (25 / 100)
  · rw [if_pos h4] at h; exact Or.inl ⟨_, h⟩
  rw [if_neg h4] at h
  generalize (if st.itemSpawnCounts k > 0 then st.rng.tail else st.rng) = r1 at h
  by_cases h5 : (!roll (applyStorageAffinity
      (applyVehicleAffinity item.comBase item.affVehicle v.type) item.affStorage key)
      r1.head) = true
  · rw [if_pos h5] at h; exact Or.inl ⟨_, h⟩
  rw [if_neg h5] at h
  cases hs : spawnRecords g item v r1.tail with
  | error e => rw [hs] at h; cases h
  | ok res =>
    obtain ⟨orecs, r2⟩ := res
    rw [hs] at h
    cases orecs with
    | none => exact Or.inl ⟨_, h⟩
    | some records =>
      simp only at h
      refine Or.inr ⟨records, r1.tail, r2, h1, by simpa using h2, not_lt.mp h3, hs, ?_⟩
      by_cases h6 : r2.head > f
      · rw [if_pos h6] at h
        simp only [Except.ok.injEq] at h
        exact Or.inl h.symm
      · rw [if_neg h6] at h
        exact Or.inr h

/-- Invariants of the storage loop: a property of the state that does not
depend on the random source and is kept by every acceptance holds at the end
of the loop if it holds at the start. -/
theorem storageLoop_invariant (g : VehicleGenerator) (p : String → Bool) (key : String)
    (v : Vehicle) (f : ℚ) (P : StorageState → Prop) (l : List (String × Item))
    (hrng : ∀ st r, P st → P { st with rng := r })
    (hacc : ∀ st k item records r1 r2 r3, (k, item) ∈ l → P st →
      ¬ (st.itemSpawnCounts k > 0 ∧ item.comRepeat = 0) → p k = true →
      capacityPointsFromSize item.size ≤ st.remainingCapacity →
      spawnRecords g item v r1 = .ok (some records, r2) →
      P (st.accept k (capacityPointsFromSize item.size) records r3))
    (st st' : StorageState) (h : storageLoop g p key v f l st = .ok st') (h0 : P st) :
    P st' := by
  induction l generalizing st with
  | nil =>
    simp only [storageLoop, Except.ok.injEq] at h
    exact h ▸ h0
  | cons kv rest ih =>
    obtain ⟨k, item⟩ := kv
    have hacc' : ∀ st k item records r1 r2 r3, (k, item) ∈ rest → P st →
        ¬ (st.itemSpawnCounts k > 0 ∧ item.comRepeat = 0) → p k = true →
        capacityPointsFromSize item.size ≤ st.remainingCapacity →
        spawnRecords g item v r1 = .ok (some records, r2) →
        P (st.accept k (capacityPointsFromSize item.size) records r3) :=
      fun st k item records r1 r2 r3 hm => hacc st k item records r1 r2 r3
        (List.mem_cons_of_mem _ hm)
    rcases storageLoop_cons_ok g p key v f k item rest st st' h with
      ⟨r', hrest⟩ | ⟨records, r1, r2, hprior, hpres, hfit, hspawn, hend⟩
    · exact ih hacc' _ hrest (hrng st r' h0)
    · have hP := hacc st k item records r1 r2 r2.tail (List.mem_cons_self _ _) h0 hprior hpres
        hfit hspawn
      rcases hend with hend | hend
      · exact hend ▸ hP
      · exact ih hacc' _ hend hP

/-- What a run of `populateStorageLocation` is: a skipped location, or the
storage loop over the catalog from the empty results and the full budget. -/
theorem populateStorageLocation_ok (g : VehicleGenerator) (p : String → Bool) (key : String)
    (c : Int) (v : Vehicle) (counts : String → Nat) (r : Rng) (st : StorageState)
    (h : populateStorageLocation g p key c v counts r = .ok st) :
    (∃ r', st = { results := [], remainingCapacity := capacityPointsFromSize c,
                  itemSpawnCounts := counts, rng := r' }) ∨
    (∃ f r', storageLoop g p key v f g.itemDb
        { results := [], remainingCapacity := capacityPointsFromSize c,
          itemSpawnCounts := counts, rng := r' } = .ok st) := by
  unfold populateStorageLocation at h
  simp only at h
  by_cases h1 : startsWith key "seatUnder" = true ∧ r.head > 95 / 100
  · rw [if_pos h1] at h
    simp only [Except.ok.injEq] at h
    exact Or.inl ⟨_, h.symm⟩
  rw [if_neg h1] at h
  generalize (if startsWith key "seatUnder" = true then r.tail else r) = r1 at h
  by_cases h2 : startsWith key "seat" = true ∧ r1.head > 35 / 100
  · rw [if_pos h2] at h
    simp only [Except.ok.injEq] at h
    exact Or.inl ⟨_, h.symm⟩
  rw [if_neg h2] at h
  exact Or.inr ⟨_, _, h⟩

/-- Invariants of `populateStorageLocation`, from those of its loop. -/
theorem populateStorageLocation_invariant (g : VehicleGenerator) (p : String → Bool)
    (key : String) (c : Int) (v : Vehicle) (counts : String → Nat) (r : Rng)
    (P : StorageState → Prop)
    (hrng : ∀ st r, P st → P { st with rng := r })
    (hacc : ∀ st k item records r1 r2 r3, (k, item) ∈ g.itemDb → P st →
      ¬ (st.itemSpawnCounts k > 0 ∧ item.comRepeat = 0) → p k = true →
      capacityPointsFromSize item.size ≤ st.remainingCapacity →
      spawnRecords g item v r1 = .ok (some records, r2) →
      P (st.accept k (capacityPointsFromSize item.size) records r3))
    (st : StorageState) (h : populateStorageLocation g p key c v counts r = .ok st)
    (h0 : P { results := [], remainingCapacity := capacityPointsFromSize c,
              itemSpawnCounts := counts, rng := r }) : P st := by
  rcases populateStorageLocation_ok g p key c v counts r st h with ⟨r', hst⟩ | ⟨f, r', hloop⟩
  · rw [hst]
    exact hrng _ r' h0
  · exact storageLoop_invariant g p key v f P g.itemDb hrng hacc _ st hloop (hrng _ r' h0)

/-! ## Capacity accounting of a storage location -/

theorem capacityPointsFromSize_pos (c : Int) (hc : 1 ≤ c ∧ c ≤ 31) :
    0 < capacityPointsFromSize c := by
  obtain ⟨h1, h2⟩ := hc
  interval_cases c <;> decide

theorem consumedPoints_self (l : List (String × Item)) (c : String → Nat) :
    consumedPoints l c c = 0 := by
  unfold consumedPoints
  induction l with
  | nil => simp
  | cons kv rest ih => simp [ih]

theorem consumedPoints_congr (l : List (String × Item)) (c0 c1 c2 : String → Nat)
    (h : ∀ kv ∈ l, c1 kv.1 = c2 kv.1) : consumedPoints l c0 c1 = consumedPoints l c0 c2 := by
  unfold consumedPoints
  congr 1
  apply List.map_congr_left
  intro kv hkv
  rw [h kv hkv]

/-- Incrementing the counter of a catalog item charges its points once. -/
theorem consumedPoints_accept (l : List (String × Item)) (c0 counts : String → Nat)
    (k : String) (item : Item) (hnd : (l.map Prod.fst).Nodup) (hmem : (k, item) ∈ l) :
    consumedPoints l c0 (fun k' => if k' = k then counts k + 1 else counts k')
      = consumedPoints l c0 counts + capacityPointsFromSize item.size := by
  induction l with
  | nil => simp at hmem
  | cons kv rest ih =>
    obtain ⟨k0, it0⟩ := kv
    simp only [List.map_cons, List.nodup_cons] at hnd
    rcases List.mem_cons.mp hmem with heq | hin
    · simp only [Prod.mk.injEq] at heq
      obtain ⟨hk, hit⟩ := heq
      subst hk
      subst hit
      have hrest : consumedPoints rest c0 (fun k' => if k' = k then counts k + 1 else counts k')
          = consumedPoints rest c0 counts := by
        apply consumedPoints_congr
        intro kv hkv
        have : kv.1 ≠ k := fun h => hnd.1 (h ▸ List.mem_map.mpr ⟨kv, hkv, rfl⟩)
        simp [this]
      have hhead : consumedPoints ((k, item) :: rest) c0 counts
          = ((counts k : Int) - (c0 k : Int)) * capacityPointsFromSize item.size
            + consumedPoints rest c0 counts := by
        simp [consumedPoints]
      have hhead' : consumedPoints ((k, item) :: rest) c0
            (fun k' => if k' = k then counts k + 1 else counts k')
          = (((counts k + 1 : Nat) : Int) - (c0 k : Int)) * capacityPointsFromSize item.size
            + consumedPoints rest c0 (fun k' => if k' = k then counts k + 1 else counts k') := by
        simp [consumedPoints]
      rw [hhead', hhead, hrest]
      push_cast
      ring
    · have hk0 : k0 ≠ k := fun h => hnd.1 (h ▸ List.mem_map.mpr ⟨(k, item), hin, rfl⟩)
      have hhead : ∀ c : String → Nat, consumedPoints ((k0, it0) :: rest) c0 c
          = ((c k0 : Int) - (c0 k0 : Int)) * capacityPointsFromSize it0.size
            + consumedPoints rest c0 c := by
        intro c; simp [consumedPoints]
      rw [hhead, hhead, ih hnd.2 hin]
      simp only [hk0, if_false]
      ring

/-- Within one location every catalog item is accepted at most once, and the
counters of the other keys are left alone. -/
theorem storageLoop_counts (g : VehicleGenerator) (p : String → Bool) (key : String)
    (v : Vehicle) (f : ℚ) (l : List (String × Item)) (hnd : (l.map Prod.fst).Nodup)
    (st st' : StorageState) (h : storageLoop g p key v f l st = .ok st') (k : String) :
    st.itemSpawnCounts k ≤ st'.itemSpawnCounts k ∧
    st'.itemSpawnCounts k ≤ st.itemSpawnCounts k + 1 ∧
    (k ∉ l.map Prod.fst → st'.itemSpawnCounts k = st.itemSpawnCounts k) := by
  induction l generalizing st with
  | nil =>
    simp only [storageLoop, Except.ok.injEq] at h
    subst h
    simp
  | cons kv rest ih =>
    obtain ⟨k0, it0⟩ := kv
    simp only [List.map_cons, List.nodup_cons] at hnd
    rcases storageLoop_cons_ok g p key v f k0 it0 rest st st' h with
      ⟨r', hrest⟩ | ⟨records, r1, r2, -, -, -, -, hend⟩
    · obtain ⟨a, b, c⟩ := ih hnd.2 _ hrest
      refine ⟨a, b, fun hk => c (fun hm => hk (List.mem_cons_of_mem _ hm))⟩
    · rcases hend with hend | hend
      · subst hend
        simp only [StorageState.accept, List.map_cons, List.mem_cons, not_or]
        by_cases hk : k = k0
        · subst hk; simp
        · simp [hk]
      · obtain ⟨a, b, c⟩ := ih hnd.2 _ hend
        simp only [StorageState.accept] at a b c
        by_cases hk : k = k0
        · subst hk
          have := c hnd.1
          simp only [if_true] at this a b
          refine ⟨by omega, by omega, ?_⟩
          intro hnot
          simp at hnot
        · simp only [hk, if_false] at a b c
          refine ⟨a, b, fun hnot => c (fun hm => hnot (List.mem_cons_of_mem _ hm))⟩

theorem Except.ok_of_toBool {ε α : Type} (x : Except ε α) (h : x.toBool = true) :
    ∃ a, x = .ok a := by
  cases x with
  | error e => simp [Except.toBool] at h
  | ok a => exact ⟨a, rfl⟩

/-- C2 (amended). For every run of `populateStorageLocation` on a location of
capacity `c` with `1 ≤ c ≤ 31` (whatever the item sizes, in particular in
1..6), the remaining capacity is never negative at the end of the run, the
capacity points consumed (one charge of `capacityPointsFromSize(item.size)`
per accepted catalog item) are the budget minus the remaining capacity and so
never exceed `capacityPointsFromSize(c)`, and every catalog item is accepted at
most once in the location; in particular in a capacity-2 location at most 4
points (indeed 2) are consumed. -/
theorem storage_consumed_within_budget (g : VehicleGenerator) (p : String → Bool)
    (key : String) (c : Int) (v : Vehicle) (counts : String → Nat) (r : Rng)
    (st : StorageState) (hc : 1 ≤ c ∧ c ≤ 31) (hnd : (g.itemDb.map Prod.fst).Nodup)
    (h : populateStorageLocation g p key c v counts r = .ok st) :
    0 ≤ st.remainingCapacity ∧
    consumedPoints g.itemDb counts st.itemSpawnCounts
      = capacityPointsFromSize c - st.remainingCapacity ∧
    consumedPoints g.itemDb counts st.itemSpawnCounts ≤ capacityPointsFromSize c ∧
    (∀ k, st.itemSpawnCounts k ≤ counts k + 1) ∧
    (c = 2 → consumedPoints g.itemDb counts st.itemSpawnCounts ≤ 4) := by
  have hinv : 0 ≤ st.remainingCapacity ∧
      consumedPoints g.itemDb counts st.itemSpawnCounts
        = capacityPointsFromSize c - st.remainingCapacity := by
    apply populateStorageLocation_invariant g p key c v counts r
      (fun s => 0 ≤ s.remainingCapacity ∧
        consumedPoints g.itemDb counts s.itemSpawnCounts
          = capacityPointsFromSize c - s.remainingCapacity) _ _ st h
    · simp only
      exact ⟨le_of_lt (capacityPointsFromSize_pos c hc), by rw [consumedPoints_self]; ring⟩
    · intro s r' hs
      exact hs
    · intro s k item records r1 r2 r3 hmem hs _ _ hfit _
      simp only [StorageState.accept]
      refine ⟨by omega, ?_⟩
      rw [consumedPoints_accept g.itemDb counts s.itemSpawnCounts k item hnd hmem, hs.2]
      ring
  have hcount : ∀ k, st.itemSpawnCounts k ≤ counts k + 1 := by
    intro k
    rcases populateStorageLocation_ok g p key c v counts r st h with ⟨r', hst⟩ | ⟨f, r', hloop⟩
    · rw [hst]; simp
    · exact (storageLoop_counts g p key v f g.itemDb hnd _ st hloop k).2.1
  refine ⟨hinv.1, hinv.2, by omega, hcount, ?_⟩
  intro hc2
  have : capacityPointsFromSize c = 2 := by subst hc2; decide
  omega

/-- Witness of C2: the one-item catalog in a capacity-2 location. -/
theorem storage_consumed_within_budget_witness :
    ∃ st, populateStorageLocation (exGen exSceneRoad) (fun _ => true) "storTrunk" 2 exCar
        (fun _ => 0) (Rng.ofList []) = .ok st ∧
      0 ≤ st.remainingCapacity ∧
      consumedPoints (exGen exSceneRoad).itemDb (fun _ => 0) st.itemSpawnCounts ≤ 4 := by
  obtain ⟨st, hst⟩ := Except.ok_of_toBool
    (populateStorageLocation (exGen exSceneRoad) (fun _ => true) "storTrunk" 2 exCar
      (fun _ => 0) (Rng.ofList [])) (by decide!)
  have := storage_consumed_within_budget (exGen exSceneRoad) (fun _ => true) "storTrunk" 2
    exCar (fun _ => 0) (Rng.ofList []) st ⟨by decide, by decide⟩ (by decide) hst
  exact ⟨st, hst, this.1, this.2.2.2.2 rfl⟩

/-- C2 fails as stated at the capacity 32, with the one catalog item of size
1: `capacityPointsFromSize(32)` is `1 << 31`, that is -2147483648, so the
remaining capacity is negative from the start, nothing is accepted, and the 0
points consumed exceed the budget. -/
theorem storage_budget_negative_at_capacity_32 :
    (1 : Int) ≤ 32 ∧
    (∀ kv ∈ (exGen exSceneRoad).itemDb, 1 ≤ kv.2.size ∧ kv.2.size ≤ 6) ∧
    capacityPointsFromSize 32 = -2147483648 ∧
    (populateStorageLocation (exGen exSceneRoad) (fun _ => true) "storTrunk" 32 exCar
        (fun _ => 0) (Rng.ofList [])).map
      (fun st => (st.results, st.remainingCapacity,
        consumedPoints (exGen exSceneRoad).itemDb (fun _ => 0) st.itemSpawnCounts))
      = .ok ([], -2147483648, 0) ∧
    ¬ ((0 : Int) ≤ capacityPointsFromSize 32) := by
  decide!

/-! ## The populate loop over the locations -/

/-- One iteration of the loop "Populate locations". -/
theorem populateLocations_cons_ok (g : VehicleGenerator) (p : String → Bool) (v : Vehicle)
    (k0 : String) (l0 : LocationData) (rest : List (String × LocationData)) (c : Contents)
    (counts : String → Nat) (r : Rng) (out : Contents × (String → Nat) × Rng)
    (h : populateLocations g p v ((k0, l0) :: rest) c counts r = .ok out) :
    (startsWith k0 "hang" = true ∧ ∃ items r1,
      populateHanger g p k0 v counts r = .ok (items, r1) ∧
      populateLocations g p v rest (objSet c k0 items) counts r1 = .ok out) ∨
    (startsWith k0 "hang" = false ∧ ∃ st,
      populateStorageLocation g p k0 (l0.capacity.getD 0) v counts r = .ok st ∧
      populateLocations g p v rest (objSet c k0 st.results) st.itemSpawnCounts st.rng
        = .ok out) := by
  rw [populateLocations] at h
  by_cases hh : startsWith k0 "hang" = true
  · rw [if_pos hh] at h
    cases hp : populateHanger g p k0 v counts r with
    | error e => rw [hp] at h; cases h
    | ok res =>
      obtain ⟨items, r1⟩ := res
      rw [hp] at h
      exact Or.inl ⟨hh, items, r1, rfl, h⟩
  · rw [if_neg hh] at h
    simp only at h
    cases hp : populateStorageLocation g p k0 (l0.capacity.getD 0) v counts r with
    | error e => rw [hp] at h; cases h
    | ok st =>
      rw [hp] at h
      exact Or.inr ⟨by simpa using hh, st, rfl, h⟩

theorem populateLocations_notin (g : VehicleGenerator) (p : String → Bool) (v : Vehicle)
    (locs : List (String × LocationData)) (c : Contents) (counts : String → Nat) (r : Rng)
    (out : Contents × (String → Nat) × Rng)
    (h : populateLocations g p v locs c counts r = .ok out)
    (key : String) (hkey : key ∉ locs.map Prod.fst) : objGet out.1 key = objGet c key := by
  induction locs generalizing c counts r with
  | nil =>
    simp only [populateLocations, Except.ok.injEq] at h
    rw [← h]
  | cons kl rest ih =>
    obtain ⟨k0, l0⟩ := kl
    simp only [List.map_cons, List.mem_cons, not_or] at hkey
    rcases populateLocations_cons_ok g p v k0 l0 rest c counts r out h with
      ⟨-, items, r1, -, hrest⟩ | ⟨-, st, -, hrest⟩
    · rw [ih _ _ _ hrest hkey.2, objGet_objSet_ne _ _ _ _ hkey.1]
    · rw [ih _ _ _ hrest hkey.2, objGet_objSet_ne _ _ _ _ hkey.1]

/-- The list stored under a location that is not a hanging point is the
result of the call of `populateStorageLocation` for that location. -/
theorem populateLocations_storage_get (g : VehicleGenerator) (p : String → Bool) (v : Vehicle)
    (locs : List (String × LocationData)) (hnd : (locs.map Prod.fst).Nodup) (c : Contents)
    (counts : String → Nat) (r : Rng) (out : Contents × (String → Nat) × Rng)
    (h : populateLocations g p v locs c counts r = .ok out)
    (key : String) (loc : LocationData) (hmem : (key, loc) ∈ locs)
    (hh : startsWith key "hang" = false) :
    ∃ counts0 r0 st,
      populateStorageLocation g p key (loc.capacity.getD 0) v counts0 r0 = .ok st ∧
      objGet out.1 key = some st.results := by
  induction locs generalizing c counts r with
  | nil => simp at hmem
  | cons kl rest ih =>
    obtain ⟨k0, l0⟩ := kl
    simp only [List.map_cons, List.nodup_cons] at hnd
    rcases List.mem_cons.mp hmem with heq | hin
    · simp only [Prod.mk.injEq] at heq
      obtain ⟨hk, hl⟩ := heq
      subst hk
      subst hl
      rcases populateLocations_cons_ok g p v key loc rest c counts r out h with
        ⟨hh', -⟩ | ⟨-, st, hst, hrest⟩
      · rw [hh] at hh'; cases hh'
      · refine ⟨counts, r, st, hst, ?_⟩
        rw [populateLocations_notin g p v rest _ _ _ out hrest key hnd.1, objGet_objSet_self]
    · rcases populateLocations_cons_ok g p v k0 l0 rest c counts r out h with
        ⟨-, items, r1, -, hrest⟩ | ⟨-, st, -, hrest⟩
      · exact ih hnd.2 _ _ _ hrest hin
      · exact ih hnd.2 _ _ _ hrest hin

theorem getAllLocations_nodup (v : Vehicle) (hnd : (v.entries.map Prod.fst).Nodup) :
    ((getAllLocations v).map Prod.fst).Nodup := by
  unfold getAllLocations
  exact hnd.sublist ((List.filter_sublist _).map Prod.fst)

/-! ## Capacity points of the records of a location -/

theorem nonBundlePoints_append (a b : List GeneratedItem) :
    nonBundlePoints (a ++ b) = nonBundlePoints a + nonBundlePoints b := by
  simp [nonBundlePoints]

theorem nonBundlePoints_eq_recordPoints (items : List GeneratedItem)
    (h : ∀ rec ∈ items, rec.isBundle = false) : nonBundlePoints items = recordPoints items := by
  unfold nonBundlePoints recordPoints
  congr 2
  apply List.filter_eq_self.mpr
  intro rec hrec
  simp [h rec hrec]

/-- The records pushed for one accepted item weigh, bundles left out, at most
the points charged for the item, when those points are not negative. -/
theorem nonBundlePoints_spawnRecords (g : VehicleGenerator) (item : Item) (vehicle : Vehicle)
    (r r' : Rng) (records : List GeneratedItem)
    (h : spawnRecords g item vehicle r = .ok (some records, r'))
    (hpos : 0 ≤ capacityPointsFromSize item.size) :
    nonBundlePoints records ≤ capacityPointsFromSize item.size := by
  obtain ⟨variant, state, ageDays, count, -, hrec, hone⟩ :=
    spawnRecords_some g item vehicle r r' records h
  subst hrec
  cases hsg : variant.spawnGroup with
  | none =>
    rw [hone hsg]
    simp [nonBundlePoints, makeRecord, hsg]
  | some sg =>
    have : (List.replicate (Int.toNat count) (makeRecord item variant state ageDays)).filter
        (fun rec => !rec.isBundle) = [] := by
      apply List.filter_eq_nil_iff.mpr
      intro rec hrec
      rw [List.eq_of_mem_replicate hrec]
      simp [makeRecord, hsg]
    simp only [nonBundlePoints, this, List.map_nil, List.sum_nil]
    exact hpos

theorem storage_nonBundlePoints (g : VehicleGenerator) (p : String → Bool) (key : String)
    (c : Int) (v : Vehicle) (counts : String → Nat) (r : Rng) (st : StorageState)
    (hc : 1 ≤ c ∧ c ≤ 31) (hsize : ∀ kv ∈ g.itemDb, 1 ≤ kv.2.size ∧ kv.2.size ≤ 31)
    (h : populateStorageLocation g p key c v counts r = .ok st) :
    nonBundlePoints st.results ≤ capacityPointsFromSize c := by
  have hinv : 0 ≤ st.remainingCapacity ∧
      nonBundlePoints st.results ≤ capacityPointsFromSize c - st.remainingCapacity := by
    apply populateStorageLocation_invariant g p key c v counts r
      (fun s => 0 ≤ s.remainingCapacity ∧
        nonBundlePoints s.results ≤ capacityPointsFromSize c - s.remainingCapacity) _ _ st h
    · simp only
      exact ⟨le_of_lt (capacityPointsFromSize_pos c hc), by simp [nonBundlePoints]⟩
    · intro s r' hs
      exact hs
    · intro s k item records r1 r2 r3 hmem hs _ _ hfit hspawn
      have hpos := le_of_lt (capacityPointsFromSize_pos item.size (hsize (k, item) hmem))
      have hrec := nonBundlePoints_spawnRecords g item v r1 r2 records hspawn hpos
      simp only [StorageState.accept, nonBundlePoints_append]
      constructor
      · omega
      · omega
  omega

/-- C3 (amended). For every generated vehicle and every location that is not
a hanging point and declares a capacity `c` with `1 ≤ c ≤ 31`, when the item
sizes of the catalog are in 1..31, the records listed for that location in
the output contents that are not part of a bundle, each counted at
`capacityPointsFromSize(record.size)`, total at most
`capacityPointsFromSize(c)`; so do all the records of the location when none
of them is part of a bundle. -/
theorem nonbundle_records_within_budget (g : VehicleGenerator) (r : Rng)
    (gv : GeneratedVehicle) (key : String) (loc : LocationData) (c : Int)
    (hgen : generateSingleVehicle g r = .ok (some gv))
    (hnd : (gv.vehicleData.entries.map Prod.fst).Nodup)
    (hsize : ∀ kv ∈ g.itemDb, 1 ≤ kv.2.size ∧ kv.2.size ≤ 31)
    (hloc : (key, loc) ∈ getAllLocations gv.vehicleData)
    (hh : startsWith key "hang" = false)
    (hcap : loc.capacity = some c) (hc : 1 ≤ c ∧ c ≤ 31) :
    ∃ items, objGet gv.contents key = some items ∧
      nonBundlePoints items ≤ capacityPointsFromSize c ∧
      ((∀ rec ∈ items, rec.isBundle = false) →
        recordPoints items ≤ capacityPointsFromSize c) := by
  obtain ⟨st, hrun, hst⟩ := generateSingleVehicle_some g r gv hgen
  obtain ⟨scene, r2, vehicle, r3, state, r4, color, trim, transmission, r5, contents,
    counts, r6, -, -, -, -, hpop, hst'⟩ := generateSingleVehicleRun_some g r st hrun
  subst hst'
  subst hst
  simp only at hnd hloc ⊢
  obtain ⟨counts0, r0, sst, hsst, hget⟩ :=
    populateLocations_storage_get g _ vehicle (getAllLocations vehicle)
      (getAllLocations_nodup vehicle hnd) _ _ _ _ hpop key loc hloc hh
  rw [hcap] at hsst
  simp only [Option.getD_some] at hsst
  have hb := storage_nonBundlePoints g _ key c vehicle counts0 r0 sst hc hsize hsst
  refine ⟨sst.results, hget, hb, ?_⟩
  intro hall
  rw [← nonBundlePoints_eq_recordPoints sst.results hall]
  exact hb

/-- C3 fails as stated on a bundle: `exGen exSceneRoad` fills the trunk of
capacity 1 (one capacity point) with a pair of socks, two records of size 1,
which count for two points; the code charged the pair once. -/
theorem bundle_records_exceed_budget :
    generateSingleVehicle (exGen exSceneRoad) (Rng.ofList []) = .ok (some exGenerated) ∧
    ("storTrunk", ({ capacity := some 1 } : LocationData)) ∈ exGenerated.vehicleData.entries ∧
    objGet exGenerated.contents "storTrunk" = some [exSockRecord, exSockRecord] ∧
    recordPoints [exSockRecord, exSockRecord] = 2 ∧
    capacityPointsFromSize 1 = 1 ∧
    ¬ (recordPoints [exSockRecord, exSockRecord] ≤ capacityPointsFromSize 1) := by
  decide!

/-- The run of `exGenVan` on the all-zero stream of draws. -/
theorem exGenVan_generates :
    generateSingleVehicle exGenVan (Rng.ofList []) = .ok (some exGeneratedVan) := by
  decide!

/-- Witness of C3 on the trunk (capacity 2) of the van generated by `exGenVan`. -/
theorem nonbundle_records_within_budget_witness :
    generateSingleVehicle exGenVan (Rng.ofList []) = .ok (some exGeneratedVan) ∧
    ∃ items, objGet exGeneratedVan.contents "storTrunk" = some items ∧
      nonBundlePoints items ≤ capacityPointsFromSize 2 ∧
      ((∀ rec ∈ items, rec.isBundle = false) →
        recordPoints items ≤ capacityPointsFromSize 2) :=
  ⟨exGenVan_generates,
    nonbundle_records_within_budget exGenVan (Rng.ofList []) exGeneratedVan "storTrunk"
      { capacity := some 2 } 2 exGenVan_generates (by decide) (by decide) (by decide)
      (by decide) rfl (by decide)⟩

/-! ## Uniqueness of the items that may not repeat -/

/-- Invariants of the loop "Populate locations". -/
theorem populateLocations_invariant (g : VehicleGenerator) (p : String → Bool) (v : Vehicle)
    (J : Contents → (String → Nat) → Prop)
    (hhang : ∀ c counts key items, startsWith key "hang" = true → J c counts →
      J (objSet c key items) counts)
    (hstor : ∀ c counts key cap r st, startsWith key "hang" = false → J c counts →
      populateStorageLocation g p key cap v counts r = .ok st →
      J (objSet c key st.results) st.itemSpawnCounts)
    (locs : List (String × LocationData)) (c : Contents) (counts : String → Nat) (r : Rng)
    (out : Contents × (String → Nat) × Rng)
    (h : populateLocations g p v locs c counts r = .ok out) (h0 : J c counts) :
    J out.1 out.2.1 := by
  induction locs generalizing c counts r with
  | nil =>
    simp only [populateLocations, Except.ok.injEq] at h
    rw [← h]
    exact h0
  | cons kl rest ih =>
    obtain ⟨k0, l0⟩ := kl
    rcases populateLocations_cons_ok g p v k0 l0 rest c counts r out h with
      ⟨hh, items, r1, -, hrest⟩ | ⟨hh, st, hst, hrest⟩
    · exact ih _ _ _ hrest (hhang c counts k0 items hh h0)
    · exact ih _ _ _ hrest (hstor c counts k0 _ r st hh h0 hst)

theorem value_unique_of_nodup_keys {α : Type} (l : List (String × α))
    (hnd : (l.map Prod.fst).Nodup) (k : String) (a b : α) (ha : (k, a) ∈ l) (hb : (k, b) ∈ l) :
    a = b := by
  induction l with
  | nil => simp at ha
  | cons kv rest ih =>
    obtain ⟨k0, v0⟩ := kv
    simp only [List.map_cons, List.nodup_cons] at hnd
    rcases List.mem_cons.mp ha with ha | ha <;> rcases List.mem_cons.mp hb with hb | hb
    · simp only [Prod.mk.injEq] at ha hb
      rw [ha.2, hb.2]
    · simp only [Prod.mk.injEq] at ha
      exact absurd (List.mem_map.mpr ⟨(k, b), hb, rfl⟩) (ha.1 ▸ hnd.1)
    · simp only [Prod.mk.injEq] at hb
      exact absurd (List.mem_map.mpr ⟨(k, a), ha, rfl⟩) (hb.1 ▸ hnd.1)
    · exact ih hnd.2 ha hb

/-- In one storage location the counter of an item that may not repeat stays
at most 1. -/
theorem storage_unique_count (g : VehicleGenerator) (p : String → Bool) (key : String)
    (c : Int) (v : Vehicle) (counts : String → Nat) (r : Rng) (st : StorageState)
    (hnd : (g.itemDb.map Prod.fst).Nodup) (k : String) (item : Item)
    (hmem : (k, item) ∈ g.itemDb) (hrep : item.comRepeat = 0)
    (h : populateStorageLocation g p key c v counts r = .ok st) (h0 : counts k ≤ 1) :
    st.itemSpawnCounts k ≤ 1 := by
  apply populateStorageLocation_invariant g p key c v counts r
    (fun s => s.itemSpawnCounts k ≤ 1) _ _ st h h0
  · intro s r' hs
    exact hs
  · intro s k' item' records r1 r2 r3 hmem' hs hprior _ _ _
    simp only [StorageState.accept]
    by_cases hk : k = k'
    · subst hk
      have hitem : item' = item := value_unique_of_nodup_keys g.itemDb hnd k item' item hmem' hmem
      subst hitem
      have : ¬ (s.itemSpawnCounts k > 0) := fun hpos => hprior ⟨hpos, hrep⟩
      simp only [if_true]
      omega
    · simp only [hk, if_false]
      exact hs

theorem countId_append (n : String) (a b : List GeneratedItem) :
    countId n (a ++ b) = countId n a + countId n b := by
  simp [countId]

/-- The records pushed for one accepted item carry the name of that item, and
there is exactly one of them when the variants of the item declare no spawn
group. -/
theorem countId_spawnRecords (g : VehicleGenerator) (item : Item) (vehicle : Vehicle)
    (r r' : Rng) (records : List GeneratedItem) (n : String)
    (h : spawnRecords g item vehicle r = .ok (some records, r')) :
    (item.name ≠ n → countId n records = 0) ∧
    ((∀ va ∈ item.variants, va.spawnGroup = none) → countId n records ≤ 1) := by
  obtain ⟨variant, state, ageDays, count, hvar, hrec, hone⟩ :=
    spawnRecords_some g item vehicle r r' records h
  subst hrec
  constructor
  · intro hne
    unfold countId
    rw [List.countP_eq_zero]
    intro rec hrec
    rw [List.eq_of_mem_replicate hrec]
    simpa [makeRecord] using hne
  · intro hall
    rw [hone (hall variant hvar)]
    unfold countId
    exact le_trans (List.countP_le_length _) (by simp)

/-- In one storage location the records that carry the name of an item
without spawn groups, whose name no other catalog entry shares, are as many
as the increments of its counter. -/
theorem storage_unique_records (g : VehicleGenerator) (p : String → Bool) (key : String)
    (c : Int) (v : Vehicle) (counts : String → Nat) (r : Rng) (st : StorageState)
    (hnd : (g.itemDb.map Prod.fst).Nodup) (k : String) (item : Item)
    (hmem : (k, item) ∈ g.itemDb)
    (hplain : ∀ va ∈ item.variants, va.spawnGroup = none)
    (hname : ∀ kv ∈ g.itemDb, kv.1 ≠ k → kv.2.name ≠ item.name)
    (h : populateStorageLocation g p key c v counts r = .ok st) :
    countId item.name st.results + counts k ≤ st.itemSpawnCounts k := by
  apply populateStorageLocation_invariant g p key c v counts r
    (fun s => countId item.name s.results + counts k ≤ s.itemSpawnCounts k) _ _ st h
  · simp [countId]
  · intro s r' hs
    exact hs
  · intro s k' item' records r1 r2 r3 hmem' hs _ _ _ hspawn
    have hrec := countId_spawnRecords g item' v r1 r2 records item.name hspawn
    simp only [StorageState.accept, countId_append]
    by_cases hk : k = k'
    · subst hk
      have hitem : item' = item := value_unique_of_nodup_keys g.itemDb hnd k item' item hmem' hmem
      subst hitem
      have := hrec.2 hplain
      simp only [if_true]
      omega
    · have hne : item'.name ≠ item.name := hname (k', item') hmem' (fun h => hk h.symm)
      have := hrec.1 hne
      simp only [hk, if_false]
      omega

theorem recordCount_cons (n : String) (kv : String × List GeneratedItem) (c : Contents) :
    recordCount n (kv :: c) = countId n kv.2 + recordCount n c := by
  simp [recordCount]

theorem nonHangerRecordCount_objSet_hang (n : String) (c : Contents) (key : String)
    (items : List GeneratedItem) (hh : startsWith key "hang" = true) :
    nonHangerRecordCount n (objSet c key items) = nonHangerRecordCount n c := by
  unfold nonHangerRecordCount
  congr 1
  induction c with
  | nil => simp [objSet, hh]
  | cons kv rest ih =>
    obtain ⟨k0, v0⟩ := kv
    by_cases hk : k0 = key
    · subst hk
      simp [objSet, hh]
    · simp only [objSet, hk, if_false, List.filter_cons, ih]

theorem nonHangerRecordCount_objSet_le (n : String) (c : Contents) (key : String)
    (items : List GeneratedItem) :
    nonHangerRecordCount n (objSet c key items)
      ≤ nonHangerRecordCount n c + countId n items := by
  unfold nonHangerRecordCount
  induction c with
  | nil =>
    simp only [objSet, List.filter_nil, recordCount, List.map_nil, List.sum_nil, zero_add]
    by_cases hh : startsWith key "hang" = true
    · simp [hh]
    · simp [hh]
  | cons kv rest ih =>
    obtain ⟨k0, v0⟩ := kv
    by_cases hk : k0 = key
    · subst hk
      simp only [objSet, if_true, List.filter_cons]
      by_cases hh : startsWith k0 "hang" = true
      · simp [hh]
      · simp only [hh, Bool.not_false, if_true, recordCount_cons]
        omega
    · simp only [objSet, hk, if_false, List.filter_cons]
      by_cases hh : startsWith k0 "hang" = true
      · simpa [hh] using ih
      · simp only [hh, Bool.not_false, if_true, recordCount_cons]
        omega

theorem objSet_nil_values (c : Contents) (key : String)
    (h : ∀ kv ∈ c, kv.2 = []) : ∀ kv ∈ objSet c key [], kv.2 = [] := by
  induction c with
  | nil => simp [objSet]
  | cons kv rest ih =>
    obtain ⟨k0, v0⟩ := kv
    by_cases hk : k0 = key
    · intro kv hkv
      simp only [objSet, hk, if_true, List.mem_cons] at hkv
      rcases hkv with hkv | hkv
      · rw [hkv]
      · exact h kv (List.mem_cons_of_mem _ hkv)
    · intro kv hkv
      simp only [objSet, hk, if_false, List.mem_cons] at hkv
      rcases hkv with hkv | hkv
      · rw [hkv]; exact h (k0, v0) (List.mem_cons_self _ _)
      · exact ih (fun kv hm => h kv (List.mem_cons_of_mem _ hm)) kv hkv

theorem foldl_objSet_nil_values (keys : List String) (c : Contents)
    (h : ∀ kv ∈ c, kv.2 = []) :
    ∀ kv ∈ keys.foldl (fun c k => objSet c k []) c, kv.2 = [] := by
  induction keys generalizing c with
  | nil => exact h
  | cons k0 rest ih =>
    simp only [List.foldl_cons]
    exact ih _ (objSet_nil_values c k0 h)

theorem nonHangerRecordCount_initContents (n : String) (v : Vehicle) :
    nonHangerRecordCount n (initContents v) = 0 := by
  have hall : ∀ kv ∈ initContents v, kv.2 = [] := by
    unfold initContents
    simp only
    apply foldl_objSet_nil_values
    apply foldl_objSet_nil_values
    simp
  unfold nonHangerRecordCount recordCount
  apply List.sum_eq_zero
  intro x hx
  obtain ⟨kv, hkv, rfl⟩ := List.mem_map.mp hx
  rw [hall kv (List.mem_of_mem_filter hkv)]
  simp [countId]

/-- C1 (amended). In the vehicle returned by `generateSingleVehicle`, each
catalog item whose `comRepeat` is 0 is accepted at most once over the storage
and seat locations together: its placement counter ends at most at 1; and
when none of its variants declares a spawn group and no other catalog entry
has its name, the locations that are not hanging points hold together at most
one record with its item identifier. -/
theorem unique_item_once_outside_hangers (g : VehicleGenerator) (r : Rng) (st : GenState)
    (k : String) (item : Item)
    (hrun : generateSingleVehicleRun g r = .ok (some st))
    (hnd : (g.itemDb.map Prod.fst).Nodup)
    (hmem : (k, item) ∈ g.itemDb) (hrep : item.comRepeat = 0) :
    generateSingleVehicle g r = .ok (some st.generated) ∧
    st.itemSpawnCounts k ≤ 1 ∧
    ((∀ va ∈ item.variants, va.spawnGroup = none) →
      (∀ kv ∈ g.itemDb, kv.1 ≠ k → kv.2.name ≠ item.name) →
      nonHangerRecordCount item.name st.generated.contents ≤ 1) := by
  have hgen : generateSingleVehicle g r = .ok (some st.generated) := by
    simp [generateSingleVehicle, hrun]
  obtain ⟨scene, r2, vehicle, r3, state, r4, color, trim, transmission, r5, contents,
    counts, r6, -, -, -, -, hpop, hst'⟩ := generateSingleVehicleRun_some g r st hrun
  subst hst'
  simp only
  have hcount : counts k ≤ 1 := by
    apply populateLocations_invariant g _ vehicle (fun _ cnt => cnt k ≤ 1) _ _ _ _ _ _ _ hpop
    · simp
    · intro c cnt key items _ hJ
      exact hJ
    · intro c cnt key cap r' sst _ hJ hsst
      exact storage_unique_count g _ key cap vehicle cnt r' sst hnd k item hmem hrep hsst hJ
  refine ⟨hgen, hcount, ?_⟩
  intro hplain hname
  have hrec : nonHangerRecordCount item.name contents ≤ counts k := by
    apply populateLocations_invariant g _ vehicle
      (fun c cnt => nonHangerRecordCount item.name c ≤ cnt k) _ _ _ _ _ _ _ hpop
    · simp only
      rw [nonHangerRecordCount_initContents]
    · intro c cnt key items hh hJ
      simp only at hJ ⊢
      rw [nonHangerRecordCount_objSet_hang _ _ _ _ hh]
      exact hJ
    · intro c cnt key cap r' sst _ hJ hsst
      simp only at hJ ⊢
      have h1 := storage_unique_records g _ key cap vehicle cnt r' sst hnd k item hmem
        hplain hname hsst
      have h2 := nonHangerRecordCount_objSet_le item.name c key sst.results
      omega
  omega

/-- Witness of C1 on the bottle of `exGenVan`. -/
theorem unique_item_once_outside_hangers_witness :
    ∃ st, generateSingleVehicleRun exGenVan (Rng.ofList []) = .ok (some st) ∧
      generateSingleVehicle exGenVan (Rng.ofList []) = .ok (some st.generated) ∧
      st.itemSpawnCounts "bottle" ≤ 1 ∧
      nonHangerRecordCount exBottle.name st.generated.contents ≤ 1 := by
  have hok : ∃ st, generateSingleVehicleRun exGenVan (Rng.ofList []) = .ok (some st) := by
    obtain ⟨gst, hgst⟩ := generateSingleVehicle_some exGenVan (Rng.ofList []) exGeneratedVan
      exGenVan_generates
    exact ⟨gst, hgst.1⟩
  obtain ⟨st, hst⟩ := hok
  have := unique_item_once_outside_hangers exGenVan (Rng.ofList []) st "bottle" exBottle hst
    (by decide) (by decide) rfl
  exact ⟨st, hst, this.1, this.2.1, this.2.2 (by decide) (by decide)⟩

/-- C1 fails as stated on a bundle: the socks of `exGen` have `comRepeat = 0`
and the generated vehicle holds two records of them, the two of one pair. -/
theorem unique_item_bundle_has_two_records :
    generateSingleVehicle (exGen exSceneRoad) (Rng.ofList []) = .ok (some exGenerated) ∧
    ("socks", exSocks) ∈ (exGen exSceneRoad).itemDb ∧
    exSocks.comRepeat = 0 ∧
    recordCount exSocks.name exGenerated.contents = 2 ∧
    ¬ (recordCount exSocks.name exGenerated.contents ≤ 1) := by
  decide!

/-- The placement in a hanging point is not counted: `populateHanger` tests
`itemSpawnCounts` but never increments it. The bottle of `exGenVan` has
`comRepeat = 0` and no bundle, is hung on the mirror, and is then placed again
in the trunk, so the generated vehicle holds two records of it. -/
theorem hanger_placement_not_counted :
    generateSingleVehicle exGenVan (Rng.ofList []) = .ok (some exGeneratedVan) ∧
    exBottle.comRepeat = 0 ∧
    (∀ va ∈ exBottle.variants, va.spawnGroup = none) ∧
    objGet exGeneratedVan.contents "hangMirror" = some [exBottleRecord] ∧
    objGet exGeneratedVan.contents "storTrunk" = some [exBottleRecord] ∧
    recordCount exBottle.name exGeneratedVan.contents = 2 := by
  decide!

/-! ## What `chooseVehicle` does when the 85% trial misses -/

theorem jsIndex_isSome {α : Type} (xs : List α) (i : Int) (h0 : 0 ≤ i)
    (h1 : i < (xs.length : Int)) : (jsIndex xs i).isSome := by
  unfold jsIndex
  have hlt : i.toNat < xs.length := by omega
  rw [if_neg (by omega)]
  rw [List.get?_eq_get hlt]
  rfl

theorem jsIndex_floorMul_isSome {α : Type} (xs : List α) (u : ℚ) (hu : 0 ≤ u ∧ u < 1)
    (hlen : xs.length > 0) : (jsIndex xs (floorMul u xs.length)).isSome := by
  have hb := floorMul_bounds u (xs.length : Int) hu (by omega)
  exact jsIndex_isSome xs _ hb.1 (by omega)

/-- On draws in `[0,1)`, `chooseVehicle` returns no vehicle exactly when the
fallback list is empty and either the preferred list is empty or the 85%
trial misses. -/
theorem chooseVehicle_none_iff (g : VehicleGenerator) (scene : SceneData) (r : Rng)
    (hr : r.Valid) :
    (chooseVehicle g scene r).1 = none ↔
      (partitionVehicles g.worldTime.apocalypseYear scene g.vehicleDb).2 = [] ∧
      ((partitionVehicles g.worldTime.apocalypseYear scene g.vehicleDb).1 = [] ∨
        85 / 100 ≤ r.head) := by
  unfold chooseVehicle
  generalize partitionVehicles g.worldTime.apocalypseYear scene g.vehicleDb = pf
  obtain ⟨preferred, fallback⟩ := pf
  simp only
  have hr1 : r.tail.Valid := hr.of_suffix (Rng.IsSuffix.tail_self r)
  by_cases h1 : preferred.length > 0 ∧ r.head < 85 / 100
  · rw [if_pos h1]
    have hsome := jsIndex_floorMul_isSome preferred r.tail.head (hr1 0) h1.1
    have hne : preferred ≠ [] := fun h => by simp [h] at h1
    constructor
    · intro h
      simp only at h
      rw [h] at hsome
      cases hsome
    · rintro ⟨-, h | h⟩
      · exact absurd h hne
      · exact absurd h1.2 (not_lt.mpr h)
  · rw [if_neg h1]
    by_cases h2 : fallback.length > 0
    · rw [if_pos h2]
      have hv : (if preferred.length > 0 then r.tail else r).Valid := by
        split
        · exact hr1
        · exact hr
      have hsome := jsIndex_floorMul_isSome fallback
        (if preferred.length > 0 then r.tail else r).head (hv 0) h2
      have hne : fallback ≠ [] := fun h => by simp [h] at h2
      constructor
      · intro h
        simp only at h
        rw [h] at hsome
        cases hsome
      · rintro ⟨h, -⟩
        exact absurd h hne
    · rw [if_neg h2]
      have hnil : fallback = [] := by
        cases fallback with
        | nil => rfl
        | cons a t => simp at h2
      simp only [hnil, true_and, true_iff]
      by_cases h3 : preferred.length > 0
      · right
        by_contra hc
        exact h1 ⟨h3, not_le.mp hc⟩
      · left
        cases preferred with
        | nil => rfl
        | cons a t => simp at h3

/-! ## Storage math -/

/-- C11. For every integer size `s` in 1..6, `capacityPointsFromSize(s)` is
`2^(s-1)`; and for every remaining capacity `r`, `canFit(r, s)` is true exactly
when `r ≥ 2^(s-1)`: a remaining capacity equal to the points of the item fits
and any smaller one does not. -/
theorem capacityPoints_pow_canFit (s r : Int) (hs : 1 ≤ s ∧ s ≤ 6) :
    capacityPointsFromSize s = 2 ^ (s - 1).toNat ∧
    (canFit r s = true ↔ r ≥ 2 ^ (s - 1).toNat) ∧
    canFit (capacityPointsFromSize s) s = true ∧
    (r < capacityPointsFromSize s → canFit r s = false) := by
  obtain ⟨h1, h2⟩ := hs
  have hp : capacityPointsFromSize s = 2 ^ (s - 1).toNat := by
    interval_cases s <;> decide
  refine ⟨hp, ?_, ?_, ?_⟩
  · simp only [canFit, decide_eq_true_eq, hp]
  · simp only [canFit, decide_eq_true_eq]
    exact le_refl _
  · intro hlt
    simp only [canFit, decide_eq_false_iff_not, not_le]
    exact hlt

/-- Witness of C11 for the size 3 and the remaining capacity 4. -/
theorem capacityPoints_pow_canFit_witness :
    ((1 : Int) ≤ 3 ∧ (3 : Int) ≤ 6) ∧
    capacityPointsFromSize 3 = 2 ^ ((3 : Int) - 1).toNat ∧
    (canFit 4 3 = true ↔ (4 : Int) ≥ 2 ^ ((3 : Int) - 1).toNat) ∧
    canFit (capacityPointsFromSize 3) 3 = true ∧
    ((4 : Int) < capacityPointsFromSize 3 → canFit 4 3 = false) :=
  ⟨by decide, capacityPoints_pow_canFit 3 4 (by decide)⟩

/-! ## Affinity bias -/

theorem applyVehicleAffinity_eq (w : ℚ) (L : Option (List String)) (t : String) :
    applyVehicleAffinity w L t = w * affinityMultiplier L t := by
  unfold applyVehicleAffinity affinityMultiplier
  cases L with
  | none => simp [NEUTRAL_MULTIPLIER]
  | some l =>
    cases l with
    | nil => simp [NEUTRAL_MULTIPLIER]
    | cons a l =>
      by_cases h : t ∈ a :: l
      · simp [h, MATCH_MULTIPLIER]
      · simp [h, MISMATCH_MULTIPLIER]

theorem applyStorageAffinity_eq (w : ℚ) (L : Option (List String)) (t : String) :
    applyStorageAffinity w L t = w * affinityMultiplier L t := by
  unfold applyStorageAffinity affinityMultiplier
  cases L with
  | none => simp [NEUTRAL_MULTIPLIER]
  | some l =>
    cases l with
    | nil => simp [NEUTRAL_MULTIPLIER]
    | cons a l =>
      by_cases h : t ∈ a :: l
      · simp [h, MATCH_MULTIPLIER]
      · simp [h, MISMATCH_MULTIPLIER]

/-- C12. For every base weight `w`, affinity list `L` and tag `t`,
`applyVehicleAffinity(w, L, t)` and `applyStorageAffinity(w, L, t)` each return
`w` when `L` is null or empty, `1.85 * w` when `t` is in `L`, and `0.3 * w`
otherwise; applying both axes to the same base weight gives `w` times the
product of the two multipliers, in either order of application. -/
theorem affinity_multipliers_compose (w : ℚ) (Lv Ls : Option (List String))
    (tv ts : String) :
    ((Lv = none ∨ Lv = some []) → applyVehicleAffinity w Lv tv = w) ∧
    (∀ l, Lv = some l → tv ∈ l → applyVehicleAffinity w Lv tv = 1.85 * w) ∧
    (∀ l, Lv = some l → l ≠ [] → tv ∉ l → applyVehicleAffinity w Lv tv = 0.3 * w) ∧
    ((Ls = none ∨ Ls = some []) → applyStorageAffinity w Ls ts = w) ∧
    (∀ l, Ls = some l → ts ∈ l → applyStorageAffinity w Ls ts = 1.85 * w) ∧
    (∀ l, Ls = some l → l ≠ [] → ts ∉ l → applyStorageAffinity w Ls ts = 0.3 * w) ∧
    applyStorageAffinity (applyVehicleAffinity w Lv tv) Ls ts
      = w * (affinityMultiplier Lv tv * affinityMultiplier Ls ts) ∧
    applyVehicleAffinity (applyStorageAffinity w Ls ts) Lv tv
      = applyStorageAffinity (applyVehicleAffinity w Lv tv) Ls ts := by
  have key : ∀ (L : Option (List String)) (t : String),
      ((L = none ∨ L = some []) → w * affinityMultiplier L t = w) ∧
      (∀ l, L = some l → t ∈ l → w * affinityMultiplier L t = 1.85 * w) ∧
      (∀ l, L = some l → l ≠ [] → t ∉ l → w * affinityMultiplier L t = 0.3 * w) := by
    intro L t
    refine ⟨?_, ?_, ?_⟩
    · rintro (h | h) <;> subst h <;> simp [affinityMultiplier]
    · intro l hl ht
      subst hl
      cases l with
      | nil => simp at ht
      | cons a l =>
        simp only [affinityMultiplier, ht, if_true]
        norm_num
        ring
    · intro l hl hne ht
      subst hl
      cases l with
      | nil => exact absurd rfl hne
      | cons a l =>
        simp only [affinityMultiplier, ht, if_false]
        norm_num
        ring
  refine ⟨?_, ?_, ?_, ?_, ?_, ?_, ?_, ?_⟩
  · rw [applyVehicleAffinity_eq]; exact (key Lv tv).1
  · rw [applyVehicleAffinity_eq]; exact (key Lv tv).2.1
  · rw [applyVehicleAffinity_eq]; exact (key Lv tv).2.2
  · rw [applyStorageAffinity_eq]; exact (key Ls ts).1
  · rw [applyStorageAffinity_eq]; exact (key Ls ts).2.1
  · rw [applyStorageAffinity_eq]; exact (key Ls ts).2.2
  · rw [applyStorageAffinity_eq, applyVehicleAffinity_eq]; ring
  · rw [applyStorageAffinity_eq, applyVehicleAffinity_eq, applyStorageAffinity_eq,
      applyVehicleAffinity_eq]
    ring

/-! ## World time -/

/-- C13. For every `WorldTime(apocalypseYear, amount, unit)`,
`getElapsedDays()` is `amount` for days, `amount * 7` for weeks, `amount * 30`
for months and `amount * 365` for years; `getCurrentYear()` is
`apocalypseYear + amount` when the unit is years and `apocalypseYear` for days,
weeks and months; `WorldTime(2030, 2, WEEKS)` gives 14 elapsed days and the
current year 2030. -/
theorem worldTime_days_and_year (apocalypseYear : Int) (amount : ℚ) :
    (WorldTime.mk apocalypseYear amount .days).getElapsedDays = amount ∧
    (WorldTime.mk apocalypseYear amount .weeks).getElapsedDays = amount * 7 ∧
    (WorldTime.mk apocalypseYear amount .months).getElapsedDays = amount * 30 ∧
    (WorldTime.mk apocalypseYear amount .years).getElapsedDays = amount * 365 ∧
    (WorldTime.mk apocalypseYear amount .years).getCurrentYear = apocalypseYear + amount ∧
    (WorldTime.mk apocalypseYear amount .days).getCurrentYear = apocalypseYear ∧
    (WorldTime.mk apocalypseYear amount .weeks).getCurrentYear = apocalypseYear ∧
    (WorldTime.mk apocalypseYear amount .months).getCurrentYear = apocalypseYear ∧
    (WorldTime.mk 2030 2 .weeks).getElapsedDays = 14 ∧
    (WorldTime.mk 2030 2 .weeks).getCurrentYear = 2030 := by
  refine ⟨rfl, rfl, rfl, rfl, rfl, rfl, rfl, rfl, ?_, ?_⟩
  · simp only [WorldTime.getElapsedDays]; norm_num
  · simp only [WorldTime.getCurrentYear]; norm_num

/-! ## The era gate of `chooseVariant` -/

theorem chooseScan_mem_keys (roll : ℚ) (ws : WeightMap) (cum : ℚ) (k : String)
    (h : chooseScan roll ws cum = some k) : k ∈ ws.map Prod.fst := by
  induction ws generalizing cum with
  | nil => simp [chooseScan] at h
  | cons kw rest ih =>
    obtain ⟨k0, w0⟩ := kw
    simp only [chooseScan] at h
    by_cases h1 : w0 ≤ 0
    · rw [if_pos h1] at h
      exact List.mem_cons_of_mem _ (ih _ h)
    · rw [if_neg h1] at h
      by_cases h2 : roll ≤ cum + w0
      · rw [if_pos h2] at h
        simp only [Option.some.injEq] at h
        simp [h]
      · rw [if_neg h2] at h
        exact List.mem_cons_of_mem _ (ih _ h)

theorem firstPositive_mem_keys (ws : WeightMap) (k : String)
    (h : firstPositive ws = some k) : k ∈ ws.map Prod.fst := by
  induction ws with
  | nil => simp [firstPositive] at h
  | cons kw rest ih =>
    obtain ⟨k0, w0⟩ := kw
    simp only [firstPositive] at h
    by_cases h1 : w0 > 0
    · rw [if_pos h1] at h
      simp only [Option.some.injEq] at h
      simp [h]
    · rw [if_neg h1] at h
      exact List.mem_cons_of_mem _ (ih h)

/-- Whatever the draw, a key returned by `choose` is a key of the map. -/
theorem choose_ok_mem_keys (ws : WeightMap) (r r' : Rng) (k : String)
    (h : choose ws r = .ok (k, r')) : k ∈ ws.map Prod.fst ∧ r' = r.tail := by
  unfold choose at h
  simp only at h
  by_cases h1 : totalWeight ws 0 ≤ 0
  · rw [if_pos h1] at h; cases h
  · rw [if_neg h1] at h
    cases hs : chooseScan (r.head * totalWeight ws 0) ws 0 with
    | some k1 =>
      rw [hs] at h
      simp only [Except.ok.injEq, Prod.mk.injEq] at h
      exact ⟨h.1 ▸ chooseScan_mem_keys _ ws 0 k1 hs, h.2.symm⟩
    | none =>
      rw [hs] at h
      cases hf : firstPositive ws with
      | none => rw [hf] at h; cases h
      | some k1 =>
        rw [hf] at h
        simp only [Except.ok.injEq, Prod.mk.injEq] at h
        exact ⟨h.1 ▸ firstPositive_mem_keys ws k1 hf, h.2.symm⟩

theorem objSet_keys {α : Type} (m : List (String × α)) (k : String) (v : α) (k' : String)
    (h : k' ∈ (objSet m k v).map Prod.fst) : k' ∈ m.map Prod.fst ∨ k' = k := by
  induction m with
  | nil => simp [objSet] at h; exact Or.inr h
  | cons kv rest ih =>
    obtain ⟨k0, v0⟩ := kv
    by_cases hk : k0 = k
    · simp only [objSet, hk, if_true, List.map_cons, List.mem_cons] at h ⊢
      rcases h with h | h
      · exact Or.inr h
      · exact Or.inl (Or.inr h)
    · simp only [objSet, hk, if_false, List.map_cons, List.mem_cons] at h ⊢
      rcases h with h | h
      · exact Or.inl (Or.inl h)
      · rcases ih h with h | h
        · exact Or.inl (Or.inr h)
        · exact Or.inr h

/-- Every key of `weightedVariants` is the type of a variant that the era
gate let through. -/
theorem variantWeights_keys (g : VehicleGenerator) (vehicle : Vehicle) (l : List Variant)
    (acc : WeightMap) (k : String) (h : k ∈ (variantWeights g vehicle l acc).map Prod.fst) :
    k ∈ acc.map Prod.fst ∨
    ∃ va ∈ l, va.type = k ∧ ∀ e, va.end_ = some e → e ≠ 0 → vehicle.yearStart ≤ e := by
  induction l generalizing acc with
  | nil => exact Or.inl h
  | cons va rest ih =>
    have lift : (k ∈ acc.map Prod.fst ∨ ∃ va' ∈ rest, va'.type = k ∧
        ∀ e, va'.end_ = some e → e ≠ 0 → vehicle.yearStart ≤ e) →
        (k ∈ acc.map Prod.fst ∨ ∃ va' ∈ va :: rest, va'.type = k ∧
        ∀ e, va'.end_ = some e → e ≠ 0 → vehicle.yearStart ≤ e) := by
      rintro (h1 | ⟨va', hm, h2⟩)
      · exact Or.inl h1
      · exact Or.inr ⟨va', List.mem_cons_of_mem _ hm, h2⟩
    rw [variantWeights] at h
    by_cases hgate : (match va.end_ with
        | some e => decide (e ≠ 0) && decide (vehicle.yearStart > e)
        | none => false) = true
    · rw [if_pos hgate] at h
      exact lift (ih acc h)
    · rw [if_neg hgate] at h
      have hpass : ∀ e, va.end_ = some e → e ≠ 0 → vehicle.yearStart ≤ e := by
        intro e he hne
        rw [he] at hgate
        simp only [Bool.and_eq_true, decide_eq_true_eq, not_and, not_lt] at hgate
        exact hgate hne
      cases hm : getYearMultiplier g.mathExp g.worldTime.apocalypseYear va.start va.end_ with
      | none =>
        rw [hm] at h
        exact lift (ih acc h)
      | some m =>
        rw [hm] at h
        simp only at h
        by_cases hw : va.comVari * m > 0
        · rw [if_pos hw] at h
          rcases ih _ h with h1 | h1
          · rcases objSet_keys acc va.type _ k h1 with h2 | h2
            · exact Or.inl h2
            · exact Or.inr ⟨va, List.mem_cons_self _ _, h2.symm, hpass⟩
          · exact lift (Or.inr h1)
        · rw [if_neg hw] at h
          exact lift (ih acc h)

theorem Except.ok_of_map_fst {ε α β : Type} (x : Except ε (α × β)) (a : α)
    (h : x.map Prod.fst = .ok a) : ∃ b, x = .ok (a, b) := by
  cases x with
  | error e => simp [Except.map] at h
  | ok ab =>
    obtain ⟨a', b⟩ := ab
    simp only [Except.map, Except.ok.injEq] at h
    exact ⟨b, by rw [h]⟩

/-- The era gate on items whose variants have distinct type labels: the
variant that `chooseVariant` returns is a variant of the item, and an end year
it declares is either 0 (which the test `variant.end && ...` takes for no end
year) or at least the `yearStart` of the vehicle. -/
theorem chooseVariant_respects_era_gate (g : VehicleGenerator) (item : Item)
    (vehicle : Vehicle) (r r' : Rng) (v : Variant)
    (hnd : (item.variants.map Variant.type).Nodup)
    (h : chooseVariant g item vehicle r = .ok (some v, r')) :
    v ∈ item.variants ∧ ∀ e, v.end_ = some e → e ≠ 0 → vehicle.yearStart ≤ e := by
  unfold chooseVariant at h
  simp only at h
  by_cases h0 : (variantWeights g vehicle item.variants []).length = 0
  · rw [if_pos h0] at h; cases h
  · rw [if_neg h0] at h
    cases hc : choose (variantWeights g vehicle item.variants []) r with
    | error e => rw [hc] at h; cases h
    | ok res =>
      obtain ⟨chosenType, r1⟩ := res
      rw [hc] at h
      simp only [Except.ok.injEq, Prod.mk.injEq] at h
      have hmem : v ∈ item.variants := List.mem_of_find?_eq_some h.1
      have htype : v.type = chosenType := by
        have := List.find?_some h.1
        simpa using this
      refine ⟨hmem, ?_⟩
      have hkey := (choose_ok_mem_keys _ r r1 chosenType hc).1
      rcases variantWeights_keys g vehicle item.variants [] chosenType hkey with hk | hk
      · simp at hk
      · obtain ⟨va, hva, hvt, hpass⟩ := hk
        have heq : va = v :=
          List.inj_on_of_nodup_map hnd hva hmem (hvt.trans htype.symm)
        rw [← heq]
        exact hpass

/-- The gate at work on `exFlask`: for the vehicle `exModern` the glass
variant that ended in 1990 is left out and the plastic one is returned. -/
theorem chooseVariant_respects_era_gate_witness :
    ∃ r', chooseVariant (exGen exSceneRoad) exFlask exModern (Rng.ofList [])
        = .ok (some exPlasticNew, r') ∧
      variantWeights (exGen exSceneRoad) exModern exFlask.variants [] = [("plastic", 1)] ∧
      exPlasticNew ∈ exFlask.variants ∧
      ∀ e, exPlasticNew.end_ = some e → e ≠ 0 → exModern.yearStart ≤ e := by
  obtain ⟨r', hr'⟩ := Except.ok_of_map_fst
    (chooseVariant (exGen exSceneRoad) exFlask exModern (Rng.ofList []))
    (some exPlasticNew) (by decide!)
  exact ⟨r', hr', by decide!,
    chooseVariant_respects_era_gate (exGen exSceneRoad) exFlask exModern (Rng.ofList []) r' _
      (by decide) hr'⟩

/-- C14. The code breaks the claim, and its own hard era gate, on an item
with two variants of one type label: for the vehicle `exModern`
(`yearStart = 2000`) the gate rejects `exGlassOld` (`end = 1990`) and weighs
`exGlassNew` alone, under the key `glass`; `choose` returns `glass`, and
`item.variants.find` returns the first variant of that type, the rejected
`exGlassOld`, a variant whose end year is strictly earlier than the
`yearStart` of the vehicle. -/
theorem chooseVariant_returns_gated_variant :
    (chooseVariant (exGen exSceneRoad) exJar exModern (Rng.ofList [])).map Prod.fst
      = .ok (some exGlassOld) ∧
    exGlassOld.end_ = some 1990 ∧ exModern.yearStart = 2000 ∧
    exJar.variants = [exGlassOld, exGlassNew] ∧
    variantWeights (exGen exSceneRoad) exModern exJar.variants [] = [("glass", 1)] := by
  decide!

/-! ## State decay -/

theorem decayCandidates_mem (l : List (String × StateData)) (k : String) (dec : ℚ) (o : Int) :
    (k, dec, o) ∈ decayCandidates l ↔
      ∃ kd ∈ l, kd.1 = k ∧ kd.2.decay = some dec ∧ kd.2.ord = some o := by
  induction l with
  | nil => simp [decayCandidates]
  | cons kd rest ih =>
    obtain ⟨k0, d0⟩ := kd
    rw [decayCandidates]
    cases hd : d0.decay with
    | none =>
      simp only [ih, List.mem_cons, exists_eq_or_imp, hd]
      simp
    | some dec0 =>
      cases ho : d0.ord with
      | none =>
        simp only [ih, List.mem_cons, exists_eq_or_imp, ho]
        simp
      | some o0 =>
        simp only [ih, List.mem_cons, exists_eq_or_imp, hd, ho, Prod.mk.injEq,
          Option.some.injEq]
        constructor
        · rintro (⟨h1, h2, h3⟩ | h)
          · exact Or.inl ⟨h1.symm, h2.symm, h3.symm⟩
          · exact Or.inr h
        · rintro (⟨h1, h2, h3⟩ | h)
          · exact Or.inl ⟨h1.symm, h2.symm, h3.symm⟩
          · exact Or.inr h

theorem decayWalk_none_passed (age : ℚ) (l : List (String × ℚ × Int)) (fs : String)
    (h : ∀ x ∈ l, ¬ (x.2.1 ≤ age)) : decayWalk age l fs = fs := by
  induction l generalizing fs with
  | nil => rfl
  | cons x rest ih =>
    obtain ⟨k, dec, o⟩ := x
    have hx : ¬ (age ≥ dec) := h (k, dec, o) (List.mem_cons_self _ _)
    simp only [decayWalk, hx, if_false]
    exact ih fs (fun y hy => h y (List.mem_cons_of_mem _ hy))

/-- On a list sorted by strictly increasing ordering index, the walk ends on
the passed state of greatest ordering index, if a state has been passed. -/
theorem decayWalk_greatest (age : ℚ) (l : List (String × ℚ × Int)) (fs : String)
    (hs : l.Pairwise (fun a b => a.2.2 < b.2.2)) (hq : ∃ x ∈ l, x.2.1 ≤ age) :
    ∃ x ∈ l, x.2.1 ≤ age ∧ decayWalk age l fs = x.1 ∧
      ∀ y ∈ l, y.2.1 ≤ age → y.2.2 ≤ x.2.2 := by
  induction l generalizing fs with
  | nil => simp at hq
  | cons x rest ih =>
    obtain ⟨k, dec, o⟩ := x
    rw [List.pairwise_cons] at hs
    by_cases hrest : ∃ y ∈ rest, y.2.1 ≤ age
    · obtain ⟨z, hz, hzq, hzw, hzmax⟩ := ih (if age ≥ dec then k else fs) hs.2 hrest
      refine ⟨z, List.mem_cons_of_mem _ hz, hzq, by simpa [decayWalk] using hzw, ?_⟩
      intro y hy hyq
      rcases List.mem_cons.mp hy with hy | hy
      · subst hy
        exact le_of_lt (hs.1 z hz)
      · exact hzmax y hy hyq
    · have hnone : ∀ y ∈ rest, ¬ (y.2.1 ≤ age) := fun y hy hyq => hrest ⟨y, hy, hyq⟩
      have hx : dec ≤ age := by
        obtain ⟨y, hy, hyq⟩ := hq
        rcases List.mem_cons.mp hy with hy | hy
        · subst hy; exact hyq
        · exact absurd hyq (hnone y hy)
      refine ⟨(k, dec, o), List.mem_cons_self _ _, hx, ?_, ?_⟩
      · have hge : age ≥ dec := hx
        simp only [decayWalk, hge, if_true]
        exact decayWalk_none_passed age rest k hnone
      · intro y hy hyq
        rcases List.mem_cons.mp hy with hy | hy
        · subst hy; exact le_refl _
        · exact absurd hyq (hnone y hy)

theorem decayStates_perm (itmState : List (String × StateData)) :
    (decayStates itmState).Perm (decayCandidates itmState) :=
  List.perm_insertionSort _ _

theorem decayStates_strictly_sorted (itmState : List (String × StateData))
    (hdist : ((decayCandidates itmState).map (fun x => x.2.2)).Nodup) :
    (decayStates itmState).Pairwise (fun a b => a.2.2 < b.2.2) := by
  haveI : IsTotal (String × ℚ × Int) (fun a b => a.2.2 ≤ b.2.2) :=
    ⟨fun a b => le_total a.2.2 b.2.2⟩
  haveI : IsTrans (String × ℚ × Int) (fun a b => a.2.2 ≤ b.2.2) :=
    ⟨fun a b c hab hbc => le_trans hab hbc⟩
  have hsorted : (decayStates itmState).Pairwise (fun a b => a.2.2 ≤ b.2.2) :=
    List.sorted_insertionSort (fun a b : String × ℚ × Int => a.2.2 ≤ b.2.2) _
  have hnd : ((decayStates itmState).map (fun x => x.2.2)).Nodup :=
    ((decayStates_perm itmState).map _).nodup_iff.mpr hdist
  have hne : (decayStates itmState).Pairwise (fun a b => a.2.2 ≠ b.2.2) := by
    rw [List.Nodup, List.pairwise_map] at hnd
    exact hnd
  exact (hsorted.and hne).imp (fun h => lt_of_le_of_ne h.1 h.2)

/-- C15. In `chooseStateWithDecay`, with the ordering indices of the states
that declare both a decay threshold and an ordering index distinct: when the
initially picked state declares no decay threshold it is returned unchanged;
when it declares one and some state declaring both has its threshold at or
below the computed age, the returned state is the one of greatest ordering
index among those states, whichever state was initially picked. The computed
age is the base age drawn (0..7 for `consumable_food`, else 0..439) plus the
elapsed days. -/
theorem decay_returns_greatest_passed (item : Item) (elapsedDays : ℚ) (r r1 r' : Rng)
    (initialState state : String) (age : ℚ)
    (hdist : ((decayCandidates item.itmState).map (fun x => x.2.2)).Nodup)
    (hinit : choose (item.itmState.map (fun kd => (kd.1, kd.2.comState))) r
      = .ok (initialState, r1))
    (h : chooseStateWithDecay item elapsedDays r = .ok ((state, age), r')) :
    age = ((if item.category = "consumable_food" then floorMul r1.head 8
            else floorMul r1.head 440 : Int) : ℚ) + elapsedDays ∧
    (∀ d, objGet item.itmState initialState = some d → d.decay = none →
      state = initialState) ∧
    (∀ d, objGet item.itmState initialState = some d → d.decay ≠ none →
      (∃ kd ∈ item.itmState, ∃ dec o, kd.2.decay = some dec ∧ kd.2.ord = some o ∧ dec ≤ age) →
      ∃ kd ∈ item.itmState, ∃ dec o, kd.2.decay = some dec ∧ kd.2.ord = some o ∧ dec ≤ age ∧
        state = kd.1 ∧
        ∀ kd' ∈ item.itmState, ∀ dec' o', kd'.2.decay = some dec' → kd'.2.ord = some o' →
          dec' ≤ age → o' ≤ o) := by
  unfold chooseStateWithDecay at h
  simp only [hinit] at h
  cases hget : objGet item.itmState initialState with
  | none => rw [hget] at h; cases h
  | some stateData =>
    rw [hget] at h
    simp only at h
    cases hdec : stateData.decay with
    | none =>
      rw [hdec] at h
      simp only [Except.ok.injEq, Prod.mk.injEq] at h
      refine ⟨h.1.2.symm, ?_, ?_⟩
      · intro d _ _
        exact h.1.1.symm
      · intro d hd hne
        simp only [Option.some.injEq] at hd
        rw [← hd] at hne
        exact absurd hdec hne
    | some dec0 =>
      rw [hdec] at h
      simp only [Except.ok.injEq, Prod.mk.injEq] at h
      obtain ⟨⟨hstate, hage⟩, -⟩ := h
      refine ⟨hage.symm, ?_, ?_⟩
      · intro d hd hnone
        simp only [Option.some.injEq] at hd
        rw [← hd, hdec] at hnone
        cases hnone
      · intro d _ _ hq
        have hq' : ∃ x ∈ decayStates item.itmState, x.2.1 ≤ age := by
          obtain ⟨kd, hkd, dec, o, h1, h2, h3⟩ := hq
          refine ⟨(kd.1, dec, o), ?_, h3⟩
          rw [(decayStates_perm item.itmState).mem_iff, decayCandidates_mem]
          exact ⟨kd, hkd, rfl, h1, h2⟩
        obtain ⟨x, hx, hxq, hxw, hxmax⟩ := decayWalk_greatest age
          (decayStates item.itmState) initialState
          (decayStates_strictly_sorted item.itmState hdist) hq'
        obtain ⟨xk, xdec, xo⟩ := x
        rw [(decayStates_perm item.itmState).mem_iff, decayCandidates_mem] at hx
        obtain ⟨kd, hkd, hk1, hk2, hk3⟩ := hx
        refine ⟨kd, hkd, xdec, xo, hk2, hk3, hxq, ?_, ?_⟩
        · rw [← hstate, hage, hk1]
          exact hxw
        · intro kd' hkd' dec' o' h1 h2 h3
          have hmem : (kd'.1, dec', o') ∈ decayStates item.itmState := by
            rw [(decayStates_perm item.itmState).mem_iff, decayCandidates_mem]
            exact ⟨kd', hkd', rfl, h1, h2⟩
          exact hxmax (kd'.1, dec', o') hmem h3

/-- Witness of C15: the apple, picked fresh, after 10 elapsed days is stale. -/
theorem decay_returns_greatest_passed_witness :
    ∃ r1 r', choose (exApple.itmState.map (fun kd => (kd.1, kd.2.comState))) (Rng.ofList [])
        = .ok ("fresh", r1) ∧
      chooseStateWithDecay exApple 10 (Rng.ofList []) = .ok (("stale", 10), r') ∧
      ∃ kd ∈ exApple.itmState, ∃ dec o, kd.2.decay = some dec ∧ kd.2.ord = some o ∧
        dec ≤ (10 : ℚ) ∧ "stale" = kd.1 ∧
        ∀ kd' ∈ exApple.itmState, ∀ dec' o', kd'.2.decay = some dec' → kd'.2.ord = some o' →
          dec' ≤ (10 : ℚ) → o' ≤ o := by
  obtain ⟨r1, hr1⟩ := Except.ok_of_map_fst
    (choose (exApple.itmState.map (fun kd => (kd.1, kd.2.comState))) (Rng.ofList []))
    "fresh" (by decide!)
  obtain ⟨r', hr'⟩ := Except.ok_of_map_fst
    (chooseStateWithDecay exApple 10 (Rng.ofList [])) ("stale", 10) (by decide!)
  have := decay_returns_greatest_passed exApple 10 (Rng.ofList []) r1 r' "fresh" "stale" 10
    (by decide) hr1 hr'
  refine ⟨r1, r', hr1, hr', ?_⟩
  exact this.2.2 { comState := 1, decay := some 0, ord := some 0 } (by decide!) (by simp)
    ⟨("fresh", { comState := 1, decay := some 0, ord := some 0 }), by simp [exApple], 0, 0,
      rfl, rfl, by norm_num⟩

/-! ## Skipping seat locations -/

theorem startsWith_seat_of_seatUnder (key : String) (h : startsWith key "seatUnder" = true) :
    startsWith key "seat" = true := by
  unfold startsWith at h ⊢
  rw [List.isPrefixOf_iff_prefix] at h ⊢
  exact List.IsPrefix.trans (by decide : "seat".data <+: "seatUnder".data) h

theorem volume_drawsAbove (t : ℚ) (ht : 0 ≤ t) :
    MeasureTheory.volume (drawsAbove t) = ENNReal.ofReal (1 - (t : ℝ)) := by
  have hset : drawsAbove t = Set.Ioo (t : ℝ) 1 := by
    ext x
    simp only [drawsAbove, Set.mem_setOf_eq, Set.mem_Ioo]
    have ht' : (0 : ℝ) ≤ (t : ℝ) := by exact_mod_cast ht
    constructor
    · rintro ⟨-, h1, h2⟩; exact ⟨h2, h1⟩
    · rintro ⟨h1, h2⟩; exact ⟨by linarith, h2, h1⟩
  rw [hset, Real.volume_Ioo]

/-- C16 (amended). In `populateStorageLocation`, a plain seat location (key
with prefix `seat`, not `seatUnder`) is skipped entirely, with an empty result
and no item examined, exactly on the draws above 0.35, a set of measure 0.65;
otherwise its next draw is the fullness and the loop over the catalog runs.
An under-seat location (prefix `seatUnder`) is skipped on the draws above
0.95, a set of measure 0.05; when it is not, its key also passes the seat
test, and it is skipped when the next draw is above 0.35. -/
theorem seat_locations_skip_draws (g : VehicleGenerator) (p : String → Bool) (key : String)
    (c : Int) (v : Vehicle) (counts : String → Nat) :
    (startsWith key "seat" = true → startsWith key "seatUnder" = false → ∀ r : Rng,
      (r.head > 35 / 100 →
        populateStorageLocation g p key c v counts r = .ok (skippedState c counts r.tail)) ∧
      (¬ r.head > 35 / 100 →
        populateStorageLocation g p key c v counts r
          = storageLoop g p key v r.tail.head g.itemDb (skippedState c counts r.tail.tail))) ∧
    (startsWith key "seatUnder" = true → ∀ r : Rng,
      (r.head > 95 / 100 →
        populateStorageLocation g p key c v counts r = .ok (skippedState c counts r.tail)) ∧
      (¬ r.head > 95 / 100 → r.tail.head > 35 / 100 →
        populateStorageLocation g p key c v counts r
          = .ok (skippedState c counts r.tail.tail)) ∧
      (¬ r.head > 95 / 100 → ¬ r.tail.head > 35 / 100 →
        populateStorageLocation g p key c v counts r
          = storageLoop g p key v r.tail.tail.head g.itemDb
              (skippedState c counts r.tail.tail.tail))) ∧
    MeasureTheory.volume (drawsAbove (35 / 100)) = ENNReal.ofReal (65 / 100) ∧
    MeasureTheory.volume (drawsAbove (95 / 100)) = ENNReal.ofReal (5 / 100) := by
  refine ⟨?_, ?_, ?_, ?_⟩
  · intro hseat hunder r
    constructor
    · intro hu
      simp [populateStorageLocation, skippedState, hseat, hunder, hu]
    · intro hu
      simp [populateStorageLocation, skippedState, hseat, hunder, hu]
  · intro hunder r
    have hseat := startsWith_seat_of_seatUnder key hunder
    refine ⟨?_, ?_, ?_⟩
    · intro hu
      simp [populateStorageLocation, skippedState, hunder, hu]
    · intro hu1 hu2
      simp [populateStorageLocation, skippedState, hseat, hunder, hu1, hu2]
    · intro hu1 hu2
      simp [populateStorageLocation, skippedState, hseat, hunder, hu1, hu2]
  · rw [volume_drawsAbove _ (by norm_num)]
    congr 1
    norm_num
  · rw [volume_drawsAbove _ (by norm_num)]
    congr 1
    norm_num

/-- C16 fails as stated on a plain seat: the location `seatBack` is skipped
on every draw above 0.35, for instance on 1/2, and those draws have measure
0.65, which is more than 0.35; on the draw 1/5 the socks are placed. -/
theorem seat_skipped_on_more_than_035 :
    startsWith "seatBack" "seat" = true ∧ startsWith "seatBack" "seatUnder" = false ∧
    (∀ r : Rng, r.head > 35 / 100 →
      populateStorageLocation (exGen exSceneRoad) (fun _ => true) "seatBack" 1 exCar
        (fun _ => 0) r = .ok (skippedState 1 (fun _ => 0) r.tail)) ∧
    (populateStorageLocation (exGen exSceneRoad) (fun _ => true) "seatBack" 1 exCar
        (fun _ => 0) (Rng.ofList [1 / 2])).map (fun st => st.results) = .ok [] ∧
    (populateStorageLocation (exGen exSceneRoad) (fun _ => true) "seatBack" 1 exCar
        (fun _ => 0) (Rng.ofList [1 / 5])).map (fun st => st.results)
      = .ok [exSockRecord, exSockRecord] ∧
    MeasureTheory.volume (drawsAbove (35 / 100)) = ENNReal.ofReal (65 / 100) ∧
    ENNReal.ofReal (35 / 100) < MeasureTheory.volume (drawsAbove (35 / 100)) := by
  have hvol : MeasureTheory.volume (drawsAbove (35 / 100)) = ENNReal.ofReal (65 / 100) := by
    rw [volume_drawsAbove _ (by norm_num)]
    congr 1
    norm_num
  refine ⟨by decide, by decide, ?_, by decide!, by decide!, hvol, ?_⟩
  · intro r hu
    have hseat : startsWith "seatBack" "seat" = true := by decide
    have hunder : startsWith "seatBack" "seatUnder" = false := by decide
    simp [populateStorageLocation, skippedState, hseat, hunder, hu]
  · rw [hvol, ENNReal.ofReal_lt_ofReal_iff (by norm_num)]
    norm_num

/-! ## Bundles -/

theorem chooseVariant_suffix (g : VehicleGenerator) (item : Item) (vehicle : Vehicle)
    (r r' : Rng) (ov : Option Variant) (h : chooseVariant g item vehicle r = .ok (ov, r')) :
    Rng.IsSuffix r' r := by
  unfold chooseVariant at h
  simp only at h
  by_cases h0 : (variantWeights g vehicle item.variants []).length = 0
  · rw [if_pos h0] at h
    simp only [Except.ok.injEq, Prod.mk.injEq] at h
    exact h.2 ▸ Rng.IsSuffix.refl r
  · rw [if_neg h0] at h
    cases hc : choose (variantWeights g vehicle item.variants []) r with
    | error e => rw [hc] at h; cases h
    | ok res =>
      obtain ⟨chosenType, r1⟩ := res
      rw [hc] at h
      simp only [Except.ok.injEq, Prod.mk.injEq] at h
      rw [← h.2, (choose_ok_mem_keys _ r r1 chosenType hc).2]
      exact Rng.IsSuffix.tail_self r

theorem chooseStateWithDecay_suffix (item : Item) (elapsedDays : ℚ) (r r' : Rng)
    (sa : String × ℚ) (h : chooseStateWithDecay item elapsedDays r = .ok (sa, r')) :
    Rng.IsSuffix r' r := by
  unfold chooseStateWithDecay at h
  simp only at h
  cases hc : choose (item.itmState.map (fun kd => (kd.1, kd.2.comState))) r with
  | error e => rw [hc] at h; cases h
  | ok res =>
    obtain ⟨initialState, r1⟩ := res
    rw [hc] at h
    simp only at h
    have hr1 : r1 = r.tail := (choose_ok_mem_keys _ r r1 initialState hc).2
    cases hget : objGet item.itmState initialState with
    | none => rw [hget] at h; cases h
    | some stateData =>
      rw [hget] at h
      simp only at h
      cases hdec : stateData.decay with
      | none =>
        rw [hdec] at h
        simp only [Except.ok.injEq, Prod.mk.injEq] at h
        rw [← h.2, hr1]
        exact (Rng.IsSuffix.tail_self r).tail
      | some dec0 =>
        rw [hdec] at h
        simp only [Except.ok.injEq, Prod.mk.injEq] at h
        rw [← h.2, hr1]
        exact (Rng.IsSuffix.tail_self r).tail

/-- The bundle count lies between the minimum and the maximum of the group. -/
theorem spawnCount_bounds (variant : Variant) (sg : SpawnGroup) (r : Rng)
    (hsg : variant.spawnGroup = some sg) (hu : 0 ≤ r.head ∧ r.head < 1)
    (hmm : sg.min.getD 2 ≤ sg.max.getD (sg.min.getD 2)) :
    sg.min.getD 2 ≤ (spawnCount variant r).1 ∧
    (spawnCount variant r).1 ≤ sg.max.getD (sg.min.getD 2) := by
  have hb := floorMul_bounds r.head (sg.max.getD (sg.min.getD 2) - sg.min.getD 2 + 1) hu
    (by omega)
  simp only [spawnCount, hsg]
  constructor <;> omega

/-- C18 (amended). For every accepted item placement, in `populateHanger` and
in `populateStorageLocation` alike (the statements of `spawnRecords`), on
draws in `[0,1)`, with `variant` the variant that `chooseVariant` returned for
the placement and `state`, `ageDays` the result of `chooseStateWithDecay`: the
records emitted are copies of one record; if the chosen variant declares a
spawn group with
`0 ≤ min ≤ max` (max defaulting to min, min defaulting to 2), the number of
records emitted is an integer `n` with `min ≤ n ≤ max`, all `n` records are
identical and flagged `isBundle` with the mode of the group as `bundleMode`;
if the variant declares no spawn group, exactly one record is emitted, with
`isBundle` false and `bundleMode` null. -/
theorem placement_records_follow_spawn_group (g : VehicleGenerator) (item : Item)
    (vehicle : Vehicle) (r r' : Rng) (records : List GeneratedItem) (hr : r.Valid)
    (h : spawnRecords g item vehicle r = .ok (some records, r')) :
    ∃ variant r1 state ageDays r2,
      chooseVariant g item vehicle r = .ok (some variant, r1) ∧
      chooseStateWithDecay item g.worldTime.getElapsedDays r1 = .ok ((state, ageDays), r2) ∧
      variant ∈ item.variants ∧
      records = List.replicate (spawnCount variant r2).1.toNat
        (makeRecord item variant state ageDays) ∧
      (variant.spawnGroup = none →
        records = [makeRecord item variant state ageDays] ∧
        (makeRecord item variant state ageDays).isBundle = false ∧
        (makeRecord item variant state ageDays).bundleMode = none) ∧
      (∀ sg, variant.spawnGroup = some sg → 0 ≤ sg.min.getD 2 →
        sg.min.getD 2 ≤ sg.max.getD (sg.min.getD 2) →
        ∃ n : Nat, sg.min.getD 2 ≤ (n : Int) ∧ (n : Int) ≤ sg.max.getD (sg.min.getD 2) ∧
          records = List.replicate n (makeRecord item variant state ageDays) ∧
          (makeRecord item variant state ageDays).isBundle = true ∧
          (makeRecord item variant state ageDays).bundleMode = sg.mode) := by
  unfold spawnRecords at h
  cases hv : chooseVariant g item vehicle r with
  | error e => rw [hv] at h; cases h
  | ok res =>
    obtain ⟨ov, r1⟩ := res
    rw [hv] at h
    cases ov with
    | none => cases h
    | some variant =>
      simp only at h
      cases hs : chooseStateWithDecay item g.worldTime.getElapsedDays r1 with
      | error e => rw [hs] at h; cases h
      | ok res2 =>
        obtain ⟨⟨state, ageDays⟩, r2⟩ := res2
        rw [hs] at h
        simp only [Except.ok.injEq, Prod.mk.injEq, Option.some.injEq] at h
        have hr2 : r2.Valid := hr.of_suffix
          ((chooseStateWithDecay_suffix item _ r1 r2 _ hs).trans
            (chooseVariant_suffix g item vehicle r r1 _ hv))
        have hmem : variant ∈ item.variants := by
          unfold chooseVariant at hv
          simp only at hv
          split at hv
          · cases hv
          · split at hv
            · cases hv
            · simp only [Except.ok.injEq, Prod.mk.injEq] at hv
              exact List.mem_of_find?_eq_some hv.1
        refine ⟨variant, r1, state, ageDays, r2, rfl, hs, hmem, h.1.symm, ?_, ?_⟩
        · intro hnone
          refine ⟨?_, by simp [makeRecord, hnone], by simp [makeRecord, hnone]⟩
          rw [← h.1]
          simp [spawnCount, hnone]
        · intro sg hsg hmin hmm
          have hb := spawnCount_bounds variant sg r2 hsg (hr2 0) hmm
          refine ⟨((spawnCount variant r2).1).toNat, ?_, ?_, h.1.symm,
            by simp [makeRecord, hsg], by simp [makeRecord, hsg]⟩
          · rw [Int.toNat_of_nonneg (by omega)]; exact hb.1
          · rw [Int.toNat_of_nonneg (by omega)]; exact hb.2

/-- Witness of C18: the placement of the socks of `exGen` emits a pair. -/
theorem placement_records_follow_spawn_group_witness :
    ∃ r', spawnRecords (exGen exSceneRoad) exSocks exCar (Rng.ofList [])
        = .ok (some [exSockRecord, exSockRecord], r') ∧
      ∃ variant r1 state ageDays r2,
        chooseVariant (exGen exSceneRoad) exSocks exCar (Rng.ofList [])
          = .ok (some variant, r1) ∧
        chooseStateWithDecay exSocks (exGen exSceneRoad).worldTime.getElapsedDays r1
          = .ok ((state, ageDays), r2) ∧
        variant ∈ exSocks.variants ∧
        [exSockRecord, exSockRecord] = List.replicate (spawnCount variant r2).1.toNat
          (makeRecord exSocks variant state ageDays) ∧
        (variant.spawnGroup = none →
          [exSockRecord, exSockRecord] = [makeRecord exSocks variant state ageDays] ∧
          (makeRecord exSocks variant state ageDays).isBundle = false ∧
          (makeRecord exSocks variant state ageDays).bundleMode = none) ∧
        (∀ sg, variant.spawnGroup = some sg → 0 ≤ sg.min.getD 2 →
          sg.min.getD 2 ≤ sg.max.getD (sg.min.getD 2) →
          ∃ n : Nat, sg.min.getD 2 ≤ (n : Int) ∧ (n : Int) ≤ sg.max.getD (sg.min.getD 2) ∧
            [exSockRecord, exSockRecord]
              = List.replicate n (makeRecord exSocks variant state ageDays) ∧
            (makeRecord exSocks variant state ageDays).isBundle = true ∧
            (makeRecord exSocks variant state ageDays).bundleMode = sg.mode) := by
  obtain ⟨r', hr'⟩ := Except.ok_of_map_fst
    (spawnRecords (exGen exSceneRoad) exSocks exCar (Rng.ofList []))
    (some [exSockRecord, exSockRecord]) (by decide!)
  exact ⟨r', hr', placement_records_follow_spawn_group (exGen exSceneRoad) exSocks exCar
    (Rng.ofList []) r' _ Rng.ofList_nil_valid hr'⟩

/-- C18 fails as stated on a spawn group of negative minimum: the variant of
`exGhost` declares `min = -1` (and so `max = -1`, `min ≤ max`); the count drawn
is -1, the loop that pushes the records does not run, and the placement emits
0 records, which is more than `max`. -/
theorem negative_spawn_group_emits_nothing :
    (spawnRecords (exGen exSceneRoad) exGhost exCar (Rng.ofList [])).map Prod.fst
      = .ok (some []) ∧
    (exGhost.variants.map Variant.spawnGroup)
      = [some { min := some (-1), max := none, mode := some "set" }] ∧
    ((some (-1) : Option Int).getD 2) ≤ (none : Option Int).getD ((some (-1) : Option Int).getD 2) ∧
    ¬ (((([] : List GeneratedItem).length : Nat) : Int)
        ≤ (none : Option Int).getD ((some (-1) : Option Int).getD 2)) := by
  decide!

/-! ## The presence set -/

/-- One iteration of the hanger loop leaves the results as they are, stops
the loop, or pushes the records of an accepted item that is present. -/
theorem hangerLoop_cons_ok (g : VehicleGenerator) (p : String → Bool) (key : String)
    (v : Vehicle) (counts : String → Nat) (maxItems : Int) (k : String) (item : Item)
    (rest : List (String × Item)) (results : List GeneratedItem) (r : Rng)
    (out : List GeneratedItem × Rng)
    (h : hangerLoop g p key v counts maxItems ((k, item) :: rest) results r = .ok out) :
    (∃ r', hangerLoop g p key v counts maxItems rest results r' = .ok out) ∨
    out = (results, r) ∨
    (∃ records r1, p k = true ∧
      spawnRecords g item v r = .ok (some records, r1) ∧
      (out = (results ++ records, r1.tail) ∨
       hangerLoop g p key v counts maxItems rest (results ++ records) r1.tail = .ok out)) := by
  rw [hangerLoop] at h
  by_cases h1 : counts k > 0 ∧ item.comRepeat = 0
  · rw [if_pos h1] at h; exact Or.inl ⟨r, h⟩
  rw [if_neg h1] at h
  by_cases h2 : (!p k) = true
  · rw [if_pos h2] at h; exact Or.inl ⟨r, h⟩
  rw [if_neg h2] at h
  by_cases h3 : (results.length : Int) ≥ maxItems
  · rw [if_pos h3] at h
    simp only [Except.ok.injEq] at h
    exact Or.inr (Or.inl h.symm)
  rw [if_neg h3] at h
  by_cases h4 : (match item.affStorage with
      | none => true
      | some l => !l.contains key) = true
  · rw [if_pos h4] at h; exact Or.inl ⟨r, h⟩
  rw [if_neg h4] at h
  cases hs : spawnRecords g item v r with
  | error e => rw [hs] at h; cases h
  | ok res =>
    obtain ⟨orecs, r1⟩ := res
    rw [hs] at h
    cases orecs with
    | none => exact Or.inl ⟨r1, h⟩
    | some records =>
      simp only at h
      refine Or.inr (Or.inr ⟨records, r1, by simpa using h2, rfl, ?_⟩)
      by_cases h5 : r1.head > 6 / 10
      · rw [if_pos h5] at h
        simp only [Except.ok.injEq] at h
        exact Or.inl h.symm
      · rw [if_neg h5] at h
        exact Or.inr h

/-- Invariants of the hanger loop: a property of the results that is kept by
every push of the records of an accepted item holds at the end of the loop. -/
theorem hangerLoop_invariant (g : VehicleGenerator) (p : String → Bool) (key : String)
    (v : Vehicle) (counts : String → Nat) (maxItems : Int)
    (P : List GeneratedItem → Prop) (l : List (String × Item))
    (hacc : ∀ results k item records r1 r2, (k, item) ∈ l → P results → p k = true →
      spawnRecords g item v r1 = .ok (some records, r2) → P (results ++ records))
    (results : List GeneratedItem) (r : Rng) (out : List GeneratedItem × Rng)
    (h : hangerLoop g p key v counts maxItems l results r = .ok out) (h0 : P results) :
    P out.1 := by
  induction l generalizing results r with
  | nil =>
    simp only [hangerLoop, Except.ok.injEq] at h
    rw [← h]; exact h0
  | cons kv rest ih =>
    obtain ⟨k, item⟩ := kv
    have hacc' : ∀ results k item records r1 r2, (k, item) ∈ rest → P results → p k = true →
        spawnRecords g item v r1 = .ok (some records, r2) → P (results ++ records) :=
      fun results k item records r1 r2 hm => hacc results k item records r1 r2
        (List.mem_cons_of_mem _ hm)
    rcases hangerLoop_cons_ok g p key v counts maxItems k item rest results r out h with
      ⟨r', hrest⟩ | hstop | ⟨records, r1, hpres, hspawn, hend⟩
    · exact ih hacc' _ _ hrest h0
    · rw [hstop]; exact h0
    · have hP := hacc results k item records r r1 (List.mem_cons_self _ _) h0 hpres hspawn
      rcases hend with hend | hend
      · rw [hend]; exact hP
      · exact ih hacc' _ _ hend hP

/-- Invariants of `populateHanger`, from those of its loop. -/
theorem populateHanger_invariant (g : VehicleGenerator) (p : String → Bool) (key : String)
    (v : Vehicle) (counts : String → Nat) (P : List GeneratedItem → Prop)
    (hacc : ∀ results k item records r1 r2, (k, item) ∈ g.itemDb → P results → p k = true →
      spawnRecords g item v r1 = .ok (some records, r2) → P (results ++ records))
    (r : Rng) (out : List GeneratedItem × Rng)
    (h : populateHanger g p key v counts r = .ok out) (h0 : P []) : P out.1 := by
  unfold populateHanger at h
  by_cases h1 : r.head > 2 / 10
  · rw [if_pos h1] at h
    simp only [Except.ok.injEq] at h
    rw [← h]; exact h0
  · rw [if_neg h1] at h
    exact hangerLoop_invariant g p key v counts _ P g.itemDb hacc [] _ out h h0

/-- Invariants of the loop "Populate locations", with the provenance of the
list stored at each step. -/
theorem populateLocations_invariant_calls (g : VehicleGenerator) (p : String → Bool)
    (v : Vehicle) (J : Contents → (String → Nat) → Prop)
    (hhang : ∀ c counts key r items r1, startsWith key "hang" = true → J c counts →
      populateHanger g p key v counts r = .ok (items, r1) → J (objSet c key items) counts)
    (hstor : ∀ c counts key cap r st, startsWith key "hang" = false → J c counts →
      populateStorageLocation g p key cap v counts r = .ok st →
      J (objSet c key st.results) st.itemSpawnCounts)
    (locs : List (String × LocationData)) (c : Contents) (counts : String → Nat) (r : Rng)
    (out : Contents × (String → Nat) × Rng)
    (h : populateLocations g p v locs c counts r = .ok out) (h0 : J c counts) :
    J out.1 out.2.1 := by
  induction locs generalizing c counts r with
  | nil =>
    simp only [populateLocations, Except.ok.injEq] at h
    rw [← h]
    exact h0
  | cons kl rest ih =>
    obtain ⟨k0, l0⟩ := kl
    rcases populateLocations_cons_ok g p v k0 l0 rest c counts r out h with
      ⟨hh, items, r1, hhg, hrest⟩ | ⟨hh, st, hst, hrest⟩
    · exact ih _ _ _ hrest (hhang c counts k0 r items r1 hh h0 hhg)
    · exact ih _ _ _ hrest (hstor c counts k0 _ r st hh h0 hst)

theorem objSet_mem {α : Type} (m : List (String × α)) (k : String) (v : α)
    (kv : String × α) (h : kv ∈ objSet m k v) : kv ∈ m ∨ kv.2 = v := by
  induction m with
  | nil =>
    simp only [objSet, List.mem_singleton] at h
    exact Or.inr (by rw [h])
  | cons kv0 rest ih =>
    obtain ⟨k0, v0⟩ := kv0
    by_cases hk : k0 = k
    · simp only [objSet, hk, if_true, List.mem_cons] at h
      rcases h with h | h
      · exact Or.inr (by rw [h])
      · exact Or.inl (List.mem_cons_of_mem _ h)
    · simp only [objSet, hk, if_false, List.mem_cons] at h
      rcases h with h | h
      · exact Or.inl (by rw [h]; exact List.mem_cons_self _ _)
      · rcases ih h with h | h
        · exact Or.inl (List.mem_cons_of_mem _ h)
        · exact Or.inr h

theorem rollPresence_notin (l : List (String × Item)) (p : String → Bool) (r : Rng)
    (k : String) (hk : k ∉ l.map Prod.fst) : (rollPresence l p r).1 k = p k := by
  induction l generalizing p r with
  | nil => rfl
  | cons kv rest ih =>
    obtain ⟨k0, it0⟩ := kv
    simp only [List.map_cons, List.mem_cons, not_or] at hk
    simp only [rollPresence]
    rw [ih _ _ hk.2]
    simp [hk.1]

/-- The presence flag of a catalog item is the outcome of its own draw: the
draw of its rank in the catalog, compared with its `comBase`. -/
theorem rollPresence_get (l : List (String × Item)) (hnd : (l.map Prod.fst).Nodup)
    (p : String → Bool) (r : Rng) (i : Nat) (k : String) (item : Item)
    (hget : l[i]? = some (k, item)) :
    (rollPresence l p r).1 k = decide (r i < item.comBase) := by
  induction l generalizing p r i with
  | nil => simp at hget
  | cons kv rest ih =>
    obtain ⟨k0, it0⟩ := kv
    simp only [List.map_cons, List.nodup_cons] at hnd
    simp only [rollPresence]
    cases i with
    | zero =>
      simp only [List.getElem?_cons_zero, Option.some.injEq, Prod.mk.injEq] at hget
      obtain ⟨hk, hit⟩ := hget
      subst hk
      subst hit
      rw [rollPresence_notin rest _ _ k0 hnd.1]
      simp [Rng.head]
    | succ i =>
      have hget' : rest[i]? = some (k, item) := by simpa using hget
      rw [ih hnd.2 _ _ i hget']
      simp [Rng.tail]

/-- C19. For every generation (catalog keys distinct): the presence flag of
a catalog item is false exactly when its once-per-generation draw `u` satisfies
`u ≥ comBase`; every record of every location of the generated vehicle was
pushed for a catalog item whose presence flag is true, so an item whose flag
is false contributes no record (no record carries its name, when no other
catalog entry has that name); and on draws in `[0,1)` an item with
`comBase ≤ 0` has a false flag, so it never appears. -/
theorem absent_item_contributes_no_record (g : VehicleGenerator) (r : Rng) (st : GenState)
    (hrun : generateSingleVehicleRun g r = .ok (some st))
    (hnd : (g.itemDb.map Prod.fst).Nodup) :
    (∀ i k item, g.itemDb[i]? = some (k, item) →
      (st.itemPresence k = false ↔ r i ≥ item.comBase)) ∧
    (∀ kv ∈ st.generated.contents, ∀ rec ∈ kv.2,
      ∃ k item variant state ageDays, (k, item) ∈ g.itemDb ∧ st.itemPresence k = true ∧
        variant ∈ item.variants ∧ rec = makeRecord item variant state ageDays) ∧
    (∀ k item, (k, item) ∈ g.itemDb → st.itemPresence k = false →
      (∀ kv ∈ g.itemDb, kv.1 ≠ k → kv.2.name ≠ item.name) →
      recordCount item.name st.generated.contents = 0) ∧
    (r.Valid → ∀ k item, (k, item) ∈ g.itemDb → item.comBase ≤ 0 →
      st.itemPresence k = false) := by
  obtain ⟨scene, r2, vehicle, r3, state, r4, color, trim, transmission, r5, contents,
    counts, r6, -, -, -, -, hpop, hst'⟩ := generateSingleVehicleRun_some g r st hrun
  subst hst'
  simp only
  have hflag : ∀ i k item, g.itemDb[i]? = some (k, item) →
      (rollPresence g.itemDb (fun _ => false) r).1 k = decide (r i < item.comBase) :=
    fun i k item hget => rollPresence_get g.itemDb hnd _ r i k item hget
  have hprov : ∀ kv ∈ contents, ∀ rec ∈ kv.2,
      ∃ k item variant state ageDays, (k, item) ∈ g.itemDb ∧
        (rollPresence g.itemDb (fun _ => false) r).1 k = true ∧
        variant ∈ item.variants ∧ rec = makeRecord item variant state ageDays := by
    have hstep : ∀ (results : List GeneratedItem) (k : String) (item : Item)
        (records : List GeneratedItem) (r1 r2 : Rng), (k, item) ∈ g.itemDb →
        (∀ rec ∈ results, ∃ k item variant state ageDays, (k, item) ∈ g.itemDb ∧
          (rollPresence g.itemDb (fun _ => false) r).1 k = true ∧
          variant ∈ item.variants ∧ rec = makeRecord item variant state ageDays) →
        (rollPresence g.itemDb (fun _ => false) r).1 k = true →
        spawnRecords g item vehicle r1 = .ok (some records, r2) →
        ∀ rec ∈ results ++ records, ∃ k item variant state ageDays, (k, item) ∈ g.itemDb ∧
          (rollPresence g.itemDb (fun _ => false) r).1 k = true ∧
          variant ∈ item.variants ∧ rec = makeRecord item variant state ageDays := by
      intro results k item records r1 r2 hmem hres hpres hspawn rec hrec
      rcases List.mem_append.mp hrec with hrec | hrec
      · exact hres rec hrec
      · obtain ⟨variant, state, ageDays, count, hvar, hrecs, -⟩ :=
          spawnRecords_some g item vehicle r1 r2 records hspawn
        rw [hrecs] at hrec
        exact ⟨k, item, variant, state, ageDays, hmem, hpres, hvar,
          List.eq_of_mem_replicate hrec⟩
    apply populateLocations_invariant_calls g _ vehicle
      (fun c _ => ∀ kv ∈ c, ∀ rec ∈ kv.2,
        ∃ k item variant state ageDays, (k, item) ∈ g.itemDb ∧
          (rollPresence g.itemDb (fun _ => false) r).1 k = true ∧
          variant ∈ item.variants ∧ rec = makeRecord item variant state ageDays)
      _ _ _ _ _ _ _ hpop
    · intro kv hkv rec hrec
      have hall : ∀ kv ∈ initContents vehicle, kv.2 = [] := by
        unfold initContents
        simp only
        apply foldl_objSet_nil_values
        apply foldl_objSet_nil_values
        simp
      rw [hall kv hkv] at hrec
      simp at hrec
    · intro c cnt key r0 items r1 _ hJ hhang kv hkv rec hrec
      rcases objSet_mem c key items kv hkv with hkv | hkv
      · exact hJ kv hkv rec hrec
      · rw [hkv] at hrec
        exact populateHanger_invariant g _ key vehicle cnt
          (fun results => ∀ rec ∈ results, ∃ k item variant state ageDays,
            (k, item) ∈ g.itemDb ∧ (rollPresence g.itemDb (fun _ => false) r).1 k = true ∧
            variant ∈ item.variants ∧ rec = makeRecord item variant state ageDays)
          hstep r0 (items, r1) hhang (by simp) rec hrec
    · intro c cnt key cap r0 sst _ hJ hsst kv hkv rec hrec
      rcases objSet_mem c key sst.results kv hkv with hkv | hkv
      · exact hJ kv hkv rec hrec
      · rw [hkv] at hrec
        exact populateStorageLocation_invariant g _ key cap vehicle cnt r0
          (fun s => ∀ rec ∈ s.results, ∃ k item variant state ageDays,
            (k, item) ∈ g.itemDb ∧ (rollPresence g.itemDb (fun _ => false) r).1 k = true ∧
            variant ∈ item.variants ∧ rec = makeRecord item variant state ageDays)
          (fun s _ hs => hs)
          (fun s k item records r1 r2 _ hmem hs _ hpres _ hspawn =>
            hstep s.results k item records r1 r2 hmem hs hpres hspawn)
          sst hsst (by simp) rec hrec
  refine ⟨?_, hprov, ?_, ?_⟩
  · intro i k item hget
    rw [hflag i k item hget]
    simp
  · intro k item hmem hfalse hname
    unfold recordCount
    apply List.sum_eq_zero
    intro x hx
    obtain ⟨kv, hkv, rfl⟩ := List.mem_map.mp hx
    unfold countId
    rw [List.countP_eq_zero]
    intro rec hrec
    obtain ⟨k', item', variant, state, ageDays, hmem', hpres', -, hmk⟩ := hprov kv hkv rec hrec
    simp only [decide_eq_true_eq]
    intro hid
    by_cases hk : k' = k
    · subst hk
      rw [hfalse] at hpres'
      cases hpres'
    · have := hname (k', item') hmem' hk
      apply this
      rw [← hid, hmk]
      rfl
  · intro hr k item hmem hle
    obtain ⟨i, hget⟩ := List.mem_iff_getElem?.mp hmem
    rw [hflag i k item hget]
    simp only [decide_eq_false_iff_not, not_lt]
    exact le_trans hle (hr i).1

/-- The run of `exGenNever` on the all-zero stream of draws. -/
theorem exGenNever_generates :
    generateSingleVehicle exGenNever (Rng.ofList []) = .ok (some exGeneratedNever) := by
  decide!

/-- Witness of C19: the bottle of `exGenNever`, of `comBase = 0`, is absent
from the generated vehicle. -/
theorem absent_item_contributes_no_record_witness :
    ∃ st, generateSingleVehicleRun exGenNever (Rng.ofList []) = .ok (some st) ∧
      st.generated = exGeneratedNever ∧ st.itemPresence "bottle" = false ∧
      recordCount exBottleNever.name st.generated.contents = 0 := by
  obtain ⟨st, hst, hgen⟩ := generateSingleVehicle_some exGenNever (Rng.ofList [])
    exGeneratedNever exGenNever_generates
  have := absent_item_contributes_no_record exGenNever (Rng.ofList []) st hst (by decide)
  have hfalse : st.itemPresence "bottle" = false :=
    this.2.2.2 Rng.ofList_nil_valid "bottle" exBottleNever (by decide) (by decide)
  exact ⟨st, hst, hgen, hfalse,
    this.2.2.1 "bottle" exBottleNever (by decide) hfalse (by decide)⟩

/-! ## Describing a group -/

theorem endsWith_char_iff (name : String) (c : Char) :
    endsWith name (String.mk [c]) = true ↔ ∃ stem, name.data = stem ++ [c] := by
  unfold endsWith
  rw [List.isSuffixOf_iff_suffix]
  constructor
  · rintro ⟨stem, h⟩
    exact ⟨stem, h.symm⟩
  · rintro ⟨stem, h⟩
    exact ⟨stem, h.symm⟩

/-- The naive pluralization: a trailing `y` becomes `ies`, a trailing `s`
gets `es`, any other name gets an `s`; a count of 1 leaves the name alone. -/
theorem pluralize_cases (name : String) (count : Nat) :
    (count = 1 → pluralize name count = name) ∧
    (count ≠ 1 → ∀ stem, name.data = stem ++ ['y'] →
      pluralize name count = String.mk (stem ++ ['i', 'e', 's'])) ∧
    (count ≠ 1 → ∀ stem, name.data = stem ++ ['s'] →
      pluralize name count = String.mk (stem ++ ['s', 'e', 's'])) ∧
    (count ≠ 1 → (∀ stem, name.data ≠ stem ++ ['y']) → (∀ stem, name.data ≠ stem ++ ['s']) →
      pluralize name count = String.mk (name.data ++ ['s'])) := by
  have hy : endsWith name "y" = true ↔ ∃ stem, name.data = stem ++ ['y'] :=
    endsWith_char_iff name 'y'
  have hs : endsWith name "s" = true ↔ ∃ stem, name.data = stem ++ ['s'] :=
    endsWith_char_iff name 's'
  refine ⟨?_, ?_, ?_, ?_⟩
  · intro h1
    simp [pluralize, h1]
  · intro h1 stem hstem
    have : endsWith name "y" = true := hy.mpr ⟨stem, hstem⟩
    simp only [pluralize, h1, if_false, this, if_true, hstem, List.dropLast_concat]
    rfl
  · intro h1 stem hstem
    have hny : ¬ (endsWith name "y" = true) := by
      rw [hy]
      rintro ⟨stem', h'⟩
      rw [hstem] at h'
      have := List.append_inj' h' rfl
      simp at this
    have : endsWith name "s" = true := hs.mpr ⟨stem, hstem⟩
    simp only [pluralize, h1, if_false, hny, this, if_true]
    apply String.ext
    simp [hstem]
  · intro h1 hny hns
    have h2 : ¬ (endsWith name "y" = true) := by
      rw [hy]; rintro ⟨stem, h⟩; exact hny stem h
    have h3 : ¬ (endsWith name "s" = true) := by
      rw [hs]; rintro ⟨stem, h⟩; exact hns stem h
    simp only [pluralize, h1, if_false, h2, h3]
    apply String.ext
    simp

/-- C17. `describeGroup` follows the case table of the specification, a mode
being a non-empty string: a group of count 1 renders as
`<article> <state> <name>`; for a count of 2 or more, a non-bundle group
renders as `<count> <state> <pluralized-name>`, a bundle in `pair` or `set`
mode as `a <mode> of <state> <pluralized-name>`, a bundle in any other mode
like a plain plural when the count is 2 and as
`<article> <mode> of <state> <pluralized-name> (<count> in total)` when it is
more, and a bundle without mode like a plain plural; the pluralization is that
of `pluralize_cases`. Three non-bundle `bottle` items in state `rusted` give
`3 rusted bottles`; a pair-mode bundle of 2 `sock` items in state `moldy`
gives `a pair of moldy socks`. -/
theorem describeGroup_case_table (group : ItemGroup) :
    (group.count = 1 →
      describeGroup group
        = getIndefiniteArticle (some (group.state ++ " " ++ group.displayName)) ++ " " ++
          group.state ++ " " ++ group.displayName) ∧
    (2 ≤ group.count → group.isBundle = false →
      describeGroup group
        = toString group.count ++ " " ++ group.state ++ " " ++
          pluralize group.displayName group.count) ∧
    (∀ mode, 2 ≤ group.count → group.isBundle = true → group.bundleMode = some mode →
      mode = "pair" ∨ mode = "set" →
      describeGroup group
        = "a" ++ " " ++ mode ++ " of " ++ group.state ++ " " ++
          pluralize group.displayName group.count) ∧
    (∀ mode, group.isBundle = true → group.bundleMode = some mode → mode ≠ "" →
      mode ≠ "pair" → mode ≠ "set" →
      (group.count = 2 →
        describeGroup group
          = toString group.count ++ " " ++ group.state ++ " " ++
            pluralize group.displayName group.count) ∧
      (2 < group.count →
        describeGroup group
          = getIndefiniteArticle (some mode) ++ " " ++ mode ++ " of " ++ group.state ++ " " ++
            pluralize group.displayName group.count ++
            " (" ++ toString group.count ++ " in total)")) ∧
    (2 ≤ group.count → group.isBundle = true →
      group.bundleMode = none ∨ group.bundleMode = some "" →
      describeGroup group
        = toString group.count ++ " " ++ group.state ++ " " ++
          pluralize group.displayName group.count) ∧
    (∀ name count, count ≠ 1 →
      (∀ stem, name.data = stem ++ ['y'] →
        pluralize name count = String.mk (stem ++ ['i', 'e', 's'])) ∧
      (∀ stem, name.data = stem ++ ['s'] →
        pluralize name count = String.mk (stem ++ ['s', 'e', 's'])) ∧
      ((∀ stem, name.data ≠ stem ++ ['y']) → (∀ stem, name.data ≠ stem ++ ['s']) →
        pluralize name count = String.mk (name.data ++ ['s']))) ∧
    describeGroup { displayName := "bottle", state := "rusted", count := 3,
                    isBundle := false, bundleMode := none } = "3 rusted bottles" ∧
    describeGroup { displayName := "sock", state := "moldy", count := 2,
                    isBundle := true, bundleMode := some "pair" } = "a pair of moldy socks" := by
  refine ⟨?_, ?_, ?_, ?_, ?_, ?_, by decide!, by decide!⟩
  · intro h1
    simp [describeGroup, h1]
  · intro h2 hb
    have h1 : ¬ (group.count = 1) := by omega
    simp [describeGroup, h1, hb]
  · intro mode h2 hb hm hpair
    have h1 : ¬ (group.count = 1) := by omega
    have hne : mode ≠ "" := by
      rcases hpair with h | h <;> subst h <;> decide
    have hart : getIndefiniteArticle (some mode) = "a" := by
      rcases hpair with h | h <;> subst h <;> decide!
    simp only [describeGroup, h1, if_false, hb, hm, Option.some.injEq, hne, or_self,
      Option.getD_some, hart]
    simp [hpair]
  · intro mode hb hm hne hnp hns
    constructor
    · intro h2
      have h1 : ¬ (group.count = 1) := by omega
      simp [describeGroup, h1, hb, hm, hne, hnp, hns, h2]
    · intro h2
      have h1 : ¬ (group.count = 1) := by omega
      have h3 : ¬ (group.count ≤ 2) := by omega
      simp [describeGroup, h1, hb, hm, hne, hnp, hns, h3]
  · intro h2 hb hm
    have h1 : ¬ (group.count = 1) := by omega
    rcases hm with hm | hm <;> simp [describeGroup, h1, hb, hm]
  · intro name count h1
    exact ⟨(pluralize_cases name count).2.1 h1, (pluralize_cases name count).2.2.1 h1,
      (pluralize_cases name count).2.2.2 h1⟩

/-! ## Grouping the items of a location -/

/-- Two texts without separator that are followed by a separator and agree
as a whole agree part by part. -/
theorem split_at_separator (a c b d : List Char) (ha : '|' ∉ a) (hc : '|' ∉ c)
    (h : a ++ '|' :: b = c ++ '|' :: d) : a = c ∧ b = d := by
  induction a generalizing c with
  | nil =>
    cases c with
    | nil => simpa using h
    | cons y c =>
      simp only [List.nil_append, List.cons_append, List.cons.injEq] at h
      exact absurd (h.1 ▸ List.mem_cons_self _ _) hc
  | cons x a ih =>
    cases c with
    | nil =>
      simp only [List.nil_append, List.cons_append, List.cons.injEq] at h
      exact absurd (h.1 ▸ List.mem_cons_self _ _) ha
    | cons y c =>
      simp only [List.cons_append, List.cons.injEq] at h
      have := ih c (fun hm => ha (List.mem_cons_of_mem _ hm))
        (fun hm => hc (List.mem_cons_of_mem _ hm)) h.2
      exact ⟨by rw [h.1, this.1], this.2⟩

theorem groupKey_data_loose (item : GeneratedItem) (hb : item.isBundle = false) :
    (groupKey item).data = item.displayName.data ++ '|' :: item.state.data := by
  simp [groupKey, hb]

theorem groupKey_data_bundle (item : GeneratedItem) (hb : item.isBundle = true) :
    (groupKey item).data = "BUNDLE".data ++ '|' :: (item.displayName.data ++ '|' ::
      (item.state.data ++ '|' :: (item.bundleMode.getD "null").data)) := by
  simp [groupKey, hb]

/-- On items without separator, the key of `groupItems` tells apart exactly
what the key of the specification tells apart. -/
theorem groupKey_eq_iff (a b : GeneratedItem) (ha : SeparatorFree a) (hb : SeparatorFree b) :
    groupKey a = groupKey b ↔ specKey a = specKey b := by
  obtain ⟨han, has, ham⟩ := ha
  obtain ⟨hbn, hbs, hbm⟩ := hb
  have hB : '|' ∉ "BUNDLE".data := by decide
  constructor
  · intro h
    have hd : (groupKey a).data = (groupKey b).data := by rw [h]
    cases hab : a.isBundle <;> cases hbb : b.isBundle
    · rw [groupKey_data_loose a hab, groupKey_data_loose b hbb] at hd
      obtain ⟨h1, h2⟩ := split_at_separator _ _ _ _ han hbn hd
      simp only [specKey, hab, hbb, Prod.mk.injEq, true_and]
      exact ⟨String.ext h1, String.ext h2, by simp⟩
    · rw [groupKey_data_loose a hab, groupKey_data_bundle b hbb] at hd
      obtain ⟨-, h2⟩ := split_at_separator _ _ _ _ han hB hd
      exact absurd (h2 ▸ (List.mem_append_right _ (List.mem_cons_self _ _))) has
    · rw [groupKey_data_bundle a hab, groupKey_data_loose b hbb] at hd
      obtain ⟨-, h2⟩ := split_at_separator _ _ _ _ hB hbn hd
      exact absurd (h2 ▸ (List.mem_append_right _ (List.mem_cons_self _ _))) hbs
    · rw [groupKey_data_bundle a hab, groupKey_data_bundle b hbb] at hd
      obtain ⟨-, h2⟩ := split_at_separator _ _ _ _ hB hB hd
      obtain ⟨h3, h4⟩ := split_at_separator _ _ _ _ han hbn h2
      obtain ⟨h5, h6⟩ := split_at_separator _ _ _ _ has hbs h4
      have h7 : a.bundleMode.getD "null" = b.bundleMode.getD "null" := String.ext h6
      have hmode : a.bundleMode = b.bundleMode := by
        cases hma : a.bundleMode with
        | none =>
          cases hmb : b.bundleMode with
          | none => rfl
          | some mb =>
            rw [hma, hmb] at h7
            exact absurd h7.symm (hbm mb hmb).2
        | some ma =>
          cases hmb : b.bundleMode with
          | none =>
            rw [hma, hmb] at h7
            exact absurd h7 (ham ma hma).2
          | some mb =>
            rw [hma, hmb] at h7
            simp only [Option.getD_some] at h7
            rw [h7]
      simp only [specKey, hab, hbb, Prod.mk.injEq, true_and, if_true]
      exact ⟨String.ext h3, String.ext h5, hmode⟩
  · intro h
    simp only [specKey, Prod.mk.injEq] at h
    obtain ⟨h1, h2, h3, h4⟩ := h
    cases hab : a.isBundle
    · have hbb : b.isBundle = false := by rw [← h1, hab]
      simp [groupKey, hab, hbb, h2, h3]
    · have hbb : b.isBundle = true := by rw [← h1, hab]
      rw [hab, hbb] at h4
      simp only [if_true] at h4
      simp [groupKey, hab, hbb, h2, h3, h4]

theorem objGet_isSome_iff {α : Type} (m : List (String × α)) (k : String) :
    (objGet m k).isSome ↔ k ∈ m.map Prod.fst := by
  induction m with
  | nil => simp [objGet]
  | cons kv rest ih =>
    obtain ⟨k0, v0⟩ := kv
    by_cases hk : k0 = k
    · simp [objGet, hk]
    · have hk' : ¬ (k = k0) := fun h => hk h.symm
      simp [objGet, hk, hk', ih]

theorem firstOccurrences_mem {κ : Type} [DecidableEq κ] (key : GeneratedItem → κ)
    (seen : List κ) (xs : List GeneratedItem) (x : GeneratedItem)
    (h : x ∈ firstOccurrences key seen xs) : x ∈ xs ∧ key x ∉ seen := by
  induction xs generalizing seen with
  | nil => simp [firstOccurrences] at h
  | cons y ys ih =>
    simp only [firstOccurrences] at h
    by_cases hy : key y ∈ seen
    · rw [if_pos hy] at h
      have := ih seen h
      exact ⟨List.mem_cons_of_mem _ this.1, this.2⟩
    · rw [if_neg hy] at h
      rcases List.mem_cons.mp h with h | h
      · subst h
        exact ⟨List.mem_cons_self _ _, hy⟩
      · have := ih _ h
        exact ⟨List.mem_cons_of_mem _ this.1, fun hm => this.2 (List.mem_cons_of_mem _ hm)⟩

theorem firstOccurrences_keys {κ : Type} [DecidableEq κ] (key : GeneratedItem → κ)
    (seen : List κ) (xs : List GeneratedItem) (k : κ) :
    k ∈ (firstOccurrences key seen xs).map key ↔ k ∈ xs.map key ∧ k ∉ seen := by
  induction xs generalizing seen with
  | nil => simp [firstOccurrences]
  | cons y ys ih =>
    simp only [firstOccurrences]
    by_cases hy : key y ∈ seen
    · rw [if_pos hy, ih]
      simp only [List.map_cons, List.mem_cons]
      constructor
      · rintro ⟨h1, h2⟩; exact ⟨Or.inr h1, h2⟩
      · rintro ⟨h1 | h1, h2⟩
        · exact absurd (h1 ▸ hy) h2
        · exact ⟨h1, h2⟩
    · rw [if_neg hy]
      simp only [List.map_cons, List.mem_cons, ih, not_or]
      constructor
      · rintro (h | ⟨h1, h2, h3⟩)
        · exact ⟨Or.inl h, h ▸ hy⟩
        · exact ⟨Or.inr h1, h3⟩
      · rintro ⟨h1 | h1, h2⟩
        · exact Or.inl h1
        · by_cases hk : k = key y
          · exact Or.inl hk
          · exact Or.inr ⟨h1, hk, h2⟩

theorem firstOccurrences_append_singleton {κ : Type} [DecidableEq κ]
    (key : GeneratedItem → κ) (seen : List κ) (xs : List GeneratedItem) (a : GeneratedItem) :
    firstOccurrences key seen (xs ++ [a])
      = firstOccurrences key seen xs ++
          (if key a ∈ seen ∨ key a ∈ xs.map key then [] else [a]) := by
  induction xs generalizing seen with
  | nil =>
    by_cases h : key a ∈ seen <;> simp [firstOccurrences, h]
  | cons y ys ih =>
    have hcond : ∀ s : List κ, key y ∈ s →
        ((key a ∈ s ∨ key a ∈ (y :: ys).map key) ↔ (key a ∈ s ∨ key a ∈ ys.map key)) := by
      intro s hs
      simp only [List.map_cons, List.mem_cons]
      constructor
      · rintro (h | h | h)
        · exact Or.inl h
        · exact Or.inl (h ▸ hs)
        · exact Or.inr h
      · rintro (h | h)
        · exact Or.inl h
        · exact Or.inr (Or.inr h)
    show firstOccurrences key seen (y :: (ys ++ [a])) = _
    rw [firstOccurrences, firstOccurrences]
    by_cases hy : key y ∈ seen
    · rw [if_pos hy, if_pos hy, ih]
      congr 1
      exact if_congr (hcond seen hy).symm rfl rfl
    · rw [if_neg hy, if_neg hy, ih, List.cons_append]
      congr 2
      apply if_congr _ rfl rfl
      rw [← hcond (key y :: seen) (List.mem_cons_self _ _)]
      simp only [List.mem_cons, List.map_cons]
      constructor
      · rintro ((h | h) | h | h)
        · exact Or.inr (Or.inl h)
        · exact Or.inl h
        · exact Or.inr (Or.inl h)
        · exact Or.inr (Or.inr h)
      · rintro (h | h | h)
        · exact Or.inl (Or.inr h)
        · exact Or.inl (Or.inl h)
        · exact Or.inr (Or.inr h)

theorem groupStep_present (m : List (String × ItemGroup)) (a : GeneratedItem)
    (h : (objGet m (groupKey a)).isSome = true) :
    groupStep m a = m.map (fun kv =>
      if kv.1 = groupKey a then (kv.1, { kv.2 with count := kv.2.count + 1 }) else kv) := by
  unfold groupStep
  simp only [h, if_true]

theorem groupStep_absent (m : List (String × ItemGroup)) (a : GeneratedItem)
    (h : ¬ ((objGet m (groupKey a)).isSome = true)) :
    groupStep m a = (m ++ [(groupKey a, groupEntry groupKey [] a)]).map (fun kv =>
      if kv.1 = groupKey a then (kv.1, { kv.2 with count := kv.2.count + 1 }) else kv) := by
  unfold groupStep
  simp only [h, Bool.false_eq_true, if_false, groupEntry, List.countP_nil]

/-- Counting one more item `a` updates the entry of an item `x`. -/
theorem groupEntry_step (xs : List GeneratedItem) (a x : GeneratedItem) :
    (if groupKey x = groupKey a then
        (groupKey x, { groupEntry groupKey xs x with
          count := (groupEntry groupKey xs x).count + 1 })
      else (groupKey x, groupEntry groupKey xs x))
      = (groupKey x, groupEntry groupKey (xs ++ [a]) x) := by
  by_cases hx : groupKey x = groupKey a
  · have hd : decide (groupKey a = groupKey x) = true := by simp [hx]
    rw [if_pos hx]
    simp only [groupEntry, List.countP_append, List.countP_cons, List.countP_nil, hd,
      if_true]
  · have hd : decide (groupKey a = groupKey x) = false := by
      simp only [decide_eq_false_iff_not]
      exact fun h => hx h.symm
    rw [if_neg hx]
    simp only [groupEntry, List.countP_append, List.countP_cons, List.countP_nil, hd]
    simp

/-- The map of `groupItems` after a list of items: one entry for each key,
in order of first occurrence, that counts the items of that key. -/
theorem foldl_groupStep_eq (items : List GeneratedItem) :
    items.foldl groupStep []
      = (firstOccurrences groupKey [] items).map
          (fun item => (groupKey item, groupEntry groupKey items item)) := by
  induction items using List.reverseRecOn with
  | nil => simp [firstOccurrences]
  | append_singleton xs a ih =>
    rw [List.foldl_append, List.foldl_cons, List.foldl_nil, ih,
      firstOccurrences_append_singleton]
    have hkeys : ((firstOccurrences groupKey [] xs).map
        (fun item => (groupKey item, groupEntry groupKey xs item))).map Prod.fst
        = (firstOccurrences groupKey [] xs).map groupKey := by
      rw [List.map_map]
      rfl
    have hsome : (objGet ((firstOccurrences groupKey [] xs).map
        (fun item => (groupKey item, groupEntry groupKey xs item))) (groupKey a)).isSome = true
        ↔ groupKey a ∈ xs.map groupKey := by
      rw [objGet_isSome_iff, hkeys, firstOccurrences_keys]
      simp
    have hold : (firstOccurrences groupKey [] xs).map
        ((fun kv : String × ItemGroup =>
          if kv.1 = groupKey a then (kv.1, { kv.2 with count := kv.2.count + 1 }) else kv) ∘
          (fun item => (groupKey item, groupEntry groupKey xs item)))
        = (firstOccurrences groupKey [] xs).map
          (fun item => (groupKey item, groupEntry groupKey (xs ++ [a]) item)) := by
      apply List.map_congr_left
      intro x _
      exact groupEntry_step xs a x
    by_cases hin : groupKey a ∈ xs.map groupKey
    · rw [if_pos (Or.inr hin), List.append_nil, groupStep_present _ a (hsome.mpr hin),
        List.map_map, hold]
    · rw [if_neg (by simpa using hin), groupStep_absent _ a (fun h => hin (hsome.mp h)),
        List.map_append, List.map_map, hold]
      have hzero : xs.countP (fun other => decide (groupKey other = groupKey a)) = 0 := by
        rw [List.countP_eq_zero]
        intro x hx
        simp only [decide_eq_true_eq]
        exact fun h => hin (List.mem_map.mpr ⟨x, hx, h⟩)
      simp [groupEntry, hzero]

theorem firstOccurrences_congr {κ₁ κ₂ : Type} [DecidableEq κ₁] [DecidableEq κ₂]
    (k₁ : GeneratedItem → κ₁) (k₂ : GeneratedItem → κ₂) (U : List GeneratedItem)
    (hU : ∀ a ∈ U, ∀ b ∈ U, k₁ a = k₁ b ↔ k₂ a = k₂ b)
    (seen l : List GeneratedItem) (hseen : ∀ s ∈ seen, s ∈ U) (hl : ∀ x ∈ l, x ∈ U) :
    firstOccurrences k₁ (seen.map k₁) l = firstOccurrences k₂ (seen.map k₂) l := by
  induction l generalizing seen with
  | nil => rfl
  | cons y ys ih =>
    have hy : y ∈ U := hl y (List.mem_cons_self _ _)
    have hiff : k₁ y ∈ seen.map k₁ ↔ k₂ y ∈ seen.map k₂ := by
      simp only [List.mem_map]
      constructor
      · rintro ⟨s, hs, h⟩
        exact ⟨s, hs, (hU s (hseen s hs) y hy).mp h⟩
      · rintro ⟨s, hs, h⟩
        exact ⟨s, hs, (hU s (hseen s hs) y hy).mpr h⟩
    simp only [firstOccurrences]
    by_cases h1 : k₁ y ∈ seen.map k₁
    · rw [if_pos h1, if_pos (hiff.mp h1)]
      exact ih seen hseen (fun x hx => hl x (List.mem_cons_of_mem _ hx))
    · rw [if_neg h1, if_neg (fun h => h1 (hiff.mpr h))]
      congr 1
      have := ih (y :: seen)
        (fun s hs => by
          rcases List.mem_cons.mp hs with h | h
          · rw [h]; exact hy
          · exact hseen s h)
        (fun x hx => hl x (List.mem_cons_of_mem _ hx))
      simpa using this

/-- C20 (amended). For items whose display name, state and mode do not contain
the separator `|`, and whose mode is not the text `null`, `groupItems`
partitions the items of a location exactly by the grouping key of the
specification: two items have the same key in `groupItems` if and only if they
agree on the bundle flag, the display name and the state, and for bundles also
on the bundle mode; and the groups returned are those of the specification,
in order of first occurrence, each described by its first item and with the
number of its items as count. -/
theorem groupItems_partitions_by_spec_key (items : List GeneratedItem)
    (hsep : ∀ item ∈ items, SeparatorFree item) :
    (∀ a ∈ items, ∀ b ∈ items, groupKey a = groupKey b ↔ specKey a = specKey b) ∧
    groupItems items = groupItemsSpec items := by
  have hinj : ∀ a ∈ items, ∀ b ∈ items, groupKey a = groupKey b ↔ specKey a = specKey b :=
    fun a ha b hb => groupKey_eq_iff a b (hsep a ha) (hsep b hb)
  refine ⟨hinj, ?_⟩
  unfold groupItems groupItemsSpec
  rw [foldl_groupStep_eq, List.map_map]
  have hfirst : firstOccurrences groupKey [] items = firstOccurrences specKey [] items := by
    have := firstOccurrences_congr groupKey specKey items hinj [] items (by simp)
      (fun x hx => hx)
    simpa using this
  rw [hfirst]
  apply List.map_congr_left
  intro x hx
  have hxin : x ∈ items := (firstOccurrences_mem specKey [] items x hx).1
  simp only [Function.comp, groupEntry]
  congr 1
  apply List.countP_congr
  intro y hy
  simp only [decide_eq_true_eq]
  exact hinj y hy x hxin

/-- Witness of C20: two bottles around a pair of socks make two groups. -/
theorem groupItems_partitions_by_spec_key_witness :
    (∀ item ∈ [exBottleRecord, exSockRecord, exBottleRecord], SeparatorFree item) ∧
    groupItems [exBottleRecord, exSockRecord, exBottleRecord]
      = groupItemsSpec [exBottleRecord, exSockRecord, exBottleRecord] ∧
    groupItems [exBottleRecord, exSockRecord, exBottleRecord]
      = [{ displayName := "glass bottle", state := "rusted", count := 2, isBundle := false,
           bundleMode := none },
         { displayName := "wool socks", state := "clean", count := 1, isBundle := true,
           bundleMode := some "pair" }] := by
  have hsep : ∀ item ∈ [exBottleRecord, exSockRecord, exBottleRecord], SeparatorFree item := by
    intro item hitem
    simp only [List.mem_cons, List.mem_singleton, List.not_mem_nil, or_false] at hitem
    rcases hitem with h | h | h <;> subst h <;>
      refine ⟨by decide, by decide, ?_⟩ <;> intro mode hm <;>
      simp only [exBottleRecord, exSockRecord, Option.some.injEq] at hm
    · cases hm
    · subst hm; exact ⟨by decide, by decide⟩
    · cases hm
  exact ⟨hsep, (groupItems_partitions_by_spec_key _ hsep).2, by decide!⟩

/-- C20 fails as stated on names that contain the separator: the loose items
`a|b` in state `c` and `a` in state `b|c` differ in display name and state,
yet both get the key `a|b|c` and `groupItems` returns one group of count 2,
where the grouping of the specification has two. -/
theorem groupItems_merges_on_separator :
    exPipeName.isBundle = exPipeState.isBundle ∧
    exPipeName.displayName ≠ exPipeState.displayName ∧
    groupKey exPipeName = groupKey exPipeState ∧
    specKey exPipeName ≠ specKey exPipeState ∧
    groupItems [exPipeName, exPipeState]
      = [{ displayName := "a|b", state := "c", count := 2, isBundle := false,
           bundleMode := none }] ∧
    (groupItemsSpec [exPipeName, exPipeState]).length = 2 := by
  decide!

/-! ## Undeclared capacity -/

/-- When no item of the list fits the remaining capacity, the storage loop
examines every item and returns the state it started from. -/
theorem storageLoop_nothing_fits (g : VehicleGenerator) (p : String → Bool) (key : String)
    (v : Vehicle) (f : ℚ) (l : List (String × Item)) (st : StorageState)
    (h : ∀ kv ∈ l, capacityPointsFromSize kv.2.size > st.remainingCapacity) :
    storageLoop g p key v f l st = .ok st := by
  induction l with
  | nil => rfl
  | cons kv rest ih =>
    obtain ⟨k, item⟩ := kv
    have hrest := ih (fun kv hkv => h kv (List.mem_cons_of_mem _ hkv))
    have hfit : capacityPointsFromSize item.size > st.remainingCapacity :=
      h (k, item) (List.mem_cons_self _ _)
    rw [storageLoop]
    simp only
    by_cases h1 : st.itemSpawnCounts k > 0 ∧ item.comRepeat = 0
    · rw [if_pos h1]; exact hrest
    rw [if_neg h1]
    by_cases h2 : (!p k) = true
    · rw [if_pos h2]; exact hrest
    rw [if_neg h2, if_pos hfit]
    exact hrest

/-- C22. For a location that is not a hanging point and whose capacity is
undeclared, and therefore passed as 0, `populateStorageLocation` returns, for
every catalog with item sizes in 1..31 and every sequence of random draws, an
empty list (with the counters untouched): the budget
`capacityPointsFromSize(0)`, the 32-bit shift `1 << (0 - 1)`, is -2147483648,
below the points of every item. So the generated vehicle lists nothing under
such a location. -/
theorem undeclared_capacity_holds_nothing (g : VehicleGenerator) (p : String → Bool)
    (key : String) (v : Vehicle) (counts : String → Nat) (r : Rng)
    (hsize : ∀ kv ∈ g.itemDb, 1 ≤ kv.2.size ∧ kv.2.size ≤ 31) :
    capacityPointsFromSize 0 = -2147483648 ∧
    (∀ kv ∈ g.itemDb, capacityPointsFromSize 0 < capacityPointsFromSize kv.2.size) ∧
    (∃ r', populateStorageLocation g p key 0 v counts r = .ok (skippedState 0 counts r')) ∧
    (∀ gv loc, generateSingleVehicle g r = .ok (some gv) →
      (gv.vehicleData.entries.map Prod.fst).Nodup →
      (key, loc) ∈ getAllLocations gv.vehicleData → startsWith key "hang" = false →
      loc.capacity = none → objGet gv.contents key = some []) := by
  have hzero : capacityPointsFromSize 0 = -2147483648 := by decide
  have hbelow : ∀ kv ∈ g.itemDb, capacityPointsFromSize 0 < capacityPointsFromSize kv.2.size := by
    intro kv hkv
    have := capacityPointsFromSize_pos kv.2.size (hsize kv hkv)
    rw [hzero]
    omega
  have hpop : ∀ (q : String → Bool) (k : String) (w : Vehicle) (cnt : String → Nat) (r0 : Rng),
      ∃ r', populateStorageLocation g q k 0 w cnt r0 = .ok (skippedState 0 cnt r') := by
    intro q k w cnt r0
    unfold populateStorageLocation
    simp only
    by_cases h1 : startsWith k "seatUnder" = true ∧ r0.head > 95 / 100
    · rw [if_pos h1]
      exact ⟨_, rfl⟩
    rw [if_neg h1]
    generalize (if startsWith k "seatUnder" = true then r0.tail else r0) = r1
    by_cases h2 : startsWith k "seat" = true ∧ r1.head > 35 / 100
    · rw [if_pos h2]
      exact ⟨_, rfl⟩
    rw [if_neg h2]
    exact ⟨_, storageLoop_nothing_fits g q k w _ g.itemDb _ (fun kv hkv => hbelow kv hkv)⟩
  refine ⟨hzero, hbelow, hpop p key v counts r, ?_⟩
  intro gv loc hgen hnd hloc hh hcap
  obtain ⟨st, hrun, hst⟩ := generateSingleVehicle_some g r gv hgen
  obtain ⟨scene, r2, vehicle, r3, state, r4, color, trim, transmission, r5, contents,
    cnts, r6, -, -, -, -, hpopl, hst'⟩ := generateSingleVehicleRun_some g r st hrun
  subst hst'
  subst hst
  simp only at hnd hloc ⊢
  obtain ⟨counts0, r0, sst, hsst, hget⟩ :=
    populateLocations_storage_get g _ vehicle (getAllLocations vehicle)
      (getAllLocations_nodup vehicle hnd) _ _ _ _ hpopl key loc hloc hh
  rw [hcap] at hsst
  simp only [Option.getD_none] at hsst
  obtain ⟨r', hr'⟩ := hpop _ key vehicle counts0 r0
  rw [hr'] at hsst
  simp only [Except.ok.injEq] at hsst
  rw [hget, ← hsst]
  rfl

/-- The run of `exGenShelf` on the all-zero stream of draws. -/
theorem exGenShelf_generates :
    generateSingleVehicle exGenShelf (Rng.ofList []) = .ok (some exGeneratedShelf) := by
  decide!

/-- Witness of C22: the shelf of `exShelfCar`, of undeclared capacity, stays
empty although the socks are always present and always roll. -/
theorem undeclared_capacity_holds_nothing_witness :
    (∀ kv ∈ exGenShelf.itemDb, 1 ≤ kv.2.size ∧ kv.2.size ≤ 31) ∧
    (∃ r', populateStorageLocation exGenShelf (fun _ => true) "storShelf" 0 exShelfCar
        (fun _ => 0) (Rng.ofList []) = .ok (skippedState 0 (fun _ => 0) r')) ∧
    generateSingleVehicle exGenShelf (Rng.ofList []) = .ok (some exGeneratedShelf) ∧
    objGet exGeneratedShelf.contents "storShelf" = some [] :=
  ⟨by decide,
    (undeclared_capacity_holds_nothing exGenShelf (fun _ => true) "storShelf" exShelfCar
      (fun _ => 0) (Rng.ofList []) (by decide)).2.2.1,
    exGenShelf_generates,
    (undeclared_capacity_holds_nothing exGenShelf (fun _ => true) "storShelf" exShelfCar
      (fun _ => 0) (Rng.ofList []) (by decide)).2.2.2 exGeneratedShelf { capacity := none }
      exGenShelf_generates (by decide) (by decide) (by decide) rfl⟩

/-! ## Decay and elapsed time -/

theorem objGet_some_mem {α : Type} (m : List (String × α)) (k : String) (v : α)
    (h : objGet m k = some v) : (k, v) ∈ m := by
  induction m with
  | nil => simp [objGet] at h
  | cons kv rest ih =>
    obtain ⟨k0, v0⟩ := kv
    rw [objGet] at h
    by_cases hk : k0 = k
    · rw [if_pos hk] at h
      simp only [Option.some.injEq] at h
      rw [hk, h]
      exact List.mem_cons_self _ _
    · rw [if_neg hk] at h
      exact List.mem_cons_of_mem _ (ih h)

theorem objGet_of_mem_nodup {α : Type} (m : List (String × α)) (k : String) (v : α)
    (hnd : (m.map Prod.fst).Nodup) (h : (k, v) ∈ m) : objGet m k = some v := by
  obtain ⟨i, hi⟩ := List.mem_iff_getElem?.mp h
  exact objGet_of_getElem_nodup m i k v hnd hi

theorem decayStates_sorted (itmState : List (String × StateData)) :
    (decayStates itmState).Pairwise (fun a b => a.2.2 ≤ b.2.2) := by
  haveI : IsTotal (String × ℚ × Int) (fun a b => a.2.2 ≤ b.2.2) :=
    ⟨fun a b => le_total a.2.2 b.2.2⟩
  haveI : IsTrans (String × ℚ × Int) (fun a b => a.2.2 ≤ b.2.2) :=
    ⟨fun a b c hab hbc => le_trans hab hbc⟩
  exact List.sorted_insertionSort (fun a b : String × ℚ × Int => a.2.2 ≤ b.2.2) _

/-- On a list sorted by ordering index, ties allowed, the walk ends on a
passed state whose ordering index is the greatest among the passed states, if
a state has been passed. -/
theorem decayWalk_greatest_le (age : ℚ) (l : List (String × ℚ × Int)) (fs : String)
    (hs : l.Pairwise (fun a b => a.2.2 ≤ b.2.2)) (hq : ∃ x ∈ l, x.2.1 ≤ age) :
    ∃ x ∈ l, x.2.1 ≤ age ∧ decayWalk age l fs = x.1 ∧
      ∀ y ∈ l, y.2.1 ≤ age → y.2.2 ≤ x.2.2 := by
  induction l generalizing fs with
  | nil => simp at hq
  | cons x rest ih =>
    obtain ⟨k, dec, o⟩ := x
    rw [List.pairwise_cons] at hs
    by_cases hrest : ∃ y ∈ rest, y.2.1 ≤ age
    · obtain ⟨z, hz, hzq, hzw, hzmax⟩ := ih (if age ≥ dec then k else fs) hs.2 hrest
      refine ⟨z, List.mem_cons_of_mem _ hz, hzq, by simpa [decayWalk] using hzw, ?_⟩
      intro y hy hyq
      rcases List.mem_cons.mp hy with hy | hy
      · subst hy
        exact hs.1 z hz
      · exact hzmax y hy hyq
    · have hnone : ∀ y ∈ rest, ¬ (y.2.1 ≤ age) := fun y hy hyq => hrest ⟨y, hy, hyq⟩
      have hx : dec ≤ age := by
        obtain ⟨y, hy, hyq⟩ := hq
        rcases List.mem_cons.mp hy with hy | hy
        · subst hy; exact hyq
        · exact absurd hyq (hnone y hy)
      refine ⟨(k, dec, o), List.mem_cons_self _ _, hx, ?_, ?_⟩
      · have hge : age ≥ dec := hx
        simp only [decayWalk, hge, if_true]
        exact decayWalk_none_passed age rest k hnone
      · intro y hy hyq
        rcases List.mem_cons.mp hy with hy | hy
        · subst hy; exact le_refl _
        · exact absurd hyq (hnone y hy)

/-- C21 (amended). For a fixed item whose states all declare a decay
threshold and an ordering index, and fixed random draws (same initially picked
state, same base age): when `chooseStateWithDecay` returns a state for
`elapsedDays = e1` and some state's threshold is at or below the age computed
there, then for every `e2 ≥ e1` it also returns a state, with the age grown by
`e2 - e1` and the same draws consumed, and the ordering index of that state is
not smaller than the ordering index of the state returned for `e1`. -/
theorem decay_monotone_in_elapsed (item : Item) (e1 e2 : ℚ) (r r' : Rng) (s1 : String)
    (a1 : ℚ)
    (hnd : (item.itmState.map Prod.fst).Nodup)
    (hall : ∀ kd ∈ item.itmState, kd.2.decay ≠ none ∧ kd.2.ord ≠ none)
    (hle : e1 ≤ e2)
    (h1 : chooseStateWithDecay item e1 r = .ok ((s1, a1), r'))
    (hpassed : ∃ kd ∈ item.itmState, ∃ dec, kd.2.decay = some dec ∧ dec ≤ a1) :
    ∃ s2 d1 d2 o1 o2, chooseStateWithDecay item e2 r = .ok ((s2, a1 + (e2 - e1)), r') ∧
      objGet item.itmState s1 = some d1 ∧ d1.ord = some o1 ∧
      objGet item.itmState s2 = some d2 ∧ d2.ord = some o2 ∧ o1 ≤ o2 := by
  cases hc : choose (item.itmState.map (fun kd => (kd.1, kd.2.comState))) r with
  | error e =>
    unfold chooseStateWithDecay at h1
    simp only [hc] at h1
    cases h1
  | ok p =>
    obtain ⟨init, r1⟩ := p
    cases hget : objGet item.itmState init with
    | none =>
      unfold chooseStateWithDecay at h1
      simp only [hc, hget] at h1
      cases h1
    | some sd =>
      have hsd := hall (init, sd) (objGet_some_mem _ _ _ hget)
      cases hdec : sd.decay with
      | none => exact absurd hdec hsd.1
      | some dec0 =>
        have hrun : ∀ e : ℚ, chooseStateWithDecay item e r
            = .ok ((decayWalk
                (((if item.category = "consumable_food" then floorMul r1.head 8
                  else floorMul r1.head 440 : Int) : ℚ) + e)
                (decayStates item.itmState) init,
              ((if item.category = "consumable_food" then floorMul r1.head 8
                  else floorMul r1.head 440 : Int) : ℚ) + e), r1.tail) := by
          intro e
          unfold chooseStateWithDecay
          simp only [hc, hget, hdec]
        generalize ((if item.category = "consumable_food" then floorMul r1.head 8
            else floorMul r1.head 440 : Int) : ℚ) = b at hrun
        rw [hrun e1] at h1
        simp only [Except.ok.injEq, Prod.mk.injEq] at h1
        obtain ⟨⟨hstate, hage⟩, hr⟩ := h1
        have hage2 : a1 + (e2 - e1) = b + e2 := by rw [← hage]; ring
        have ha12 : a1 ≤ b + e2 := by rw [← hage]; linarith
        have hq1 : ∃ x ∈ decayStates item.itmState, x.2.1 ≤ a1 := by
          obtain ⟨kd, hkd, dec, hd, hda⟩ := hpassed
          cases ho : kd.2.ord with
          | none => exact absurd ho (hall kd hkd).2
          | some o =>
            refine ⟨(kd.1, dec, o), ?_, hda⟩
            rw [(decayStates_perm item.itmState).mem_iff, decayCandidates_mem]
            exact ⟨kd, hkd, rfl, hd, ho⟩
        have hq2 : ∃ x ∈ decayStates item.itmState, x.2.1 ≤ b + e2 := by
          obtain ⟨x, hx, hxa⟩ := hq1
          exact ⟨x, hx, le_trans hxa ha12⟩
        obtain ⟨x1, hx1, hx1q, hx1w, -⟩ := decayWalk_greatest_le a1
          (decayStates item.itmState) init (decayStates_sorted item.itmState) hq1
        obtain ⟨x2, hx2, -, hx2w, hx2max⟩ := decayWalk_greatest_le (b + e2)
          (decayStates item.itmState) init (decayStates_sorted item.itmState) hq2
        have hord : x1.2.2 ≤ x2.2.2 := hx2max x1 hx1 (le_trans hx1q ha12)
        obtain ⟨k1, dec1, o1⟩ := x1
        obtain ⟨k2, dec2, o2⟩ := x2
        rw [(decayStates_perm item.itmState).mem_iff, decayCandidates_mem] at hx1 hx2
        obtain ⟨kd1, hkd1, hk1, -, hko1⟩ := hx1
        obtain ⟨kd2, hkd2, hk2, -, hko2⟩ := hx2
        refine ⟨k2, kd1.2, kd2.2, o1, o2, ?_, ?_, hko1, ?_, hko2, hord⟩
        · rw [hrun e2, hage2, hx2w, hr]
        · rw [← hstate, hage, hx1w]
          exact objGet_of_mem_nodup _ _ _ hnd (by rw [← hk1]; exact hkd1)
        · exact objGet_of_mem_nodup _ _ _ hnd (by rw [← hk2]; exact hkd2)

/-- Witness of C21 (amended): the apple, stale after 10 elapsed days (index 1),
is rotten after 30 (index 2). -/
theorem decay_monotone_in_elapsed_witness :
    ∃ r', chooseStateWithDecay exApple 10 (Rng.ofList []) = .ok (("stale", 10), r') ∧
      ∃ s2 d1 d2 o1 o2,
        chooseStateWithDecay exApple 30 (Rng.ofList []) = .ok ((s2, 10 + (30 - 10)), r') ∧
        objGet exApple.itmState "stale" = some d1 ∧ d1.ord = some o1 ∧
        objGet exApple.itmState s2 = some d2 ∧ d2.ord = some o2 ∧ o1 ≤ o2 := by
  obtain ⟨r', hr'⟩ := Except.ok_of_map_fst
    (chooseStateWithDecay exApple 10 (Rng.ofList [])) ("stale", 10) (by decide!)
  exact ⟨r', hr', decay_monotone_in_elapsed exApple 10 30 (Rng.ofList []) r' "stale" 10
    (by decide) (by decide) (by norm_num) hr'
    ⟨("fresh", { comState := 1, decay := some 0, ord := some 0 }), by simp [exApple], 0,
      rfl, by norm_num⟩⟩

/-- C21 fails as stated when no threshold has been passed at the smaller
elapsed time: every state of `exCheese` declares a decay threshold and an
ordering index; with every draw 0 the initially picked state is `rotten` and
the base age is 0. For 3 elapsed days no threshold is passed and `rotten`
(index 2) is returned; for 6 elapsed days `fresh` (index 0) is returned. -/
theorem decay_not_monotone_before_first_threshold :
    (exCheese.itmState.map Prod.fst).Nodup ∧
    (∀ kd ∈ exCheese.itmState, kd.2.decay ≠ none ∧ kd.2.ord ≠ none) ∧
    (choose (exCheese.itmState.map (fun kd => (kd.1, kd.2.comState))) (Rng.ofList [])).map
      Prod.fst = .ok "rotten" ∧
    (chooseStateWithDecay exCheese 3 (Rng.ofList [])).map Prod.fst = .ok ("rotten", 3) ∧
    (chooseStateWithDecay exCheese 6 (Rng.ofList [])).map Prod.fst = .ok ("fresh", 6) ∧
    (objGet exCheese.itmState "rotten").bind (fun d => d.ord) = some 2 ∧
    (objGet exCheese.itmState "fresh").bind (fun d => d.ord) = some 0 := by
  decide!

end ThingsLeftBehind
